import Mathlib

/-!
Verification development for the excelify expression/evaluation engine.

The Python source (src/excelify) is shallowly embedded below:

* Python numbers (int/float) are idealised as exact rationals `ℚ`; the
  IEEE sentinels `np.inf`, `-inf` and `nan` and Python booleans are the
  remaining `Val` constructors.  A cell's cached `last_value` of `None`
  is `Option.none`.
* Cells are addressed by `Element` (table id, column name, row index);
  a `CellRef` holds the referenced cell's `Element` and reads its cached
  value from a store `Element → Option Val`, mirroring how the Python
  `CellRef` object holds a `Cell` and reads `cell.last_value`.
* Fallible code (KeyError / IndexError / the InvalidCellException used
  by the renderer) is modelled with `Except RenderErr`.
-/

/-- One computed spreadsheet value: an exact rational standing for a
Python int/float, the numpy infinity sentinels, nan, or a boolean. -/
inductive Val where
  | num (q : ℚ)
  | inf
  | ninf
  | nan
  | boolv (b : Bool)
deriving DecidableEq, Repr

namespace Val

/-- Python arithmetic treats `bool` as the ints 0/1. -/
def norm : Val → Val
  | boolv b => num (if b then 1 else 0)
  | v => v

/-- Python `+` on numbers (floats idealised as rationals, IEEE rules for
the infinities and nan). -/
def addOp (a b : Val) : Val :=
  match a.norm, b.norm with
  | nan, _ => nan
  | _, nan => nan
  | inf, ninf => nan
  | ninf, inf => nan
  | inf, _ => inf
  | _, inf => inf
  | ninf, _ => ninf
  | _, ninf => ninf
  | num x, num y => num (x + y)
  | _, _ => nan

/-- Python unary `-`. -/
def negOp (a : Val) : Val :=
  match a.norm with
  | nan => nan
  | inf => ninf
  | ninf => inf
  | num x => num (-x)
  | v => v

/-- Python `-` on numbers. -/
def subOp (a b : Val) : Val := addOp a (negOp b)

/-- Python `*` on numbers (IEEE rules: `inf * 0 = nan`, signs multiply). -/
def mulOp (a b : Val) : Val :=
  match a.norm, b.norm with
  | nan, _ => nan
  | _, nan => nan
  | inf, inf => inf
  | inf, ninf => ninf
  | ninf, inf => ninf
  | ninf, ninf => inf
  | inf, num y => if y = 0 then nan else if 0 < y then inf else ninf
  | num x, inf => if x = 0 then nan else if 0 < x then inf else ninf
  | ninf, num y => if y = 0 then nan else if 0 < y then ninf else inf
  | num x, ninf => if x = 0 then nan else if 0 < x then ninf else inf
  | num x, num y => num (x * y)
  | _, _ => nan

/-- Whether a value is the number zero (a zero divisor raises
`ZeroDivisionError` in Python, whatever the numerator). -/
def isZero (a : Val) : Bool :=
  match a.norm with
  | num x => x = 0
  | _ => false

/-- The division performed by `Div.compute`: Python `/` with the
`except ZeroDivisionError: return np.inf` catch, so a zero divisor
yields the positive-infinity sentinel `np.inf` unconditionally. -/
def divOp (a b : Val) : Val :=
  if b.isZero then inf
  else
    match a.norm, b.norm with
    | nan, _ => nan
    | _, nan => nan
    | inf, inf => nan
    | inf, ninf => nan
    | ninf, inf => nan
    | ninf, ninf => nan
    | num _, inf => num 0
    | num _, ninf => num 0
    | inf, num y => if 0 < y then inf else ninf
    | ninf, num y => if 0 < y then ninf else inf
    | num x, num y => num (x / y)
    | _, _ => nan

/-- Python `>` on numbers: any comparison with nan is false. -/
def gtOp (a b : Val) : Bool :=
  match a.norm, b.norm with
  | nan, _ => false
  | _, nan => false
  | inf, inf => false
  | inf, _ => true
  | _, inf => false
  | ninf, ninf => false
  | ninf, _ => false
  | _, ninf => true
  | num x, num y => y < x
  | _, _ => false

/-- Python `==` on numbers (nan is not equal to itself). -/
def eqOp (a b : Val) : Bool :=
  match a.norm, b.norm with
  | nan, _ => false
  | _, nan => false
  | inf, inf => true
  | ninf, ninf => true
  | num x, num y => x = y
  | _, _ => false

/-- Python `<`. -/
def ltOp (a b : Val) : Bool := gtOp b a

/-- Python `>=`. -/
def geOp (a b : Val) : Bool := gtOp a b || eqOp a b

/-- Python `<=`. -/
def leOp (a b : Val) : Bool := ltOp a b || eqOp a b

/-- Python builtin `max(a, b)` (returns `b` exactly when `b > a`). -/
def maxOp (a b : Val) : Val := if gtOp b a then b else a

/-- Python builtin `min(a, b)` (returns `b` exactly when `b < a`). -/
def minOp (a b : Val) : Val := if ltOp b a then b else a

/-- Python `**`.  Rational exponentiation is only exact for integer
exponents; a non-integer exponent (whose float result is generally not
representable in the rational carrier) and the `0 ** negative` case
(which raises in Python) are mapped to `nan` as the model boundary. -/
def powOp (a b : Val) : Val :=
  match a.norm, b.norm with
  | nan, _ => nan
  | _, nan => nan
  | num x, num y =>
      if y.den = 1 then
        if x = 0 ∧ y.num < 0 then nan else num (x ^ y.num)
      else nan
  | num x, inf => if 1 < |x| then inf else if x = 0 then num 0 else num 1
  | num x, ninf => if 1 < |x| then num 0 else if x = 0 then inf else num 1
  | inf, num y => if 0 < y then inf else if y = 0 then num 1 else num 0
  | ninf, num y => if 0 < y then ninf else if y = 0 then num 1 else num 0
  | inf, inf => inf
  | inf, ninf => num 0
  | ninf, inf => inf
  | ninf, ninf => num 0
  | _, _ => nan

/-- Python truthiness `bool(value)` of a computed value. -/
def truthy : Val → Bool
  | num q => q ≠ 0
  | inf => true
  | ninf => true
  | nan => true
  | boolv b => b

end Val

/-- `Element`: the identity of one logical cell, `(table id, column
name, row index)`.  Python uses a `uuid` for the table id; a natural
number stands in for it. -/
structure Element where
  id : ℕ
  col_name : String
  idx : ℕ
deriving DecidableEq, Repr

/-- The cached `last_value` of every cell: `Cell._last_value` starts as
`None` and is overwritten by `Cell.compute()`. -/
def Store : Type := Element → Option Val

/-- The expression AST of `_cell_expr.py`.  `CellRef` and the aggregate
nodes hold the `Element`s of the `Cell` objects the Python nodes point
at. `Constant` holds the raw payload (`Constant(value.last_value)` in
`evaluate` can store `None`, hence the `Option`). -/
inductive CellExpr where
  | Empty
  | Invalid
  | Constant (value : Option Val)
  | CellRef (cell_ref : Element)
  | SumCellsRef (cells : List Element)
  | AverageCellsRef (cells : List Element)
  | SumProdCellsRef (columns : List (List Element))
  | Mult (l r : CellExpr)
  | Add (l r : CellExpr)
  | Div (l r : CellExpr)
  | Sub (l r : CellExpr)
  | Max (l r : CellExpr)
  | Min (l r : CellExpr)
  | If (c t f : CellExpr)
  | Compare (l r : CellExpr) (op : String)
  | Pow (l r : CellExpr)
  | Neg (e : CellExpr)
deriving DecidableEq, Repr

namespace CellExpr

/-- `dependencies`: the direct dependency list of each node, in the
concatenation order of the source. -/
def dependencies : CellExpr → List Element
  | Empty => []
  | Invalid => []
  | Constant _ => []
  | CellRef c => [c]
  | SumCellsRef cells => cells
  | AverageCellsRef cells => cells
  | SumProdCellsRef columns => columns.flatten
  | Mult l r => l.dependencies ++ r.dependencies
  | Add l r => l.dependencies ++ r.dependencies
  | Div l r => l.dependencies ++ r.dependencies
  | Sub l r => l.dependencies ++ r.dependencies
  | Max l r => l.dependencies ++ r.dependencies
  | Min l r => l.dependencies ++ r.dependencies
  | If c t f => c.dependencies ++ t.dependencies ++ f.dependencies
  | Compare l r _ => l.dependencies ++ r.dependencies
  | Pow l r => l.dependencies ++ r.dependencies
  | Neg e => e.dependencies

/-- `OPERATOR_PRECEDENCE` dispatched through each class's
`get_precedence` override (nodes without an override, including `Max`,
`Min`, `If` and the aggregates, keep the default 0). -/
def get_precedence : CellExpr → ℕ
  | Mult _ _ => 3
  | Div _ _ => 3
  | Add _ _ => 2
  | Sub _ _ => 2
  | Compare _ _ _ => 1
  | Pow _ _ => 4
  | Neg _ => 5
  | _ => 0

/-- `CellExpr.needs_parentheses`. -/
def needs_parentheses (e : CellExpr) (parent_precedence : ℕ)
    (is_right_operand : Bool) : Bool :=
  let my_precedence := e.get_precedence
  if my_precedence = 0 then false
  else if my_precedence < parent_precedence then true
  else if my_precedence = parent_precedence ∧ is_right_operand then
    -- right-associative exponentiation is exempt
    parent_precedence ≠ 4
  else false

/-- `is_primitive`. -/
def is_primitive : CellExpr → Bool
  | Empty => true
  | Invalid => true
  | Constant _ => true
  | _ => false

/-- `any(value is None for value in values)` / collecting the values. -/
def allSome : List (Option Val) → Option (List Val)
  | [] => some []
  | none :: _ => none
  | some v :: rest => (allSome rest).map (v :: ·)

/-- Python `sum(values)` (left fold starting from the int 0). -/
def pySum (vs : List Val) : Val := vs.foldl Val.addOp (Val.num 0)

/-- Python `math.prod(values)` (left fold starting from the int 1). -/
def pyProd (vs : List Val) : Val := vs.foldl Val.mulOp (Val.num 1)

/-- `compute()` of every node, reading dependency cells' cached
`last_value`s from the store.  `SumProdCellsRef` with no columns or an
`AverageCellsRef` over an empty list would raise in Python; those
unreachable-by-construction cases are mapped to `nan`. -/
def compute (e : CellExpr) (st : Store) : Option Val :=
  match e with
  | Empty => none
  | Invalid => none
  | Constant v => v
  | CellRef c => st c
  | SumCellsRef cells =>
      (allSome (cells.map st)).map pySum
  | AverageCellsRef cells =>
      (allSome (cells.map st)).map fun vs =>
        if cells.length = 0 then Val.nan
        else Val.divOp (pySum vs) (Val.num cells.length)
  | SumProdCellsRef columns =>
      (allSome (columns.flatten.map st)).map fun _ =>
        let values := columns.map fun col => col.map fun c => (st c).getD Val.nan
        match values with
        | [] => Val.nan
        | first :: _ =>
            pySum ((List.range first.length).map fun i =>
              pyProd (values.map fun col => col.getD i Val.nan))
  | Mult l r =>
      match l.compute st, r.compute st with
      | some a, some b => some (Val.mulOp a b)
      | _, _ => none
  | Add l r =>
      match l.compute st, r.compute st with
      | some a, some b => some (Val.addOp a b)
      | _, _ => none
  | Div l r =>
      match l.compute st, r.compute st with
      | some a, some b => some (Val.divOp a b)
      | _, _ => none
  | Sub l r =>
      match l.compute st, r.compute st with
      | some a, some b => some (Val.subOp a b)
      | _, _ => none
  | Max l r =>
      match l.compute st, r.compute st with
      | some a, some b => some (Val.maxOp a b)
      | _, _ => none
  | Min l r =>
      match l.compute st, r.compute st with
      | some a, some b => some (Val.minOp a b)
      | _, _ => none
  | If c t f =>
      match c.compute st with
      | none => none
      | some cv => if cv.truthy then t.compute st else f.compute st
  | Compare l r op =>
      match l.compute st, r.compute st with
      | some a, some b =>
          if op = ">" then some (Val.boolv (Val.gtOp a b))
          else if op = "<" then some (Val.boolv (Val.ltOp a b))
          else if op = ">=" then some (Val.boolv (Val.geOp a b))
          else if op = "<=" then some (Val.boolv (Val.leOp a b))
          else if op = "=" then some (Val.boolv (Val.eqOp a b))
          else if op = "<>" then some (Val.boolv (!Val.eqOp a b))
          else none
      | _, _ => none
  | Pow l r =>
      match l.compute st, r.compute st with
      | some a, some b => some (Val.powOp a b)
      | _, _ => none
  | Neg e =>
      match e.compute st with
      | some a => some (Val.negOp a)
      | _ => none

end CellExpr

/-! ## Decimal text: models Python `str()` of numbers and `float()` parsing -/

/-- The character of a decimal digit. -/
def digitChar (n : ℕ) : Char := Char.ofNat (48 + n % 10)

/-- The decimal digits of a natural number, most significant first
(fuelled; any fuel above `n` is enough). -/
def natToDigitsAux : ℕ → ℕ → List Char
  | 0, _ => []
  | fuel + 1, n =>
      if n < 10 then [digitChar n]
      else natToDigitsAux fuel (n / 10) ++ [digitChar (n % 10)]

/-- The decimal digits of a natural number, most significant first
(models Python `str(int)` for nonnegative ints). -/
def natToDigits (n : ℕ) : List Char := natToDigitsAux (n + 1) n

def natToStr (n : ℕ) : String := ⟨natToDigits n⟩

/-- Python `str(int)` including the sign. -/
def intStr (z : ℤ) : String :=
  (if z < 0 then "-" else "") ++ natToStr z.natAbs

/-- `natToDigits` left-padded with zeros to width `k`. -/
def natToDigitsPad (k n : ℕ) : List Char :=
  let d := natToDigits n
  List.replicate (k - d.length) '0' ++ d

/-- The least `k` with `den ∣ 10 ^ k`, when one exists: the number of
decimal digits needed to write a rational exactly.  Every Python float
is a dyadic rational and therefore has such a `k`. -/
def decScale (den : ℕ) : Option ℕ :=
  (List.range (den + 1)).find? fun k => 10 ^ k % den = 0

/-- Python `str()` of a number, idealised: the exact shortest decimal
form (Python prints the shortest decimal that round-trips the float;
for the dyadic rationals modelling floats this is their exact finite
decimal expansion).  The int/float distinction (`str(3)` vs `"3.0"`)
and scientific notation for tiny/huge magnitudes are dropped; both
re-parse to the same value, which is all the codec claims depend on.
Rationals with no finite decimal form cannot arise from float
arithmetic; they print as a non-numeric marker. -/
def ratToStr (q : ℚ) : String :=
  match decScale q.den with
  | none => "NONDECIMAL"
  | some k =>
      let m : ℤ := q.num * (10 : ℤ) ^ k / q.den
      if k = 0 then intStr m
      else
        (if q < 0 then "-" else "") ++ natToStr (m.natAbs / 10 ^ k) ++ "." ++
          ⟨natToDigitsPad k (m.natAbs % 10 ^ k)⟩

/-! ## Column letters.

The alphabetic column codec lives in `excelify/_col_conversion.py`,
which is not present under src/ (only its importers are), so the two
functions are modelled from the spec. -/

/-- Modelled from the spec: `_col_conversion.int_to_alpha` is absent
from src/; the spec fixes it as base-26 alphabetic form with no zero
digit, 0 → "A", 25 → "Z", 26 → "AA", 701 → "ZZ" (bijective base-26). -/
def int_to_alpha_aux : ℕ → ℕ → List Char
  | 0, _ => []
  | fuel + 1, n =>
      let r := n % 26
      let q := n / 26
      if q = 0 then [Char.ofNat (65 + r)]
      else int_to_alpha_aux fuel (q - 1) ++ [Char.ofNat (65 + r)]

def int_to_alpha_chars (n : ℕ) : List Char := int_to_alpha_aux (n + 1) n

def int_to_alpha (n : ℕ) : String := ⟨int_to_alpha_chars n⟩

/-- Modelled from the spec: `_col_conversion.alpha_to_int`, the inverse
direction required for read-back (A → 0, Z → 25, AA → 26). -/
def alpha_to_int (s : String) : ℕ :=
  s.data.foldl (fun acc c => acc * 26 + (c.toNat - 64)) 0 - 1

/-! ## Position mapper (`_cell_mapping.py`) -/

inductive DisplayAxis where
  | VERTICAL
  | HORIZONTAL
deriving DecidableEq, Repr

/-- What `CellMapping.__init__` records per table id: its start
position, its ordered column names and its styler's display axis. -/
structure TableLayout where
  start_row : ℕ
  start_col : ℕ
  columns : List String
  axis : DisplayAxis
deriving DecidableEq, Repr

/-- `CellMapping`: placements keyed by table id plus the
`header_in_table` flag (default `True` in the source). -/
structure CellMapping where
  tables : List (ℕ × TableLayout)
  header_in_table : Bool
deriving DecidableEq, Repr

namespace CellMapping

/-- Dictionary lookup `self._id_to_df[id]` / `self._id_to_start_pos[id]`
(`none` models the `KeyError`). -/
def layout? (m : CellMapping) (id : ℕ) : Option TableLayout :=
  (m.tables.find? fun p => p.1 == id).map (·.2)

end CellMapping

/-- `self._columns[id][col_name]`: the position of a column name in the
table's ordered column list (column names are unique per table, being
dict keys in the source). -/
def TableLayout.colIdx? (t : TableLayout) (c : String) : Option ℕ :=
  t.columns.findIdx? (· == c)

namespace CellMapping

/-- `CellMapping.get_cell_index`. -/
def get_cell_index (m : CellMapping) (e : Element) : Option (ℕ × ℕ) := do
  let t ← m.layout? e.id
  let colpos ← t.colIdx? e.col_name
  match t.axis with
  | .VERTICAL => pure (t.start_row + e.idx + 1, t.start_col + colpos)
  | .HORIZONTAL => pure (t.start_row + colpos, t.start_col + e.idx + 1)

/-- `CellMapping.__getitem__`: an `Element`'s spreadsheet address text
(`none` models the `KeyError` for an unknown table id / column name). -/
def getItem (m : CellMapping) (e : Element) : Option String := do
  let t ← m.layout? e.id
  let colpos ← t.colIdx? e.col_name
  match t.axis with
  | .VERTICAL =>
      let col_alpha_idx := int_to_alpha (colpos + t.start_col)
      let row_idx := t.start_row + e.idx + 1 + (if m.header_in_table then 1 else 0)
      pure (col_alpha_idx ++ natToStr row_idx)
  | .HORIZONTAL =>
      let col_alpha_idx :=
        int_to_alpha (t.start_col + (if m.header_in_table then 1 else 0) + e.idx)
      let row_idx := t.start_row + 1 + colpos
      pure (col_alpha_idx ++ natToStr row_idx)

/-- `CellMapping.__contains__`: checks the table id and column name
only (not the row index). -/
def contains (m : CellMapping) (e : Element) : Bool :=
  match m.layout? e.id with
  | none => false
  | some t => (t.colIdx? e.col_name).isSome

end CellMapping

/-! ## Formula renderer (`to_formula` in `_cell_expr.py` / `_cell.py`) -/

/-- The exceptions that can escape a render call: the
`InvalidCellException` raised by `Invalid.to_formula` (and caught by
every operator node), the `KeyError` of an unmapped address lookup, the
`IndexError` of an empty aggregate range, and the `TypeError` of
`float(None)`. -/
inductive RenderErr where
  | invalid
  | keyError
  | indexError
  | typeError
deriving DecidableEq, Repr

/-- The `RawInput` union (`int | float | str`) that `to_formula`
returns: composite nodes build strings, `Constant`/`Empty` return their
raw payload, which is only str()-ified when interpolated by a parent
node or by `Cell.to_formula`. -/
inductive RawInput where
  | str (s : String)
  | val (v : Option Val)
deriving DecidableEq, Repr

/-- Python `str()` of a raw payload, as used by f-string
interpolation. -/
def RawInput.toStr : RawInput → String
  | .str s => s
  | .val none => "None"
  | .val (some (.num q)) => ratToStr q
  | .val (some .inf) => "inf"
  | .val (some .ninf) => "-inf"
  | .val (some .nan) => "nan"
  | .val (some (.boolv b)) => if b then "True" else "False"

/-- `_get_cell_mapping`: address text of an element, the `???` 
placeholder substituted when the caller opted out of raising. -/
def get_cell_mapping (element : Element) (mapping : CellMapping)
    (raise_if_missing : Bool) : Except RenderErr String :=
  if raise_if_missing || mapping.contains element then
    match mapping.getItem element with
    | some s => .ok s
    | none => .error .keyError
  else
    .ok ("???:" ++ element.col_name ++ ":" ++ natToStr element.idx)

/-- The `except InvalidCellException: return "ERROR"` wrapper every
operator node's `to_formula` body runs under.  Only the invalid-cell
exception is caught; `KeyError` etc. keep propagating. -/
def catchInvalid (x : Except RenderErr RawInput) : Except RenderErr RawInput :=
  match x with
  | .error .invalid => .ok (.str "ERROR")
  | other => other

/-- `f"({formula})"` when the operand needs wrapping. -/
def wrapOperand (e : CellExpr) (prec : ℕ) (isRight : Bool) (s : String) : String :=
  if e.needs_parentheses prec isRight then "(" ++ s ++ ")" else s

namespace CellExpr

/-- `to_formula` of every expression node. -/
def to_formula (e : CellExpr) (mapping : CellMapping)
    (raise_if_missing : Bool) : Except RenderErr RawInput :=
  match e with
  | Empty => .ok (.str "")
  | Invalid => .error .invalid
  | Constant v => .ok (.val v)
  | CellRef c => (get_cell_mapping c mapping raise_if_missing).map .str
  | SumCellsRef cells =>
      match cells.head?, cells.getLast? with
      | some c0, some c1 => do
          let fromCell ← get_cell_mapping c0 mapping raise_if_missing
          let toCell ← get_cell_mapping c1 mapping raise_if_missing
          pure (.str ("SUM(" ++ fromCell ++ ":" ++ toCell ++ ")"))
      | _, _ => .error .indexError
  | AverageCellsRef cells =>
      match cells.head?, cells.getLast? with
      | some c0, some c1 => do
          let fromCell ← get_cell_mapping c0 mapping raise_if_missing
          let toCell ← get_cell_mapping c1 mapping raise_if_missing
          pure (.str ("AVERAGE(" ++ fromCell ++ ":" ++ toCell ++ ")"))
      | _, _ => .error .indexError
  | SumProdCellsRef columns =>
      (do
        let ranges ← columns.mapM fun col =>
          match col.head?, col.getLast? with
          | some c0, some c1 => do
              let fromCell ← get_cell_mapping c0 mapping raise_if_missing
              let toCell ← get_cell_mapping c1 mapping raise_if_missing
              pure (fromCell ++ ":" ++ toCell)
          | _, _ => (.error .indexError : Except RenderErr String)
        pure (.str ("SUMPRODUCT(" ++ String.intercalate "," ranges ++ ")")))
  | Mult l r =>
      catchInvalid (do
        let lf ← to_formula l mapping raise_if_missing
        let rf ← to_formula r mapping raise_if_missing
        let ls := wrapOperand l 3 false lf.toStr
        let rs := wrapOperand r 3 true rf.toStr
        pure (.str (ls ++ " * " ++ rs)))
  | Add l r =>
      catchInvalid (do
        let lf ← to_formula l mapping raise_if_missing
        let rf ← to_formula r mapping raise_if_missing
        let ls := wrapOperand l 2 false lf.toStr
        let rs := wrapOperand r 2 true rf.toStr
        pure (.str (ls ++ " + " ++ rs)))
  | Div l r =>
      catchInvalid (do
        let lf ← to_formula l mapping raise_if_missing
        let rf ← to_formula r mapping raise_if_missing
        let ls := wrapOperand l 3 false lf.toStr
        let rs := wrapOperand r 3 true rf.toStr
        pure (.str (ls ++ " / " ++ rs)))
  | Sub l r =>
      catchInvalid (do
        let lf ← to_formula l mapping raise_if_missing
        let rf ← to_formula r mapping raise_if_missing
        let ls := wrapOperand l 2 false lf.toStr
        let rs := wrapOperand r 2 true rf.toStr
        pure (.str (ls ++ " - " ++ rs)))
  | Max l r =>
      catchInvalid (do
        let lf ← to_formula l mapping raise_if_missing
        let rf ← to_formula r mapping raise_if_missing
        pure (.str ("MAX(" ++ lf.toStr ++ ", " ++ rf.toStr ++ ")")))
  | Min l r =>
      catchInvalid (do
        let lf ← to_formula l mapping raise_if_missing
        let rf ← to_formula r mapping raise_if_missing
        pure (.str ("MIN(" ++ lf.toStr ++ ", " ++ rf.toStr ++ ")")))
  | If c t f =>
      catchInvalid (do
        let cf ← to_formula c mapping raise_if_missing
        let tf ← to_formula t mapping raise_if_missing
        let ff ← to_formula f mapping raise_if_missing
        pure (.str ("IF(" ++ cf.toStr ++ ", " ++ tf.toStr ++ ", " ++ ff.toStr ++ ")")))
  | Compare l r op =>
      catchInvalid (do
        let lf ← to_formula l mapping raise_if_missing
        let rf ← to_formula r mapping raise_if_missing
        let ls := wrapOperand l 1 false lf.toStr
        let rs := wrapOperand r 1 true rf.toStr
        pure (.str (ls ++ " " ++ op ++ " " ++ rs)))
  | Pow l r =>
      catchInvalid (do
        let lf ← to_formula l mapping raise_if_missing
        let rf ← to_formula r mapping raise_if_missing
        let ls := wrapOperand l 4 false lf.toStr
        let rs := wrapOperand r 4 true rf.toStr
        pure (.str (ls ++ " ^ " ++ rs)))
  | Neg e =>
      catchInvalid (do
        let ef ← to_formula e mapping raise_if_missing
        let es := wrapOperand e 5 false ef.toStr
        pure (.str ("-" ++ es)))

end CellExpr

/-! ## `Cell.to_formula` (`_cell.py`): numeric reformatting -/

/-- The value of a digit string. -/
def digitsVal (cs : List Char) : ℕ :=
  cs.foldl (fun a c => a * 10 + (c.toNat - 48)) 0

/-- Exponent part of a float literal: `(e|E)(+|-)?digits`. -/
def parseExpPart : List Char → Option ℚ
  | [] => some 1
  | c :: rest =>
      if c = 'e' ∨ c = 'E' then
        match rest with
        | '+' :: ds =>
            if ds ≠ [] ∧ ds.all Char.isDigit then some ((10 : ℚ) ^ digitsVal ds)
            else none
        | '-' :: ds =>
            if ds ≠ [] ∧ ds.all Char.isDigit then some (1 / (10 : ℚ) ^ digitsVal ds)
            else none
        | ds =>
            if ds ≠ [] ∧ ds.all Char.isDigit then some ((10 : ℚ) ^ digitsVal ds)
            else none
      else none

/-- Body of a float literal after the sign: digits with an optional
point, fraction and exponent, consuming the whole input. -/
def parseFloatBody (cs : List Char) : Option ℚ :=
  let d1 := cs.takeWhile Char.isDigit
  let r1 := cs.drop d1.length
  match r1 with
  | '.' :: r2 =>
      let d2 := r2.takeWhile Char.isDigit
      let r3 := r2.drop d2.length
      if d1.length + d2.length = 0 then none
      else
        (parseExpPart r3).map fun ex =>
          (digitsVal (d1 ++ d2) : ℚ) / 10 ^ d2.length * ex
  | _ =>
      if d1.length = 0 then none
      else (parseExpPart r1).map fun ex => (digitsVal d1 : ℚ) * ex

/-- Float literal after optional surrounding whitespace: sign, then the
inf/infinity/nan words (case-insensitive) or a decimal body. -/
def pyFloatUnsigned (cs : List Char) (negate : Bool) : Option Val :=
  let low := cs.map Char.toLower
  if low = "inf".data ∨ low = "infinity".data then
    some (if negate then .ninf else .inf)
  else if low = "nan".data then some .nan
  else (parseFloatBody cs).map fun q => .num (if negate then -q else q)

def pyFloatCore : List Char → Option Val
  | '+' :: rest => pyFloatUnsigned rest false
  | '-' :: rest => pyFloatUnsigned rest true
  | cs => pyFloatUnsigned cs false

/-- Python `float(s)` on a string, i.e. the `try: float(s)` probe of
`_is_float` (`none` models the `ValueError`).  PEP-515 underscore
separators, which no rendered text contains, are not modelled. -/
def pyFloat? (s : String) : Option Val :=
  pyFloatCore (((s.data.dropWhile (· = ' ')).reverse.dropWhile (· = ' ')).reverse)

/-- `_is_float`. -/
def _is_float (s : String) : Bool := (pyFloat? s).isSome

/-- Rounding to an integer, ties to even: what `f"{x:.2f}"` does to the
exact value (floats are formatted by correctly rounding their exact
binary value, ties to even digits). -/
def roundHalfEven (x : ℚ) : ℤ :=
  let f := ⌊x⌋
  let r := x - f
  if r < 1 / 2 then f
  else if 1 / 2 < r then f + 1
  else if f % 2 = 0 then f else f + 1

/-- Comma-grouping of a reversed digit list. -/
def groupThousandsRev : List Char → List Char
  | a :: b :: c :: d :: rest => a :: b :: c :: ',' :: groupThousandsRev (d :: rest)
  | l => l

/-- `f"{x:,.2f}"`: fixed two decimals with comma thousands
separators. -/
def formatCommas (q : ℚ) : String :=
  let cents := roundHalfEven (q * 100)
  (if q < 0 then "-" else "") ++
    ⟨(groupThousandsRev (natToDigits (cents.natAbs / 100)).reverse).reverse⟩ ++
    "." ++ ⟨natToDigitsPad 2 (cents.natAbs % 100)⟩

/-- `f"{float(value):,.2f}"` of a computed value (`float` of the numpy
sentinels formats as `inf`/`-inf`/`nan`; bools convert to 0/1). -/
def formatVal (v : Val) : String :=
  match v.norm with
  | .num q => formatCommas q
  | .inf => "inf"
  | .ninf => "-inf"
  | .nan => "nan"
  | .boolv _ => ""

/-- `Cell.to_formula` without a styler: render the expression, and if
the result parses as a float, reformat it as comma-separated
two-decimal text.  `float(None)` raises `TypeError` (uncaught). -/
def cell_to_formula (e : CellExpr) (mapping : CellMapping)
    (raise_if_missing : Bool) : Except RenderErr String := do
  let value ← e.to_formula mapping raise_if_missing
  match value with
  | .str s =>
      match pyFloat? s with
      | some v => pure (formatVal v)
      | none => pure s
  | .val none => Except.error .typeError
  | .val (some v) => pure (formatVal v)

/-- The cell text persisted by the spreadsheet write path (`to_excel`):
`cell.to_formula(mapping)` with `raise_if_missing` defaulted to `True`,
prefixed with `=` unless the expression `is_primitive()`. -/
def write_cell_text (mapping : CellMapping) (e : CellExpr) :
    Except RenderErr String := do
  let formula ← cell_to_formula e mapping true
  pure (if e.is_primitive then formula else "=" ++ formula)

/-! ## Tables (`_excelframe.py`) -/

/-- `ExcelFrame`: an ordered mapping column name → list of cell
expressions; the cell at column `c`, row `i` has identity
`⟨id, c, i⟩` (as `Column.__init__` assigns `Element(id, key, i)`). -/
structure ExcelFrame where
  id : ℕ
  cols : List (String × List CellExpr)
deriving DecidableEq, Repr

namespace ExcelFrame

/-- `width`. -/
def width (t : ExcelFrame) : ℕ := t.cols.length

/-- `height` (0 for a table with no columns, else the first column's
length). -/
def height (t : ExcelFrame) : ℕ :=
  if t.cols.isEmpty then 0 else ((t.cols.head?.map (·.2.length)).getD 0)

/-- `columns`: ordered column names. -/
def columns (t : ExcelFrame) : List String := t.cols.map (·.1)

/-- All of the table's cell identities, iterated column by column then
row by row — the root order `evaluate` hands to `_topological_sort`. -/
def elements (t : ExcelFrame) : List Element :=
  t.cols.flatMap fun p => (List.range p.2.length).map fun i => ⟨t.id, p.1, i⟩

/-- The expression held at column position `c`, row `r`. -/
def cellExpr? (t : ExcelFrame) (c r : ℕ) : Option (String × CellExpr) := do
  let p ← t.cols[c]?
  let e ← p.2[r]?
  pure (p.1, e)

/-- `ExcelFrame.empty`: columns of `Empty` cells. -/
def empty (id : ℕ) (columns : List String) (height : ℕ) : ExcelFrame :=
  ⟨id, columns.map fun c => (c, List.replicate height CellExpr.Empty)⟩

/-- `select`: keep/reorder the named columns (the source indexes
`_input[col]`, so callers pass existing names). -/
def select (t : ExcelFrame) (columns : List String) : ExcelFrame :=
  ⟨t.id, columns.filterMap fun c => (t.cols.find? (·.1 == c)).map fun p => (c, p.2)⟩

end ExcelFrame

/-- `CellMapping([(df, start_pos), ...])`: the layout recorded per
placement (axis read from `df.style.display_axis`). -/
def CellMapping.ofFrames (dfs : List (ExcelFrame × (ℕ × ℕ) × DisplayAxis))
    (header_in_table : Bool) : CellMapping :=
  ⟨dfs.map fun x => (x.1.id, ⟨x.2.1.1, x.2.1.2, x.1.columns, x.2.2⟩),
    header_in_table⟩

/-! ## Spreadsheet read path (`_display.py`) -/

/-- The per-table record of the index file. -/
structure TableConfig where
  start_row : ℕ
  start_col : ℕ
  width : ℕ
  height : ℕ
deriving DecidableEq, Repr

/-- `_get_cellpos_to_cellref_fn`: map parsed address components to
`(df, rel column index, rel row index)` by scanning the loaded tables'
regions; `none` models the trailing `ValueError`. -/
def cellpos_to_cellref (dfs : List (ExcelFrame × TableConfig))
    (column_str : String) (row_idx : ℤ) : Option (ExcelFrame × ℕ × ℕ) :=
  let abs_col_idx : ℤ := alpha_to_int column_str
  let abs_row_idx : ℤ := row_idx - 1
  dfs.findSome? fun x =>
    let rel_col_idx := abs_col_idx - x.2.start_col
    let rel_row_idx := abs_row_idx - x.2.start_row - 1
    if 0 ≤ rel_col_idx ∧ rel_col_idx < x.1.width ∧
        0 ≤ rel_row_idx ∧ rel_row_idx < x.1.height then
      some (x.1, rel_col_idx.toNat, rel_row_idx.toNat)
    else none

/-! ## Formula parser (`formula/_parser.py`)

The Lark LALR grammar is embedded as a lexer (maximal-munch over the
grammar's terminals: `SIGNED_NUMBER`, single `UCASE_LETTER`s, the
`"SUM("`/`"AVERAGE("` literals, the operator/punctuation literals,
ignored whitespace) plus a recursive-descent parser for the
left-associative two-level expression grammar, with the
`TreeToCellExpr` transformer actions inlined. -/

inductive Tok where
  | num (q : ℚ) (asInt : Option ℤ)
  | letter (c : Char)
  | plus
  | minus
  | star
  | slash
  | lparen
  | rparen
  | colon
  | eq
  | sumKw
  | avgKw
deriving DecidableEq, Repr

/-- Leading digit run. -/
def munchDigits (cs : List Char) : List Char × List Char :=
  (cs.takeWhile Char.isDigit, cs.dropWhile Char.isDigit)

/-- Maximal munch of an exponent `(e|E)(+|-)?digits`; `none` leaves the
input for the next token when no complete exponent follows. -/
def munchExp (cs : List Char) : Option (ℤ × List Char) :=
  match cs with
  | c :: rest =>
      if c = 'e' ∨ c = 'E' then
        match rest with
        | s :: ds =>
            if s = '+' ∨ s = '-' then
              let (d, r) := munchDigits ds
              if d.isEmpty then none
              else some (if s = '-' then -(digitsVal d : ℤ) else (digitsVal d : ℤ), r)
            else
              let (d, r) := munchDigits rest
              if d.isEmpty then none else some ((digitsVal d : ℤ), r)
        | [] => none
      else none
  | [] => none

/-- The numeric pieces of one `NUMBER` terminal:
`mant / 10 ^ fracLen * 10 ^ ex`, and whether `int(text)` would accept
the text (digits only: no point, no exponent). -/
structure NumParts where
  mant : ℕ
  fracLen : ℕ
  isInt : Bool
  ex : ℤ
deriving DecidableEq, Repr

def NumParts.value (p : NumParts) : ℚ :=
  (p.mant : ℚ) / 10 ^ p.fracLen * (10 : ℚ) ^ p.ex

/-- Maximal munch of the unsigned `NUMBER` body (`INT`, `INT "." INT?`,
`"." INT`, each with an optional exponent). -/
def munchNumBody (cs : List Char) : Option (NumParts × List Char) :=
  let (d1, r1) := munchDigits cs
  match r1 with
  | '.' :: r2 =>
      if d1.isEmpty then
        let (d2, r3) := munchDigits r2
        if d2.isEmpty then none
        else
          match munchExp r3 with
          | some (ex, r4) => some (⟨digitsVal d2, d2.length, false, ex⟩, r4)
          | none => some (⟨digitsVal d2, d2.length, false, 0⟩, r3)
      else
        let (d2, r3) := munchDigits r2
        match munchExp r3 with
        | some (ex, r4) => some (⟨digitsVal (d1 ++ d2), d2.length, false, ex⟩, r4)
        | none => some (⟨digitsVal (d1 ++ d2), d2.length, false, 0⟩, r3)
  | _ =>
      if d1.isEmpty then none
      else
        match munchExp r1 with
        | some (ex, r4) => some (⟨digitsVal d1, 0, false, ex⟩, r4)
        | none => some (⟨digitsVal d1, 0, true, 0⟩, r1)

/-- The token of a munched `SIGNED_NUMBER`. -/
def numTok (negate : Bool) (p : NumParts) : Tok :=
  .num (if negate then -p.value else p.value)
    (if p.isInt then some (if negate then -(p.mant : ℤ) else (p.mant : ℤ)) else none)

/-- One lexing step per character, fuelled (any fuel past the input
length is enough, as every step consumes at least one character). -/
def lexRun : ℕ → List Char → Option (List Tok)
  | 0, _ => none
  | _ + 1, [] => some []
  | fuel + 1, c :: cs =>
      if c = ' ' then lexRun fuel cs
      else if c.isDigit ∨ c = '.' then
        match munchNumBody (c :: cs) with
        | some (p, rest) => (lexRun fuel rest).map (numTok false p :: ·)
        | none => none
      else if c = '+' then
        match munchNumBody cs with
        | some (p, rest) => (lexRun fuel rest).map (numTok false p :: ·)
        | none => (lexRun fuel cs).map (.plus :: ·)
      else if c = '-' then
        match munchNumBody cs with
        | some (p, rest) => (lexRun fuel rest).map (numTok true p :: ·)
        | none => (lexRun fuel cs).map (.minus :: ·)
      else if c = '*' then (lexRun fuel cs).map (.star :: ·)
      else if c = '/' then (lexRun fuel cs).map (.slash :: ·)
      else if c = '(' then (lexRun fuel cs).map (.lparen :: ·)
      else if c = ')' then (lexRun fuel cs).map (.rparen :: ·)
      else if c = ':' then (lexRun fuel cs).map (.colon :: ·)
      else if c = '=' then (lexRun fuel cs).map (.eq :: ·)
      else if c.isUpper then
        if "AVERAGE(".data.isPrefixOf (c :: cs) then
          (lexRun fuel ((c :: cs).drop 8)).map (.avgKw :: ·)
        else if "SUM(".data.isPrefixOf (c :: cs) then
          (lexRun fuel ((c :: cs).drop 4)).map (.sumKw :: ·)
        else (lexRun fuel cs).map (.letter c :: ·)
      else none

def lex (s : String) : Option (List Tok) := lexRun (s.length + 1) s.data

/-- Leading `UCASE_LETTER` tokens. -/
def takeLetters : List Tok → List Char × List Tok
  | .letter c :: ts =>
      let (l, r) := takeLetters ts
      (c :: l, r)
  | ts => ([], ts)

/-- The `cellref` rule plus the `TreeToCellExpr.cellref` action.  The
action unpacks `(column_str, row_idx) = args`, which only succeeds when
the address has exactly one letter (more letters raise at transform
time), and `int(row_idx)` only succeeds on an integer literal. -/
def parseCellref (dfs : List (ExcelFrame × TableConfig)) (ts : List Tok) :
    Option ((ExcelFrame × ℕ × ℕ) × List Tok) :=
  match takeLetters ts with
  | ([c], .num _ (some z) :: rest) => do
      let r ← cellpos_to_cellref dfs ⟨[c]⟩ z
      pure (r, rest)
  | _ => none

/-- `df[df.columns[col_idx]][row_idx]` for a resolved triple: the
referenced cell's identity. -/
def resolvedElement (x : ExcelFrame × ℕ × ℕ) : Option Element := do
  let p ← x.1.cols[x.2.1]?
  if x.2.2 < p.2.length then pure ⟨x.1.id, p.1, x.2.2⟩ else none

/-- The shared body of `sum_fn`/`average_fn`: validate that both
endpoints resolve to the same table and column, then build the row
range.  The source swaps via `from_row_idx = min(from_row_idx,
to_row_idx)` followed by `to_row_idx = max(from_row_idx, to_row_idx)` —
the second line reads the already-overwritten `from_row_idx`, so
`to_row_idx` always keeps its original value. -/
def aggRangeCells (fromRef toRef : ExcelFrame × ℕ × ℕ) :
    Option (List Element) := do
  if fromRef.1.id = toRef.1.id ∧ fromRef.2.1 = toRef.2.1 then
    let from_row_idx := min fromRef.2.2 toRef.2.2
    let to_row_idx := max from_row_idx toRef.2.2
    let p ← fromRef.1.cols[fromRef.2.1]?
    let rows := (List.range (to_row_idx + 1 - from_row_idx)).map (from_row_idx + ·)
    if rows.all (· < p.2.length) then
      pure (rows.map fun r => ⟨fromRef.1.id, p.1, r⟩)
    else none
  else none

mutual

/-- `?primary`. -/
def parsePrimary (dfs : List (ExcelFrame × TableConfig)) :
    ℕ → List Tok → Option (CellExpr × List Tok)
  | 0, _ => none
  | _ + 1, .num q _ :: ts => some (.Constant (some (.num q)), ts)
  | fuel + 1, .lparen :: ts =>
      match parseTerm dfs fuel ts with
      | some (e, .rparen :: ts') => some (e, ts')
      | _ => none
  | _ + 1, .sumKw :: ts =>
      (match parseCellref dfs ts with
       | some (fromRef, .colon :: ts') =>
           match parseCellref dfs ts' with
           | some (toRef, .rparen :: ts'') =>
               (aggRangeCells fromRef toRef).map fun cells =>
                 (.SumCellsRef cells, ts'')
           | _ => none
       | _ => none)
  | _ + 1, .avgKw :: ts =>
      (match parseCellref dfs ts with
       | some (fromRef, .colon :: ts') =>
           match parseCellref dfs ts' with
           | some (toRef, .rparen :: ts'') =>
               (aggRangeCells fromRef toRef).map fun cells =>
                 (.AverageCellsRef cells, ts'')
           | _ => none
       | _ => none)
  | _ + 1, ts@(.letter _ :: _) =>
      (match parseCellref dfs ts with
       | some (ref, ts') =>
           (resolvedElement ref).map fun el => (.CellRef el, ts')
       | none => none)
  | _ + 1, _ => none

/-- The chain `?factor: factor "*" primary | factor "/" primary |
primary`, folded left. -/
def factorLoop (dfs : List (ExcelFrame × TableConfig)) :
    ℕ → CellExpr → List Tok → Option (CellExpr × List Tok)
  | 0, _, _ => none
  | fuel + 1, acc, .star :: ts =>
      match parsePrimary dfs fuel ts with
      | some (p, ts') => factorLoop dfs fuel (.Mult acc p) ts'
      | none => none
  | fuel + 1, acc, .slash :: ts =>
      match parsePrimary dfs fuel ts with
      | some (p, ts') => factorLoop dfs fuel (.Div acc p) ts'
      | none => none
  | _ + 1, acc, ts => some (acc, ts)

def parseFactor (dfs : List (ExcelFrame × TableConfig)) :
    ℕ → List Tok → Option (CellExpr × List Tok)
  | 0, _ => none
  | fuel + 1, ts =>
      match parsePrimary dfs fuel ts with
      | some (p, ts') => factorLoop dfs fuel p ts'
      | none => none

/-- The chain `?term: term "+" factor | term "-" factor | factor`,
folded left. -/
def termLoop (dfs : List (ExcelFrame × TableConfig)) :
    ℕ → CellExpr → List Tok → Option (CellExpr × List Tok)
  | 0, _, _ => none
  | fuel + 1, acc, .plus :: ts =>
      match parseFactor dfs fuel ts with
      | some (f, ts') => termLoop dfs fuel (.Add acc f) ts'
      | none => none
  | fuel + 1, acc, .minus :: ts =>
      match parseFactor dfs fuel ts with
      | some (f, ts') => termLoop dfs fuel (.Sub acc f) ts'
      | none => none
  | _ + 1, acc, ts => some (acc, ts)

def parseTerm (dfs : List (ExcelFrame × TableConfig)) :
    ℕ → List Tok → Option (CellExpr × List Tok)
  | 0, _ => none
  | fuel + 1, ts =>
      match parseFactor dfs fuel ts with
      | some (f, ts') => termLoop dfs fuel f ts'
      | none => none

end

/-- `?excel_expr: SIGNED_NUMBER -> number | "=" expr` (the `number`
action is `Constant(float(n))`), requiring the whole token stream. -/
def parseExcelToks (dfs : List (ExcelFrame × TableConfig)) (fuel : ℕ) :
    List Tok → Option CellExpr
  | [.num q _] => some (.Constant (some (.num q)))
  | .eq :: ts =>
      match parseTerm dfs fuel ts with
      | some (e, []) => some e
      | _ => none
  | _ => none

/-- `parser.parse(text)` for the parser built by `create_parser` with
the `of_excel` resolver.  The recursion fuel is a model artifact (the
source recursion is bounded by the input, not by an explicit counter);
any large enough fuel gives the source behaviour. -/
def parseFormula (dfs : List (ExcelFrame × TableConfig)) (fuel : ℕ)
    (s : String) : Option CellExpr := do
  let ts ← lex s
  parseExcelToks dfs fuel ts

/-! ## Dependency evaluator (`_topological_sort`, `evaluate`) -/

/-- The object graph: which expression each cell identity holds
(`CellRef` objects hold their target `Cell`, so following a dependency
is a heap lookup here). -/
def Heap : Type := Element → CellExpr

/-- The `for dep in cell.dependencies` loop of `_sort_deps`,
parameterised by the recursive call. -/
def foldDeps
    (rec : Element → List Element → List Element →
      Option (List Element × List Element)) :
    List Element → List Element → List Element →
    Option (List Element × List Element)
  | [], result, visited => some (result, visited)
  | dep :: ds, result, visited =>
      if dep ∈ visited then foldDeps rec ds result visited
      else
        match rec dep result visited with
        | some (result', visited') => foldDeps rec ds result' visited'
        | none => none

/-- `_sort_deps`: mark the cell visited, recurse into unvisited
dependencies, then append the cell.  The recursion is fuelled; `none`
models the unbounded recursion a cyclic graph causes in the source. -/
def sort_deps (H : Heap) : ℕ → Element → List Element → List Element →
    Option (List Element × List Element)
  | 0, _, _, _ => none
  | fuel + 1, cell, result, visited =>
      match foldDeps (sort_deps H fuel) ((H cell).dependencies) result
          (cell :: visited) with
      | some (result', visited') => some (result' ++ [cell], visited')
      | none => none

/-- The root loop of `_topological_sort`. -/
def topoRoots (H : Heap) (fuel : ℕ) : List Element → List Element →
    List Element → Option (List Element × List Element)
  | [], result, visited => some (result, visited)
  | c :: cs, result, visited =>
      if c ∈ visited then topoRoots H fuel cs result visited
      else
        match sort_deps H fuel c result visited with
        | some (result', visited') => topoRoots H fuel cs result' visited'
        | none => none

/-- `_topological_sort(cells)`. -/
def _topological_sort (H : Heap) (fuel : ℕ) (cells : List Element) :
    Option (List Element) :=
  (topoRoots H fuel cells [] []).map (·.1)

/-- Dependency edge: `a`'s expression directly reads `b`. -/
def depEdge (H : Heap) (a b : Element) : Prop := b ∈ (H a).dependencies

/-- A cell is reachable from the roots along dependency edges. -/
def Reaches (H : Heap) (roots : List Element) (x : Element) : Prop :=
  ∃ r ∈ roots, Relation.ReflTransGen (depEdge H) r x

/-- The invariant the depth-first sort maintains on its accumulated
output: no duplicates, output ⊆ visited, and the output is
dependency-closed with every dependency appearing strictly earlier. -/
def TopoInv (H : Heap) (res vis : List Element) : Prop :=
  res.Nodup ∧ (∀ x ∈ res, x ∈ vis) ∧
    (∀ c ∈ res, ∀ d ∈ (H c).dependencies,
      d ∈ res ∧ res.indexOf d < res.indexOf c)

/-- Overwrite one cell's cached value (`cell.compute()`'s write to
`self._last_value`). -/
def updateStore (st : Store) (e : Element) (v : Option Val) : Store :=
  fun x => if x = e then v else st x

/-- `for cell in sorted_cells: cell.compute()`. -/
def computePass (H : Heap) (order : List Element) (st : Store) : Store :=
  order.foldl (fun st e => updateStore st e ((H e).compute st)) st

/-- `ExcelFrame.evaluate`: topologically sort all own cells, run the
compute pass, then build the new table whose every cell is
`Constant(cell.last_value)` (the fresh `uuid` is `newId`; the initial
store holds the cells' prior cached values, `None` on fresh cells). -/
def ExcelFrame.evaluate (H : Heap) (fuel : ℕ) (newId : ℕ) (t : ExcelFrame)
    (st : Store) : Option ExcelFrame :=
  (_topological_sort H fuel t.elements).map fun order =>
    let final := computePass H order st
    ⟨newId, t.cols.map fun p =>
      (p.1, (List.range p.2.length).map fun i =>
        CellExpr.Constant (final ⟨t.id, p.1, i⟩))⟩

/-- The heap agrees with a table's cells. -/
def coheres (H : Heap) (t : ExcelFrame) : Prop :=
  ∀ c r s e, t.cellExpr? c r = some (s, e) → H ⟨t.id, s, r⟩ = e

/-- The heap induced by a table over a base heap (for concrete
witnesses). -/
def ExcelFrame.heapOf (t : ExcelFrame) (base : Heap) : Heap := fun el =>
  if el.id = t.id then
    match t.cols.find? (·.1 == el.col_name) with
    | some p => p.2.getD el.idx CellExpr.Empty
    | none => base el
  else base el

/-- Every cell of a table holds a `Constant`. -/
def ExcelFrame.allConstant (t : ExcelFrame) : Prop :=
  ∀ p ∈ t.cols, ∀ e ∈ p.2, ∃ v, e = CellExpr.Constant v

/-! ## The write/read codec seam (`to_excel` + `of_excel`) -/

/-- The mapping `to_excel` renders with: a single placement at
`start_pos`, default vertical axis, header row reserved. -/
def writeMapping (t : ExcelFrame) (start_row start_col : ℕ) : CellMapping :=
  CellMapping.ofFrames [(t, (start_row, start_col), .VERTICAL)] true

/-- The empty frame `_create_empty_dfs` rebuilds on the read side: the
written header texts are the original column names and the index file
records the original height. -/
def readFrame (t : ExcelFrame) (newId : ℕ) : ExcelFrame :=
  ExcelFrame.empty newId t.columns t.height

/-- The resolver context `of_excel` hands to `create_parser` for the
single written table. -/
def readCtx (t : ExcelFrame) (newId start_row start_col : ℕ) :
    List (ExcelFrame × TableConfig) :=
  [(readFrame t newId, ⟨start_row, start_col, t.width, t.height⟩)]

/-- One cell through the codec: render its persisted text with
`to_excel`'s mapping, then parse it back through `of_excel`'s parser
(`none` when either direction hard-fails).  The spreadsheet file
carries the text verbatim between the two; `of_excel` additionally
upper-cases it, the identity on every rendered formula (addresses,
digits and function names are already upper case). -/
def codecRoundTrip (t : ExcelFrame) (newId start_row start_col fuel : ℕ)
    (e : CellExpr) : Option CellExpr :=
  match write_cell_text (writeMapping t start_row start_col) e with
  | .ok s => parseFormula (readCtx t newId start_row start_col) fuel s
  | .error _ => none

/-- Replace every referenced cell identity. -/
def CellExpr.renameElems (f : Element → Element) : CellExpr → CellExpr
  | .Empty => .Empty
  | .Invalid => .Invalid
  | .Constant v => .Constant v
  | .CellRef c => .CellRef (f c)
  | .SumCellsRef cells => .SumCellsRef (cells.map f)
  | .AverageCellsRef cells => .AverageCellsRef (cells.map f)
  | .SumProdCellsRef columns => .SumProdCellsRef (columns.map (·.map f))
  | .Mult l r => .Mult (l.renameElems f) (r.renameElems f)
  | .Add l r => .Add (l.renameElems f) (r.renameElems f)
  | .Div l r => .Div (l.renameElems f) (r.renameElems f)
  | .Sub l r => .Sub (l.renameElems f) (r.renameElems f)
  | .Max l r => .Max (l.renameElems f) (r.renameElems f)
  | .Min l r => .Min (l.renameElems f) (r.renameElems f)
  | .If c t f' => .If (c.renameElems f) (t.renameElems f) (f'.renameElems f)
  | .Compare l r op => .Compare (l.renameElems f) (r.renameElems f) op
  | .Pow l r => .Pow (l.renameElems f) (r.renameElems f)
  | .Neg e => .Neg (e.renameElems f)

/-- The codec's identity translation: a cell of the written table is
reborn as the same (column, row) cell of the re-read table. -/
def rekey (oldId newId : ℕ) (el : Element) : Element :=
  if el.id = oldId then ⟨newId, el.col_name, el.idx⟩ else el

/-- The supported grammar subset of the round-trip claim — numbers,
in-bounds cell references of the written table, `+ - * /`, and
`SUM`/`AVERAGE` over an ascending contiguous in-bounds row range of one
column — with each constant a finite decimal (every Python float is
one). -/
inductive SubsetOK (t : ExcelFrame) : CellExpr → Prop
  | const (q : ℚ) (hq : (decScale q.den).isSome) :
      SubsetOK t (.Constant (some (.num q)))
  | ref (c r : ℕ) (name : String) (es : List CellExpr)
      (hfind : t.columns.findIdx? (· == name) = some c)
      (hcol : t.cols[c]? = some (name, es)) (hr : r < es.length) :
      SubsetOK t (.CellRef ⟨t.id, name, r⟩)
  | sum (c : ℕ) (name : String) (es : List CellExpr)
      (hfind : t.columns.findIdx? (· == name) = some c)
      (hcol : t.cols[c]? = some (name, es))
      (r0 r1 : ℕ) (h01 : r0 ≤ r1) (h1 : r1 < es.length) :
      SubsetOK t (.SumCellsRef
        (((List.range (r1 + 1 - r0)).map (r0 + ·)).map
          fun r => ⟨t.id, name, r⟩))
  | avg (c : ℕ) (name : String) (es : List CellExpr)
      (hfind : t.columns.findIdx? (· == name) = some c)
      (hcol : t.cols[c]? = some (name, es))
      (r0 r1 : ℕ) (h01 : r0 ≤ r1) (h1 : r1 < es.length) :
      SubsetOK t (.AverageCellsRef
        (((List.range (r1 + 1 - r0)).map (r0 + ·)).map
          fun r => ⟨t.id, name, r⟩))
  | add {l r : CellExpr} : SubsetOK t l → SubsetOK t r → SubsetOK t (.Add l r)
  | sub {l r : CellExpr} : SubsetOK t l → SubsetOK t r → SubsetOK t (.Sub l r)
  | mult {l r : CellExpr} : SubsetOK t l → SubsetOK t r → SubsetOK t (.Mult l r)
  | div {l r : CellExpr} : SubsetOK t l → SubsetOK t r → SubsetOK t (.Div l r)

/-- Fuel costs `(primary, factor, term)` sufficient for the
recursive-descent parser on the rendering of a subset expression. -/
def parseCosts : CellExpr → ℕ × ℕ × ℕ
  | .Mult l r =>
      let cl := parseCosts l
      let cr := parseCosts r
      let f := cl.2.1 + cr.1 + 1
      (f + 4, f, f + 2)
  | .Div l r =>
      let cl := parseCosts l
      let cr := parseCosts r
      let f := cl.2.1 + cr.1 + 1
      (f + 4, f, f + 2)
  | .Add l r =>
      let cl := parseCosts l
      let cr := parseCosts r
      let t := cl.2.2 + cr.2.1 + 2
      (t + 2, t + 3, t)
  | .Sub l r =>
      let cl := parseCosts l
      let cr := parseCosts r
      let t := cl.2.2 + cr.2.1 + 2
      (t + 2, t + 3, t)
  | _ => (1, 2, 4)

def cPrim (e : CellExpr) : ℕ := (parseCosts e).1
def cFact (e : CellExpr) : ℕ := (parseCosts e).2.1
def cTerm (e : CellExpr) : ℕ := (parseCosts e).2.2

/-- The token sequences the lexer produces from the renderer's output
on subset expressions, with the address of each referenced element
described by its single column letter `aC` and row number `aR`. -/
def atomToks (aC : Element → Char) (aR : Element → ℕ) : CellExpr → List Tok
  | .Constant (some (.num q)) =>
      [.num q (if q.den = 1 then some q.num else none)]
  | .CellRef el => [.letter (aC el), .num (aR el) (some (aR el))]
  | .SumCellsRef cells =>
      match cells.head?, cells.getLast? with
      | some a, some b =>
          [.sumKw, .letter (aC a), .num (aR a) (some (aR a)), .colon,
            .letter (aC b), .num (aR b) (some (aR b)), .rparen]
      | _, _ => []
  | .AverageCellsRef cells =>
      match cells.head?, cells.getLast? with
      | some a, some b =>
          [.avgKw, .letter (aC a), .num (aR a) (some (aR a)), .colon,
            .letter (aC b), .num (aR b) (some (aR b)), .rparen]
      | _, _ => []
  | _ => []

/-- Additive node (precedence 2 within the subset). -/
def isAS : CellExpr → Bool
  | .Add _ _ => true
  | .Sub _ _ => true
  | _ => false

/-- Additive or multiplicative node (nonzero precedence within the
subset). -/
def isASMD : CellExpr → Bool
  | .Add _ _ => true
  | .Sub _ _ => true
  | .Mult _ _ => true
  | .Div _ _ => true
  | _ => false

def parenToks (ts : List Tok) : List Tok := .lparen :: ts ++ [.rparen]

/-- Term-level token sequence of a subset expression's rendering: the
renderer parenthesises an operand exactly when `needs_parentheses`
holds, which within the subset wraps additive operands under `* /` and
right additive/multiplicative operands generally. -/
def exprToks (aC : Element → Char) (aR : Element → ℕ) : CellExpr → List Tok
  | .Add l r =>
      exprToks aC aR l ++ [.plus] ++
        (if isAS r then parenToks (exprToks aC aR r) else exprToks aC aR r)
  | .Sub l r =>
      exprToks aC aR l ++ [.minus] ++
        (if isAS r then parenToks (exprToks aC aR r) else exprToks aC aR r)
  | .Mult l r =>
      (if isAS l then parenToks (exprToks aC aR l) else exprToks aC aR l) ++
        [.star] ++
        (if isASMD r then parenToks (exprToks aC aR r) else exprToks aC aR r)
  | .Div l r =>
      (if isAS l then parenToks (exprToks aC aR l) else exprToks aC aR l) ++
        [.slash] ++
        (if isASMD r then parenToks (exprToks aC aR r) else exprToks aC aR r)
  | e => atomToks aC aR e

/-- Factor-level tokens: additive subexpressions get wrapped. -/
def factToksOf (aC : Element → Char) (aR : Element → ℕ) (e : CellExpr) :
    List Tok :=
  if isAS e then parenToks (exprToks aC aR e) else exprToks aC aR e

/-- Primary-level tokens: every operator subexpression gets wrapped. -/
def primToksOf (aC : Element → Char) (aR : Element → ℕ) (e : CellExpr) :
    List Tok :=
  if isASMD e then parenToks (exprToks aC aR e) else exprToks aC aR e


instance {e a : Type} [DecidableEq e] [DecidableEq a] :
    DecidableEq (Except e a) := fun x y =>
  match x, y with
  | .ok v, .ok w => decidable_of_iff (v = w) (by simp)
  | .error v, .error w => decidable_of_iff (v = w) (by simp)
  | .ok _, .error _ => isFalse (fun h => Except.noConfusion h)
  | .error _, .ok _ => isFalse (fun h => Except.noConfusion h)

/-! ## Proof-side characterizations for the round-trip argument -/

/-- A character list at which the lexer's maximal munch of a number
necessarily stops: empty, or headed by one of the separator characters
that follow a number in every rendered formula. -/
def bdryCh (cs : List Char) : Prop :=
  match cs with
  | [] => True
  | c :: _ => c = ' ' ∨ c = ')' ∨ c = ':'

/-- A piece of rendered text lexes to `toks` before any continuation. -/
def lexP (cs : List Char) (toks : List Tok) : Prop :=
  ∀ fuel rest ts, lexRun fuel rest = some ts →
    lexRun (cs.length + fuel) (cs ++ rest) = some (toks ++ ts)

/-- As `lexP`, for pieces ending in a number: the continuation must
start at a munch boundary. -/
def lexPB (cs : List Char) (toks : List Tok) : Prop :=
  ∀ fuel rest ts, bdryCh rest → lexRun fuel rest = some ts →
    lexRun (cs.length + fuel) (cs ++ rest) = some (toks ++ ts)

/-- A token continuation that does not extend a factor: the rendered
text never places `*` or `/` directly after an unparenthesised
subexpression of lower precedence. -/
def tsBdry (ts : List Tok) : Prop :=
  match ts with
  | .star :: _ => False
  | .slash :: _ => False
  | _ => True

/-- The raw payload `to_formula` returns for each subset node: the
constants' raw value, every other node's built string. -/
def riOf (e : CellExpr) (s : String) : RawInput :=
  match e with
  | .Constant v => .val v
  | _ => .str s

/-- The single column letter of a referenced element's rendered
address. -/
def colChar (t : ExcelFrame) (start_col : ℕ) (el : Element) : Char :=
  Char.ofNat (65 + (t.columns.findIdx (· == el.col_name) + start_col))

/-- The 1-based row number of a referenced element's rendered address
(header row reserved). -/
def rowNum (start_row : ℕ) (el : Element) : ℕ :=
  start_row + el.idx + 2

/-! # Theorems -/

/-- C3: an operand is wrapped in parentheses exactly when its
precedence is strictly lower than the node's, or equal while it is the
right operand of a non-right-associative operator (exponentiation
exempt), and precedence-0 operands are never wrapped; consequently
`(a + b) * c` renders as `(A1 + B1) * C1` and `a * b - c` renders as
`A1 * B1 - A1` with no parentheses (addresses per an `as_str`-style
mapping at the origin with no header row). -/
theorem claim_C3_precedence_rendering :
    (∀ (e : CellExpr) (p : ℕ) (r : Bool),
        e.needs_parentheses p r = true ↔
          e.get_precedence ≠ 0 ∧
            (e.get_precedence < p ∨
              (e.get_precedence = p ∧ r = true ∧ p ≠ 4))) ∧
    (CellExpr.Mult (.Add (.CellRef ⟨3, "x", 0⟩) (.CellRef ⟨3, "y", 0⟩))
          (.CellRef ⟨3, "z", 0⟩)).to_formula
        (CellMapping.ofFrames
          [(⟨3, [("x", [.Constant (some (.num 1))]),
                 ("y", [.Constant (some (.num 4))]),
                 ("z", [.Constant (some (.num 7))])]⟩, (0, 0), .VERTICAL)]
          false) true = .ok (.str "(A1 + B1) * C1") ∧
    (CellExpr.Sub (.Mult (.CellRef ⟨3, "x", 0⟩) (.CellRef ⟨3, "y", 0⟩))
          (.CellRef ⟨3, "x", 0⟩)).to_formula
        (CellMapping.ofFrames
          [(⟨3, [("x", [.Constant (some (.num 1))]),
                 ("y", [.Constant (some (.num 4))]),
                 ("z", [.Constant (some (.num 7))])]⟩, (0, 0), .VERTICAL)]
          false) true = .ok (.str "A1 * B1 - A1") := by
  refine ⟨fun e p r => ?_, by decide, by decide⟩
  unfold CellExpr.needs_parentheses
  dsimp only
  split_ifs with h1 h2 h3 <;> simp_all

/-- C4 (`code_bug` evidence): with a 4-row single-column table at the
origin, `SUM(A2:A5)` parses to the full range, but `SUM(A5:A2)` — whose
endpoints the parser is meant to swap into natural order — parses to
the single-cell range `[A2]`: `from_row_idx = min(...)` is overwritten
before `to_row_idx = max(from_row_idx, to_row_idx)` reads it, so the
upper endpoint keeps its original value. -/
theorem claim_C4_sum_range_swap_bug :
    parseFormula
        (readCtx ⟨7, [("x", List.replicate 4 (CellExpr.Constant (some (.num 1))))]⟩
          9 0 0) 50 "=SUM(A2:A5)" =
      some (.SumCellsRef [⟨9, "x", 0⟩, ⟨9, "x", 1⟩, ⟨9, "x", 2⟩, ⟨9, "x", 3⟩]) ∧
    parseFormula
        (readCtx ⟨7, [("x", List.replicate 4 (CellExpr.Constant (some (.num 1))))]⟩
          9 0 0) 50 "=SUM(A5:A2)" =
      some (.SumCellsRef [⟨9, "x", 0⟩]) ∧
    (CellExpr.SumCellsRef [⟨9, "x", 0⟩] ≠
      .SumCellsRef [⟨9, "x", 0⟩, ⟨9, "x", 1⟩, ⟨9, "x", 2⟩, ⟨9, "x", 3⟩]) := by
  refine ⟨by decide, by decide, by decide⟩

/-- C7 amended: computing a division whose operands both compute to
present values never raises, and a zero divisor yields the
positive-infinity sentinel `np.inf` unconditionally (the sign of the
quotient is not reflected: the source returns `np.inf`, never
`-np.inf`). -/
theorem claim_C7_div_by_zero (l r : CellExpr) (st : Store) (a b : Val)
    (hl : l.compute st = some a) (hr : r.compute st = some b) :
    (∃ v, (CellExpr.Div l r).compute st = some v) ∧
      (b.isZero = true →
        (CellExpr.Div l r).compute st = some Val.inf) := by
  refine ⟨⟨Val.divOp a b, ?_⟩, fun hz => ?_⟩
  · simp [CellExpr.compute, hl, hr]
  · simp [CellExpr.compute, hl, hr, Val.divOp, hz]

/-- C7 counterexample: `(-1) / 0` computes to the positive-infinity
sentinel, not a negative infinity reflecting the quotient's sign. -/
theorem claim_C7_counterexample :
    (CellExpr.Div (.Constant (some (.num (-1))))
        (.Constant (some (.num 0)))).compute (fun _ => none) =
      some Val.inf ∧
    (CellExpr.Div (.Constant (some (.num (-1))))
        (.Constant (some (.num 0)))).compute (fun _ => none) ≠
      some Val.ninf := by
  refine ⟨by decide, by decide⟩

theorem claim_C7_witness :
    (∃ v, (CellExpr.Div (.Constant (some (.num 1)))
        (.Constant (some (.num 0)))).compute (fun _ => none) = some v) ∧
      ((Val.num 0).isZero = true →
        (CellExpr.Div (.Constant (some (.num 1)))
          (.Constant (some (.num 0)))).compute (fun _ => none) =
            some Val.inf) :=
  claim_C7_div_by_zero _ _ _ _ _ rfl rfl

/-- C6 (with `int_to_alpha` modelled from the spec, its source file
being absent from src/): under the VERTICAL axis the mapper renders
column letters `int_to_alpha(start_col + column_index)` and the 1-based
row `start_row + r + 1`, plus one more when the header flag is set;
under HORIZONTAL the roles of the table row and column indices swap
(the row index carries the header offset into the column letters, the
column index the 1-based `+1` into the row number); and the alphabetic
encoding is base-26 with no zero digit. -/
theorem claim_C6_position_mapping
    (m : CellMapping) (t : TableLayout) (e : Element) (c : ℕ)
    (hid : m.layout? e.id = some t) (hc : t.colIdx? e.col_name = some c) :
    (t.axis = .VERTICAL →
      m.getItem e = some (int_to_alpha (t.start_col + c) ++
        natToStr (t.start_row + e.idx + 1 +
          (if m.header_in_table then 1 else 0)))) ∧
    (t.axis = .HORIZONTAL →
      m.getItem e = some (int_to_alpha (t.start_col +
          (if m.header_in_table then 1 else 0) + e.idx) ++
        natToStr (t.start_row + c + 1))) ∧
    int_to_alpha 0 = "A" ∧ int_to_alpha 25 = "Z" ∧
    int_to_alpha 26 = "AA" ∧ int_to_alpha 701 = "ZZ" := by
  refine ⟨fun hax => ?_, fun hax => ?_, by decide, by decide, by decide,
    by decide⟩
  · simp only [CellMapping.getItem, hid, hc, hax, Option.bind_eq_bind,
      Option.some_bind, Option.pure_def]
    rw [Nat.add_comm c t.start_col]
  · simp only [CellMapping.getItem, hid, hc, hax, Option.bind_eq_bind,
      Option.some_bind, Option.pure_def]
    have : t.start_row + 1 + c = t.start_row + c + 1 := by omega
    rw [this]

theorem claim_C6_witness :
    (DisplayAxis.VERTICAL = DisplayAxis.VERTICAL →
      (CellMapping.ofFrames
          [(⟨7, [("x", [CellExpr.Empty]), ("y", [CellExpr.Empty])]⟩,
            (1, 2), .VERTICAL)] true).getItem ⟨7, "y", 0⟩ =
        some (int_to_alpha (2 + 1) ++
          natToStr (1 + 0 + 1 +
            (if (CellMapping.ofFrames
              [(⟨7, [("x", [CellExpr.Empty]), ("y", [CellExpr.Empty])]⟩,
                (1, 2), .VERTICAL)] true).header_in_table then 1 else 0)))) ∧
    (DisplayAxis.VERTICAL = DisplayAxis.HORIZONTAL →
      (CellMapping.ofFrames
          [(⟨7, [("x", [CellExpr.Empty]), ("y", [CellExpr.Empty])]⟩,
            (1, 2), .VERTICAL)] true).getItem ⟨7, "y", 0⟩ =
        some (int_to_alpha (2 +
            (if (CellMapping.ofFrames
              [(⟨7, [("x", [CellExpr.Empty]), ("y", [CellExpr.Empty])]⟩,
                (1, 2), .VERTICAL)] true).header_in_table then 1 else 0) + 0) ++
          natToStr (1 + 1 + 1))) ∧
    int_to_alpha 0 = "A" ∧ int_to_alpha 25 = "Z" ∧
    int_to_alpha 26 = "AA" ∧ int_to_alpha 701 = "ZZ" :=
  claim_C6_position_mapping _ ⟨1, 2, ["x", "y"], .VERTICAL⟩ ⟨7, "y", 0⟩ 1
    (by decide) (by decide)

/-- C8 amended: each operator node catches the invalid-cell exception
raised while rendering its operands and renders as the literal `ERROR`
itself; hence an `Invalid` nested two operator levels deep yields
`ERROR` only as a parenthesised subterm of the final text rather than
replacing it, and a cell whose expression is the bare `Invalid` node
raises the exception past the render call. -/
theorem claim_C8_invalid_error :
    (∀ (e : CellExpr) (m : CellMapping) (ri : Bool),
        (CellExpr.Add CellExpr.Invalid e).to_formula m ri =
          .ok (.str "ERROR")) ∧
    (∀ (l : CellExpr) (m : CellMapping) (ri : Bool) (raw : RawInput),
        l.to_formula m ri = .ok raw →
        (CellExpr.Add l CellExpr.Invalid).to_formula m ri =
          .ok (.str "ERROR")) ∧
    (∀ (m : CellMapping) (ri : Bool),
        CellExpr.Invalid.to_formula m ri = .error .invalid) ∧
    (CellExpr.Mult (.Add .Invalid (.Constant (some (.num 1))))
        (.Constant (some (.num 2)))).to_formula ⟨[], true⟩ true =
      .ok (.str "(ERROR) * 2") := by
  refine ⟨fun e m ri => ?_, fun l m ri raw hl => ?_, fun m ri => rfl,
    by decide⟩
  · rfl
  · simp only [CellExpr.to_formula, hl]
    rfl

/-- C8 counterexample: rendering a cell holding the bare `Invalid`
expression lets the invalid-cell exception escape the render call, and
a cell whose tree holds `Invalid` two operator levels deep renders as
`(ERROR) * 2`, not as the literal text `ERROR`. -/
theorem claim_C8_counterexample :
    cell_to_formula CellExpr.Invalid ⟨[], true⟩ true = .error .invalid ∧
    cell_to_formula
        (CellExpr.Mult (.Add .Invalid (.Constant (some (.num 1))))
          (.Constant (some (.num 2)))) ⟨[], true⟩ true =
      .ok "(ERROR) * 2" ∧
    "(ERROR) * 2" ≠ "ERROR" := by
  refine ⟨rfl, by decide, by decide⟩

theorem claim_C8_witness :
    (CellExpr.Add (.Constant (some (.num 5))) CellExpr.Invalid).to_formula
      ⟨[], true⟩ true = .ok (.str "ERROR") :=
  claim_C8_invalid_error.2.1 _ _ _ _ rfl

theorem except_ok_bind {e a b : Type} (x : a) (f : a → Except e b) :
    (Except.ok x : Except e a) >>= f = f x := rfl

theorem cell_to_formula_str (e : CellExpr) (m : CellMapping) (ri : Bool)
    (s : String) (he : e.to_formula m ri = .ok (.str s)) :
    cell_to_formula e m ri =
      (match pyFloat? s with
        | some v => .ok (formatVal v)
        | none => .ok s) := by
  unfold cell_to_formula
  rw [he, except_ok_bind]
  rfl

/-- C9: after `select` drops a column still referenced by a retained
formula, rendering the dangling reference against the selected table's
mapping with `raise_if_missing` disabled substitutes the
`???:column:row` placeholder, while the default raising mode surfaces
the `KeyError` to the caller. -/
theorem claim_C9_select_placeholder
    (t : ExcelFrame) (keep : List String) (sr sc : ℕ) (dropped : String)
    (i : ℕ) (hdrop : dropped ∉ (t.select keep).columns) :
    (CellExpr.CellRef ⟨t.id, dropped, i⟩).to_formula
        (writeMapping (t.select keep) sr sc) false =
      .ok (.str ("???:" ++ dropped ++ ":" ++ natToStr i)) ∧
    (CellExpr.CellRef ⟨t.id, dropped, i⟩).to_formula
        (writeMapping (t.select keep) sr sc) true = .error .keyError := by
  have hlay : (writeMapping (t.select keep) sr sc).layout? t.id =
      some ⟨sr, sc, (t.select keep).columns, .VERTICAL⟩ := by
    simp [writeMapping, CellMapping.ofFrames, CellMapping.layout?,
      ExcelFrame.select, List.find?]
  have hcol : (TableLayout.mk sr sc (t.select keep).columns
      .VERTICAL).colIdx? dropped = none := by
    simp only [TableLayout.colIdx?, List.findIdx?_eq_none_iff]
    intro x hx
    simp only [beq_eq_false_iff_ne, ne_eq]
    intro hxe
    exact hdrop (hxe ▸ hx)
  constructor
  · have hcontains : (writeMapping (t.select keep) sr sc).contains
        ⟨t.id, dropped, i⟩ = false := by
      unfold CellMapping.contains
      rw [show (⟨t.id, dropped, i⟩ : Element).id = t.id from rfl, hlay]
      simp [hcol]
    simp [CellExpr.to_formula, get_cell_mapping, hcontains, Except.map]
  · have hitem : (writeMapping (t.select keep) sr sc).getItem
        ⟨t.id, dropped, i⟩ = none := by
      simp only [CellMapping.getItem, Option.bind_eq_bind]
      rw [hlay]
      simp [hcol]
    simp [CellExpr.to_formula, get_cell_mapping, hitem, Except.map]

theorem claim_C9_witness :
    (CellExpr.CellRef ⟨5, "y", 1⟩).to_formula
        (writeMapping
          ((⟨5, [("x", [CellExpr.Empty, CellExpr.Empty]),
                 ("y", [CellExpr.Empty, CellExpr.Empty])]⟩ :
            ExcelFrame).select ["x"]) 0 0) false =
      .ok (.str ("???:" ++ "y" ++ ":" ++ natToStr 1)) ∧
    (CellExpr.CellRef ⟨5, "y", 1⟩).to_formula
        (writeMapping
          ((⟨5, [("x", [CellExpr.Empty, CellExpr.Empty]),
                 ("y", [CellExpr.Empty, CellExpr.Empty])]⟩ :
            ExcelFrame).select ["x"]) 0 0) true = .error .keyError :=
  claim_C9_select_placeholder
    ⟨5, [("x", [CellExpr.Empty, CellExpr.Empty]),
         ("y", [CellExpr.Empty, CellExpr.Empty])]⟩
    ["x"] 0 0 "y" 1 (by decide)

/-- C10: whenever a cell's rendered formula text parses as a float,
`Cell.to_formula` reformats it (before any styling hook runs) as
comma-thousands fixed two-decimal text, while non-numeric text passes
through unchanged; in particular the write path persists `Constant 1`
as `1.00` and `Constant 1234.5` as `1,234.50`. -/
theorem claim_C10_number_format :
    (∀ (e : CellExpr) (m : CellMapping) (ri : Bool) (s : String) (v : Val),
        e.to_formula m ri = .ok (.str s) → pyFloat? s = some v →
        cell_to_formula e m ri = .ok (formatVal v)) ∧
    (∀ (e : CellExpr) (m : CellMapping) (ri : Bool) (s : String),
        e.to_formula m ri = .ok (.str s) → pyFloat? s = none →
        cell_to_formula e m ri = .ok s) ∧
    (∀ m : CellMapping,
        write_cell_text m (.Constant (some (.num 1))) = .ok "1.00") ∧
    (∀ m : CellMapping,
        write_cell_text m (.Constant (some (.num (1234.5 : ℚ)))) =
          .ok "1,234.50") := by
  refine ⟨fun e m ri s v he hf => ?_, fun e m ri s he hf => ?_,
    fun m => ?_, fun m => ?_⟩
  · rw [cell_to_formula_str e m ri s he, hf]
  · rw [cell_to_formula_str e m ri s he, hf]
  · show Except.ok (formatVal (Val.num 1)) = _
    norm_num [formatVal, Val.norm, formatCommas, roundHalfEven]
    decide
  · show Except.ok (formatVal (Val.num (1234.5 : ℚ))) = _
    norm_num [formatVal, Val.norm, formatCommas, roundHalfEven]
    decide

theorem claim_C10_witness :
    (∃ v, cell_to_formula (.Neg (.Constant (some (.num 3)))) ⟨[], true⟩
        true = .ok (formatVal v)) ∧
    cell_to_formula (.Add (.Constant (some (.num 1)))
        (.Constant (some (.num 2)))) ⟨[], true⟩ true = .ok "1 + 2" :=
  ⟨⟨_, claim_C10_number_format.1 _ _ _ "-3" _ rfl rfl⟩,
    claim_C10_number_format.2.1 _ _ _ "1 + 2" rfl (by decide)⟩

theorem reach_rank_le {H : Heap} {rank : Element → ℕ}
    (hrank : ∀ a b, depEdge H a b → rank b < rank a) {a b : Element}
    (h : Relation.ReflTransGen (depEdge H) a b) : rank b ≤ rank a := by
  induction h with
  | refl => exact le_rfl
  | tail _ hedge ih => exact le_trans (le_of_lt (hrank _ _ hedge)) ih

theorem foldDeps_spec (H : Heap) (rank : Element → ℕ)
    (rec : Element → List Element → List Element →
      Option (List Element × List Element))
    (P : Element → Prop)
    (hrec : ∀ d res vis, P d → d ∉ vis →
      (∀ x ∈ vis, x ∉ res → rank d < rank x) → TopoInv H res vis →
      ∃ res' vis', rec d res vis = some (res', vis') ∧
        (∃ dd, res' = res ++ dd) ∧ d ∈ res' ∧
        (∀ x, x ∈ vis' ↔ x ∈ vis ∨ x ∈ res') ∧ TopoInv H res' vis' ∧
        (∀ x ∈ res', x ∈ res ∨ Relation.ReflTransGen (depEdge H) d x)) :
    ∀ (ds res vis : List Element),
      (∀ d ∈ ds, P d) →
      (∀ x ∈ vis, x ∉ res → ∀ d ∈ ds, rank d < rank x) →
      TopoInv H res vis →
      ∃ res' vis', foldDeps rec ds res vis = some (res', vis') ∧
        (∃ dd, res' = res ++ dd) ∧
        (∀ x, x ∈ vis' ↔ x ∈ vis ∨ x ∈ res') ∧ TopoInv H res' vis' ∧
        (∀ d ∈ ds, d ∈ res') ∧
        (∀ x ∈ res', x ∈ res ∨
          ∃ d ∈ ds, Relation.ReflTransGen (depEdge H) d x) := by
  intro ds
  induction ds with
  | nil =>
      intro res vis _ _ hinv
      exact ⟨res, vis, rfl, ⟨[], by simp⟩,
        fun x => ⟨fun hx => Or.inl hx, fun hx => hx.elim id (hinv.2.1 x)⟩,
        hinv, by simp, fun x hx => Or.inl hx⟩
  | cons d ds ih =>
      intro res vis hds hgray hinv
      by_cases hdv : d ∈ vis
      · have hdres : d ∈ res := by
          by_contra hdr
          exact absurd (hgray d hdv hdr d (by simp)) (lt_irrefl _)
        obtain ⟨res', vis', heq, hpre, hvis, hinv', hmem, hreach⟩ :=
          ih res vis (fun x hx => hds x (by simp [hx]))
            (fun x hx hxr d' hd' => hgray x hx hxr d' (by simp [hd'])) hinv
        refine ⟨res', vis', by simpa [foldDeps, hdv] using heq, hpre, hvis,
          hinv', ?_, ?_⟩
        · intro d' hd'
          rcases List.mem_cons.1 hd' with h | h
          · obtain ⟨dd, rfl⟩ := hpre
            exact h ▸ List.mem_append_left _ hdres
          · exact hmem d' h
        · intro x hx
          rcases hreach x hx with h | ⟨d', hd', hr⟩
          · exact Or.inl h
          · exact Or.inr ⟨d', by simp [hd'], hr⟩
      · obtain ⟨res₁, vis₁, heq₁, ⟨dd₁, hdd₁⟩, hdres₁, hvis₁, hinv₁,
          hreach₁⟩ := hrec d res vis (hds d (by simp)) hdv
            (fun x hx hxr => hgray x hx hxr d (by simp)) hinv
        have hsub₁ : ∀ x ∈ res, x ∈ res₁ := by
          intro x hx
          exact hdd₁ ▸ List.mem_append_left _ hx
        obtain ⟨res₂, vis₂, heq₂, ⟨dd₂, hdd₂⟩, hvis₂, hinv₂, hmem₂,
            hreach₂⟩ :=
          ih res₁ vis₁ (fun x hx => hds x (by simp [hx]))
            (fun x hx hxr d' hd' => by
              have hxv : x ∈ vis := by
                rcases (hvis₁ x).1 hx with h | h
                · exact h
                · exact absurd h hxr
              have hxr' : x ∉ res := fun hc => hxr (hsub₁ x hc)
              exact hgray x hxv hxr' d' (by simp [hd'])) hinv₁
        have hsub₂ : ∀ x ∈ res₁, x ∈ res₂ := by
          intro x hx
          exact hdd₂ ▸ List.mem_append_left _ hx
        refine ⟨res₂, vis₂, ?_, ⟨dd₁ ++ dd₂, by simp [hdd₁, hdd₂]⟩,
          ?_, hinv₂, ?_, ?_⟩
        · simpa [foldDeps, hdv, heq₁] using heq₂
        · intro x
          constructor
          · intro hx
            rcases (hvis₂ x).1 hx with h | h
            · rcases (hvis₁ x).1 h with h' | h'
              · exact Or.inl h'
              · exact Or.inr (hsub₂ x h')
            · exact Or.inr h
          · intro hx
            rcases hx with h | h
            · exact (hvis₂ x).2 (Or.inl ((hvis₁ x).2 (Or.inl h)))
            · exact (hvis₂ x).2 (Or.inr h)
        · intro d' hd'
          rcases List.mem_cons.1 hd' with h | h
          · exact h ▸ hsub₂ d hdres₁
          · exact hmem₂ d' h
        · intro x hx
          rcases hreach₂ x hx with h | ⟨d', hd', hr⟩
          · rcases hreach₁ x h with h' | h'
            · exact Or.inl h'
            · exact Or.inr ⟨d, by simp, h'⟩
          · exact Or.inr ⟨d', by simp [hd'], hr⟩

theorem sort_deps_spec (H : Heap) (rank : Element → ℕ)
    (hrank : ∀ a b, depEdge H a b → rank b < rank a) :
    ∀ (fuel : ℕ) (e : Element) (res vis : List Element),
      rank e < fuel → e ∉ vis →
      (∀ x ∈ vis, x ∉ res → rank e < rank x) →
      TopoInv H res vis →
      ∃ res' vis', sort_deps H fuel e res vis = some (res', vis') ∧
        (∃ dd, res' = res ++ dd) ∧ e ∈ res' ∧
        (∀ x, x ∈ vis' ↔ x ∈ vis ∨ x ∈ res') ∧ TopoInv H res' vis' ∧
        (∀ x ∈ res', x ∈ res ∨ Relation.ReflTransGen (depEdge H) e x) := by
  intro fuel
  induction fuel with
  | zero => intro e res vis hf; omega
  | succ fuel ih =>
      intro e res vis hf hev hgray hinv
      obtain ⟨res₁, vis₁, heq₁, ⟨dd₁, hdd₁⟩, hvis₁, hinv₁, hdeps₁,
          hreach₁⟩ :=
        foldDeps_spec H rank (sort_deps H fuel) (fun d => rank d < rank e)
          (fun d res' vis' hPd hdv hg hi =>
            ih d res' vis' (by omega) hdv hg hi)
          ((H e).dependencies) res (e :: vis)
          (fun d hd => hrank e d hd)
          (fun x hx hxr d hd => by
            rcases List.mem_cons.1 hx with h | h
            · exact h ▸ hrank e d hd
            · exact lt_trans (hrank e d hd) (hgray x h hxr))
          ⟨hinv.1, fun x hx => by simp [hinv.2.1 x hx], hinv.2.2⟩
      have heres₁ : e ∉ res₁ := by
        intro hc
        rcases hreach₁ e hc with h | ⟨d, hd, hr⟩
        · exact hev (hinv.2.1 e h)
        · exact absurd (lt_of_lt_of_le (hrank e d hd) (reach_rank_le hrank hr))
            (lt_irrefl _)
      have hsub₁ : ∀ x ∈ res, x ∈ res₁ := fun x hx =>
        hdd₁ ▸ List.mem_append_left _ hx
      refine ⟨res₁ ++ [e], vis₁, ?_, ⟨dd₁ ++ [e], by simp [hdd₁]⟩,
        by simp, ?_, ⟨?_, ?_, ?_⟩, ?_⟩
      · show sort_deps H (fuel + 1) e res vis = _
        unfold sort_deps
        rw [heq₁]
      · intro x
        constructor
        · intro hx
          rcases (hvis₁ x).1 hx with h | h
          · rcases List.mem_cons.1 h with h' | h'
            · exact Or.inr (by simp [h'])
            · exact Or.inl h'
          · exact Or.inr (List.mem_append_left _ h)
        · intro hx
          rcases hx with h | h
          · exact (hvis₁ x).2 (Or.inl (by simp [h]))
          · rcases List.mem_append.1 h with h' | h'
            · exact (hvis₁ x).2 (Or.inr h')
            · exact (hvis₁ x).2 (Or.inl (by simp at h'; simp [h']))
      · exact List.Nodup.append hinv₁.1 (by simp)
          (by simp [List.disjoint_left]; exact heres₁)
      · intro x hx
        rcases List.mem_append.1 hx with h | h
        · exact (hvis₁ x).2 (Or.inr h)
        · simp at h
          exact (hvis₁ x).2 (Or.inl (by simp [h]))
      · intro c hc d hd
        rcases List.mem_append.1 hc with h | h
        · obtain ⟨hdmem, hidx⟩ := hinv₁.2.2 c h d hd
          exact ⟨List.mem_append_left _ hdmem, by
            rw [List.indexOf_append_of_mem hdmem,
              List.indexOf_append_of_mem h]
            exact hidx⟩
        · simp at h
          subst h
          have hdmem : d ∈ res₁ := hdeps₁ d hd
          refine ⟨List.mem_append_left _ hdmem, ?_⟩
          rw [List.indexOf_append_of_mem hdmem,
            List.indexOf_append_of_not_mem heres₁]
          simp
          exact List.indexOf_lt_length.2 hdmem
      · intro x hx
        rcases List.mem_append.1 hx with h | h
        · rcases hreach₁ x h with h' | ⟨d, hd, hr⟩
          · exact Or.inl h'
          · exact Or.inr (Relation.ReflTransGen.head hd hr)
        · simp at h
          exact Or.inr (h ▸ Relation.ReflTransGen.refl)

theorem topoRoots_spec (H : Heap) (rank : Element → ℕ)
    (hrank : ∀ a b, depEdge H a b → rank b < rank a) (fuel : ℕ) :
    ∀ (roots res vis : List Element),
      (∀ r ∈ roots, rank r < fuel) →
      (∀ x, x ∈ vis ↔ x ∈ res) →
      TopoInv H res vis →
      ∃ res' vis', topoRoots H fuel roots res vis = some (res', vis') ∧
        (∃ dd, res' = res ++ dd) ∧
        (∀ x, x ∈ vis' ↔ x ∈ res') ∧ TopoInv H res' vis' ∧
        (∀ r ∈ roots, r ∈ res') ∧
        (∀ x ∈ res', x ∈ res ∨
          ∃ r ∈ roots, Relation.ReflTransGen (depEdge H) r x) := by
  intro roots
  induction roots with
  | nil =>
      intro res vis _ hvr hinv
      exact ⟨res, vis, rfl, ⟨[], by simp⟩, hvr, hinv, by simp,
        fun x hx => Or.inl hx⟩
  | cons c cs ih =>
      intro res vis hf hvr hinv
      by_cases hcv : c ∈ vis
      · obtain ⟨res', vis', heq, hpre, hvr', hinv', hmem, hreach⟩ :=
          ih res vis (fun r hr => hf r (by simp [hr])) hvr hinv
        refine ⟨res', vis', by simpa [topoRoots, hcv] using heq, hpre,
          hvr', hinv', ?_, ?_⟩
        · intro r hr
          rcases List.mem_cons.1 hr with h | h
          · obtain ⟨dd, rfl⟩ := hpre
            exact h ▸ List.mem_append_left _ ((hvr c).1 hcv)
          · exact hmem r h
        · intro x hx
          rcases hreach x hx with h | ⟨r, hr, hrr⟩
          · exact Or.inl h
          · exact Or.inr ⟨r, by simp [hr], hrr⟩
      · obtain ⟨res₁, vis₁, heq₁, ⟨dd₁, hdd₁⟩, hcres₁, hvis₁, hinv₁,
          hreach₁⟩ :=
          sort_deps_spec H rank hrank fuel c res vis (hf c (by simp)) hcv
            (fun x hx hxr => absurd ((hvr x).1 hx) hxr) hinv
        have hvr₁ : ∀ x, x ∈ vis₁ ↔ x ∈ res₁ := by
          intro x
          rw [hvis₁ x]
          constructor
          · intro hx
            rcases hx with h | h
            · exact hdd₁ ▸ List.mem_append_left _ ((hvr x).1 h)
            · exact h
          · exact Or.inr
        obtain ⟨res₂, vis₂, heq₂, ⟨dd₂, hdd₂⟩, hvr₂, hinv₂, hmem₂,
            hreach₂⟩ :=
          ih res₁ vis₁ (fun r hr => hf r (by simp [hr])) hvr₁ hinv₁
        refine ⟨res₂, vis₂, ?_, ⟨dd₁ ++ dd₂, by simp [hdd₁, hdd₂]⟩,
          hvr₂, hinv₂, ?_, ?_⟩
        · simpa [topoRoots, hcv, heq₁] using heq₂
        · intro r hr
          rcases List.mem_cons.1 hr with h | h
          · exact h ▸ (hdd₂ ▸ List.mem_append_left _ hcres₁)
          · exact hmem₂ r h
        · intro x hx
          rcases hreach₂ x hx with h | ⟨r, hr, hrr⟩
          · rcases hreach₁ x h with h' | h'
            · exact Or.inl h'
            · exact Or.inr ⟨c, by simp, h'⟩
          · exact Or.inr ⟨r, by simp [hr], hrr⟩

/-- C2: assuming the dependency graph is acyclic (witnessed by a rank
function strictly decreasing along dependency edges), the depth-first
topological sort succeeds (given fuel above every root's rank), its
output lists every cell reachable from the given roots exactly once,
and every dependency of an output cell appears strictly before it. -/
theorem claim_C2_topological_sort
    (H : Heap) (rank : Element → ℕ)
    (hrank : ∀ a b, depEdge H a b → rank b < rank a)
    (roots : List Element) (fuel : ℕ)
    (hfuel : ∀ r ∈ roots, rank r < fuel) :
    ∃ out, _topological_sort H fuel roots = some out ∧
      out.Nodup ∧
      (∀ x, x ∈ out ↔ Reaches H roots x) ∧
      (∀ c ∈ out, ∀ d ∈ (H c).dependencies,
        d ∈ out ∧ out.indexOf d < out.indexOf c) := by
  obtain ⟨res', vis', heq, ⟨dd, hdd⟩, hvr, hinv, hmem, hreach⟩ :=
    topoRoots_spec H rank hrank fuel roots [] [] hfuel (by simp)
      ⟨List.nodup_nil, by simp, by simp⟩
  refine ⟨res', by simp [_topological_sort, heq], hinv.1, ?_, ?_⟩
  · intro x
    constructor
    · intro hx
      rcases hreach x hx with h | h
      · simp at h
      · exact h
    · rintro ⟨r, hr, hrr⟩
      have hro : r ∈ res' := hmem r hr
      clear hr
      induction hrr with
      | refl => exact hro
      | tail _ hedge ihr => exact (hinv.2.2 _ ihr _ hedge).1
  · intro c hc d hd
    exact hinv.2.2 c hc d hd

theorem claim_C2_witness :
    ∃ out, _topological_sort
        (fun el => if el = ⟨0, "y", 0⟩ then
          CellExpr.CellRef ⟨0, "x", 0⟩ else CellExpr.Empty) 2
        [⟨0, "y", 0⟩, ⟨0, "x", 0⟩] = some out ∧
      out.Nodup ∧
      (∀ x, x ∈ out ↔ Reaches
        (fun el => if el = ⟨0, "y", 0⟩ then
          CellExpr.CellRef ⟨0, "x", 0⟩ else CellExpr.Empty)
        [⟨0, "y", 0⟩, ⟨0, "x", 0⟩] x) ∧
      (∀ c ∈ out, ∀ d ∈ ((fun el => if el = ⟨0, "y", 0⟩ then
          CellExpr.CellRef ⟨0, "x", 0⟩ else CellExpr.Empty) c).dependencies,
        d ∈ out ∧ out.indexOf d < out.indexOf c) :=
  claim_C2_topological_sort _
    (fun el => if el = ⟨0, "y", 0⟩ then 1 else 0)
    (by
      intro a b hb
      unfold depEdge at hb
      by_cases ha : a = ⟨0, "y", 0⟩
      · subst ha
        simp [CellExpr.dependencies] at hb
        subst hb
        decide
      · simp [ha, CellExpr.dependencies] at hb)
    _ 2
    (by
      intro r hr
      rcases List.mem_cons.1 hr with h | h
      · subst h; simp
      · simp at h; subst h; simp)

theorem topoRoots_nodeps (H : Heap) (fuel : ℕ) (hfuel : 1 ≤ fuel) :
    ∀ (roots res vis : List Element),
      (∀ r ∈ roots, (H r).dependencies = []) →
      (∀ x, x ∈ vis ↔ x ∈ res) →
      ∃ res' vis', topoRoots H fuel roots res vis = some (res', vis') ∧
        (∀ x, x ∈ vis' ↔ x ∈ res') ∧ (∃ dd, res' = res ++ dd) ∧
        (∀ r ∈ roots, r ∈ res') ∧ (∀ x ∈ res', x ∈ res ∨ x ∈ roots) := by
  intro roots
  induction roots with
  | nil =>
      intro res vis _ hvr
      exact ⟨res, vis, rfl, hvr, ⟨[], by simp⟩, by simp,
        fun x hx => Or.inl hx⟩
  | cons c cs ih =>
      intro res vis hdeps hvr
      by_cases hcv : c ∈ vis
      · obtain ⟨res', vis', heq, hvr', ⟨dd, hdd⟩, hmem, hsub⟩ :=
          ih res vis (fun r hr => hdeps r (by simp [hr])) hvr
        refine ⟨res', vis', by simpa [topoRoots, hcv] using heq, hvr',
          ⟨dd, hdd⟩, ?_, ?_⟩
        · intro r hr
          rcases List.mem_cons.1 hr with h | h
          · exact h ▸ (hdd ▸ List.mem_append_left _ ((hvr c).1 hcv))
          · exact hmem r h
        · intro x hx
          rcases hsub x hx with h | h
          · exact Or.inl h
          · exact Or.inr (by simp [h])
      · obtain ⟨f, rfl⟩ : ∃ f, fuel = f + 1 := ⟨fuel - 1, by omega⟩
        have hsort : sort_deps H (f + 1) c res vis =
            some (res ++ [c], c :: vis) := by
          unfold sort_deps
          rw [hdeps c (by simp)]
          rfl
        obtain ⟨res', vis', heq, hvr', ⟨dd, hdd⟩, hmem, hsub⟩ :=
          ih (res ++ [c]) (c :: vis)
            (fun r hr => hdeps r (by simp [hr]))
            (fun x => by
              constructor
              · intro hx
                rcases List.mem_cons.1 hx with h | h
                · exact List.mem_append_right _ (by simp [h])
                · exact List.mem_append_left _ ((hvr x).1 h)
              · intro hx
                rcases List.mem_append.1 hx with h | h
                · exact List.mem_cons_of_mem _ ((hvr x).2 h)
                · simp at h
                  simp [h])
        refine ⟨res', vis', by simpa [topoRoots, hcv, hsort] using heq,
          hvr', ⟨[c] ++ dd, by simp [hdd]⟩, ?_, ?_⟩
        · intro r hr
          rcases List.mem_cons.1 hr with h | h
          · exact h ▸ (hdd ▸ List.mem_append_left _
              (List.mem_append_right _ (by simp)))
          · exact hmem r h
        · intro x hx
          rcases hsub x hx with h | h
          · rcases List.mem_append.1 h with h' | h'
            · exact Or.inl h'
            · simp at h'
              exact Or.inr (by simp [h'])
          · exact Or.inr (by simp [h])

theorem computePass_not_mem (H : Heap) :
    ∀ (order : List Element) (st : Store) (el : Element),
      el ∉ order → computePass H order st el = st el := by
  intro order
  induction order with
  | nil => intro st el _; rfl
  | cons a rest ih =>
      intro st el hel
      have h1 : el ∉ rest := fun h => hel (by simp [h])
      have h2 : el ≠ a := fun h => hel (by simp [h])
      show computePass H rest (updateStore st a ((H a).compute st)) el = _
      rw [ih _ el h1]
      simp [updateStore, h2]

theorem computePass_const (H : Heap) :
    ∀ (order : List Element) (st : Store) (el : Element),
      (∀ e ∈ order, ∃ v, H e = .Constant v) → el ∈ order →
      computePass H order st el = (H el).compute (fun _ => none) := by
  intro order
  induction order with
  | nil => intro st el _ h; simp at h
  | cons a rest ih =>
      intro st el hconst hel
      show computePass H rest (updateStore st a ((H a).compute st)) el = _
      by_cases hr : el ∈ rest
      · exact ih _ el (fun e he => hconst e (by simp [he])) hr
      · have hea : el = a := by
          rcases List.mem_cons.1 hel with h | h
          · exact h
          · exact absurd h hr
        subst hea
        rw [computePass_not_mem H rest _ el hr]
        obtain ⟨v, hv⟩ := hconst el (by simp)
        simp [updateStore, hv, CellExpr.compute]

theorem mem_elements_of (t : ExcelFrame) {name : String}
    {es : List CellExpr} (hp : (name, es) ∈ t.cols) {i : ℕ}
    (hi : i < es.length) : (⟨t.id, name, i⟩ : Element) ∈ t.elements := by
  simp only [ExcelFrame.elements, List.mem_flatMap]
  exact ⟨(name, es), hp, by
    simp only [List.mem_map, List.mem_range]
    exact ⟨i, hi, rfl⟩⟩

theorem elements_mem_inv (t : ExcelFrame) (el : Element)
    (h : el ∈ t.elements) :
    ∃ name es i, (name, es) ∈ t.cols ∧ i < es.length ∧
      el = ⟨t.id, name, i⟩ := by
  simp only [ExcelFrame.elements, List.mem_flatMap, List.mem_map,
    List.mem_range] at h
  obtain ⟨p, hp, i, hi, rfl⟩ := h
  exact ⟨p.1, p.2, i, hp, hi, rfl⟩

theorem heap_constant_of (t : ExcelFrame) (H' : Heap)
    (hcoh : coheres H' t) (hall : t.allConstant) {el : Element}
    (h : el ∈ t.elements) : ∃ v, H' el = .Constant v := by
  obtain ⟨name, es, i, hp, hi, rfl⟩ := elements_mem_inv t el h
  obtain ⟨ci, hci⟩ := List.mem_iff_getElem?.1 hp
  have hcell : t.cellExpr? ci i = some (name, es[i]) := by
    simp [ExcelFrame.cellExpr?, hci, List.getElem?_eq_getElem hi]
  have hcv := hcoh ci i name es[i] hcell
  obtain ⟨v, hv⟩ := hall (name, es) hp es[i] (es.getElem_mem hi)
  exact ⟨v, by rw [hcv, hv]⟩

theorem heap_cell_of (t : ExcelFrame) (H' : Heap) (hcoh : coheres H' t)
    {name : String} {es : List CellExpr} (hp : (name, es) ∈ t.cols)
    {i : ℕ} (hi : i < es.length) : H' ⟨t.id, name, i⟩ = es[i] := by
  obtain ⟨ci, hci⟩ := List.mem_iff_getElem?.1 hp
  exact hcoh ci i name es[i] (by
    simp [ExcelFrame.cellExpr?, hci, List.getElem?_eq_getElem hi])

theorem evaluate_of_allConstant (t : ExcelFrame) (H' : Heap)
    (fuel' newId' : ℕ) (st' : Store) (hcoh : coheres H' t)
    (hall : t.allConstant) (hfuel' : 1 ≤ fuel') :
    t.evaluate H' fuel' newId' st' = some ⟨newId', t.cols⟩ := by
  have hdeps : ∀ r ∈ t.elements, (H' r).dependencies = [] := by
    intro r hr
    obtain ⟨v, hv⟩ := heap_constant_of t H' hcoh hall hr
    rw [hv]
    rfl
  obtain ⟨res', vis', heq, _, _, hmem, hsub⟩ :=
    topoRoots_nodeps H' fuel' hfuel' t.elements [] [] hdeps (by simp)
  have hconstord : ∀ e ∈ res', ∃ v, H' e = .Constant v := by
    intro e he
    rcases hsub e he with h | h
    · simp at h
    · exact heap_constant_of t H' hcoh hall h
  unfold ExcelFrame.evaluate _topological_sort
  rw [heq]
  simp only [Option.map_map, Option.map_some', Function.comp]
  congr 2
  have : ∀ p ∈ t.cols,
      (p.1, (List.range p.2.length).map fun i =>
        CellExpr.Constant (computePass H' res' st' ⟨t.id, p.1, i⟩)) = p := by
    intro p hp
    have hpe : p = (p.1, p.2) := rfl
    refine Prod.ext rfl ?_
    refine List.ext_getElem (by simp) ?_
    intro i h1 h2
    simp only [List.getElem_map, List.getElem_range]
    have hmemel : (⟨t.id, p.1, i⟩ : Element) ∈ t.elements :=
      mem_elements_of t (hpe ▸ hp) (by simpa using h1)
    rw [computePass_const H' res' st' _ hconstord (hmem _ hmemel)]
    have hcell : H' ⟨t.id, p.1, i⟩ = p.2[i] :=
      heap_cell_of t H' hcoh (hpe ▸ hp) (by simpa using h1)
    obtain ⟨v, hv⟩ := hall p hp p.2[i] (p.2.getElem_mem (by simpa using h1))
    rw [hcell, hv]
    rfl
  calc t.cols.map _ = t.cols.map id := List.map_congr_left this
    _ = t.cols := List.map_id t.cols

/-- C5: `evaluate` produces a table in which every cell holds a
`Constant` expression, and evaluating that table again (through any
heap agreeing with its cells) reproduces it observationally: the same
column names in the same order with the same constant payload in every
cell (only the fresh table id differs). -/
theorem claim_C5_evaluate_idempotent
    (H : Heap) (fuel newId : ℕ) (t : ExcelFrame) (st : Store)
    (t' : ExcelFrame) (hE : t.evaluate H fuel newId st = some t')
    (H' : Heap) (fuel' newId' : ℕ) (st' : Store)
    (hcoh : coheres H' t') (hfuel' : 1 ≤ fuel') :
    t'.allConstant ∧
      t'.evaluate H' fuel' newId' st' = some ⟨newId', t'.cols⟩ := by
  have hall : t'.allConstant := by
    obtain ⟨order, _, ht'⟩ := Option.map_eq_some'.1 hE
    subst ht'
    intro p hp e he
    simp only [List.mem_map] at hp
    obtain ⟨q, _, rfl⟩ := hp
    simp only [List.mem_map, List.mem_range] at he
    obtain ⟨i, _, rfl⟩ := he
    exact ⟨_, rfl⟩
  exact ⟨hall, evaluate_of_allConstant t' H' fuel' newId' st' hcoh hall
    hfuel'⟩

theorem coheres_heapOf (t : ExcelFrame) (base : Heap)
    (hnd : (t.cols.map Prod.fst).Nodup) : coheres (t.heapOf base) t := by
  intro c r s e h
  simp only [ExcelFrame.cellExpr?, Option.bind_eq_bind, Option.bind_eq_some,
    Option.pure_def, Option.some.injEq, Prod.mk.injEq] at h
  obtain ⟨p, hc, e', he, hs, he'⟩ := h
  subst hs
  subst he'
  have hpmem : p ∈ t.cols := List.mem_iff_getElem?.2 ⟨c, hc⟩
  unfold ExcelFrame.heapOf
  simp only [if_pos rfl]
  cases hfind : t.cols.find? (fun q => q.1 == p.1) with
  | none =>
      exact absurd (List.find?_eq_none.1 hfind p hpmem) (by simp)
  | some q =>
      have hq1 : q.1 = p.1 := by
        have := List.find?_some hfind
        simpa using this
      have hqmem : q ∈ t.cols := List.mem_of_find?_eq_some hfind
      have hqp : q = p := List.inj_on_of_nodup_map hnd hqmem hpmem hq1
      subst hqp
      simp [List.getD_eq_getElem?_getD, he]

theorem claim_C5_witness :
    ∃ t' : ExcelFrame,
      ExcelFrame.evaluate
          (ExcelFrame.heapOf ⟨0, [("x", [.Constant (some (.num 1)),
            .CellRef ⟨0, "x", 0⟩])]⟩ fun _ => .Empty) 5 1
          ⟨0, [("x", [.Constant (some (.num 1)),
            .CellRef ⟨0, "x", 0⟩])]⟩ (fun _ => none) = some t' ∧
      t'.allConstant ∧
      t'.evaluate (t'.heapOf fun _ => .Empty) 3 2 (fun _ => none) =
        some ⟨2, t'.cols⟩ := by
  refine ⟨⟨1, [("x", [.Constant (some (.num 1)),
      .Constant (some (.num 1))])]⟩, rfl,
    claim_C5_evaluate_idempotent
      (ExcelFrame.heapOf ⟨0, [("x", [.Constant (some (.num 1)),
        .CellRef ⟨0, "x", 0⟩])]⟩ fun _ => .Empty) 5 1
      ⟨0, [("x", [.Constant (some (.num 1)),
        .CellRef ⟨0, "x", 0⟩])]⟩ (fun _ => none) _ rfl
      _ 3 2 _ (coheres_heapOf _ _ (by decide)) (by decide)⟩

/-! ## Decimal digit strings -/

theorem digitChar_toNat (n : ℕ) : (digitChar n).toNat = 48 + n % 10 := by
  have h : n % 10 < 10 := Nat.mod_lt n (by omega)
  unfold digitChar
  set m := n % 10 with hm
  interval_cases m <;> decide

theorem digitChar_isDigit (n : ℕ) : (digitChar n).isDigit = true := by
  have h : n % 10 < 10 := Nat.mod_lt n (by omega)
  unfold digitChar
  set m := n % 10 with hm
  interval_cases m <;> decide

theorem natToDigitsAux_eq_of_lt :
    ∀ f f' n, n < f → n < f' → natToDigitsAux f n = natToDigitsAux f' n := by
  intro f
  induction f with
  | zero => intro f' n h; omega
  | succ f ih =>
      intro f' n h h'
      cases f' with
      | zero => omega
      | succ f' =>
          by_cases h10 : n < 10
          · simp [natToDigitsAux, h10]
          · have hd : n / 10 < f := by
              have := Nat.div_lt_self (by omega : 0 < n) (by omega : 1 < 10)
              omega
            have hd' : n / 10 < f' := by
              have := Nat.div_lt_self (by omega : 0 < n) (by omega : 1 < 10)
              omega
            simp only [natToDigitsAux, if_neg h10]
            rw [ih f' (n / 10) hd hd']

theorem natToDigitsAux_step (n : ℕ) :
    natToDigitsAux (n + 1) n =
      if n < 10 then [digitChar n]
      else natToDigitsAux n (n / 10) ++ [digitChar (n % 10)] := rfl

theorem natToDigits_ten_le (n : ℕ) (h : ¬ n < 10) :
    natToDigits n = natToDigits (n / 10) ++ [digitChar (n % 10)] := by
  show natToDigitsAux (n + 1) n = _
  rw [natToDigitsAux_step, if_neg h,
    natToDigitsAux_eq_of_lt n (n / 10 + 1) (n / 10)
      (by have := Nat.div_lt_self (by omega : 0 < n) (by omega : 1 < 10); omega)
      (by omega)]
  rfl

theorem natToDigits_lt_ten (n : ℕ) (h : n < 10) :
    natToDigits n = [digitChar n] := by
  show natToDigitsAux (n + 1) n = _
  rw [natToDigitsAux_step, if_pos h]

theorem natToDigits_ne_nil (n : ℕ) : natToDigits n ≠ [] := by
  by_cases h : n < 10
  · rw [natToDigits_lt_ten n h]; simp
  · rw [natToDigits_ten_le n h]; simp

theorem natToDigits_all_digits (n : ℕ) :
    ∀ c ∈ natToDigits n, c.isDigit = true := by
  induction n using Nat.strong_induction_on with
  | _ n ih =>
      by_cases h : n < 10
      · rw [natToDigits_lt_ten n h]
        intro c hc
        simp at hc
        subst hc
        exact digitChar_isDigit n
      · rw [natToDigits_ten_le n h]
        intro c hc
        rcases List.mem_append.1 hc with h1 | h1
        · exact ih (n / 10)
            (Nat.div_lt_self (by omega) (by omega)) c h1
        · simp at h1
          subst h1
          exact digitChar_isDigit _

theorem digitsVal_foldl (cs : List Char) :
    ∀ a, List.foldl (fun a c => a * 10 + (c.toNat - 48)) a cs =
      a * 10 ^ cs.length + digitsVal cs := by
  induction cs with
  | nil => intro a; simp [digitsVal]
  | cons d ds ih =>
      intro a
      show List.foldl _ (a * 10 + (d.toNat - 48)) ds = _
      rw [ih]
      have h2 : digitsVal (d :: ds) =
          (d.toNat - 48) * 10 ^ ds.length + digitsVal ds := by
        show List.foldl _ (0 * 10 + (d.toNat - 48)) ds = _
        rw [ih]
        ring_nf
      rw [h2, List.length_cons]
      ring_nf

theorem digitsVal_cons (c : Char) (cs : List Char) :
    digitsVal (c :: cs) =
      (c.toNat - 48) * 10 ^ cs.length + digitsVal cs := by
  show List.foldl _ (0 * 10 + (c.toNat - 48)) cs = _
  rw [digitsVal_foldl]
  ring_nf

theorem digitsVal_append (a b : List Char) :
    digitsVal (a ++ b) = digitsVal a * 10 ^ b.length + digitsVal b := by
  induction a with
  | nil => simp [digitsVal]
  | cons c cs ih =>
      rw [List.cons_append, digitsVal_cons, digitsVal_cons, ih,
        List.length_append]
      ring_nf

theorem digitsVal_singleton (c : Char) : digitsVal [c] = c.toNat - 48 := by
  rw [digitsVal_cons]
  simp [digitsVal]

theorem digitsVal_natToDigits (n : ℕ) : digitsVal (natToDigits n) = n := by
  induction n using Nat.strong_induction_on with
  | _ n ih =>
      by_cases h : n < 10
      · rw [natToDigits_lt_ten n h, digitsVal_singleton, digitChar_toNat]
        omega
      · rw [natToDigits_ten_le n h, digitsVal_append,
          ih (n / 10) (Nat.div_lt_self (by omega) (by omega)),
          digitsVal_singleton, digitChar_toNat]
        simp
        omega

theorem natToDigits_length_le (n k : ℕ) (hk : 1 ≤ k) (h : n < 10 ^ k) :
    (natToDigits n).length ≤ k := by
  induction n using Nat.strong_induction_on generalizing k with
  | _ n ih =>
      by_cases h10 : n < 10
      · rw [natToDigits_lt_ten n h10]; simpa using hk
      · rw [natToDigits_ten_le n h10]
        have hk2 : 2 ≤ k := by
          by_contra hc
          have : k = 1 := by omega
          subst this
          simp at h
          omega
        have hlt : n / 10 < 10 ^ (k - 1) := by
          have hsp : 10 ^ k = 10 ^ (k - 1) * 10 := by
            rw [← pow_succ]
            congr 1
            omega
          rw [hsp] at h
          omega
        have := ih (n / 10) (Nat.div_lt_self (by omega) (by omega))
          (k - 1) (by omega) hlt
        simp only [List.length_append, List.length_cons, List.length_nil]
        omega

theorem natToDigitsPad_all_digits (k n : ℕ) :
    ∀ c ∈ natToDigitsPad k n, c.isDigit = true := by
  intro c hc
  unfold natToDigitsPad at hc
  rcases List.mem_append.1 hc with h | h
  · rw [List.eq_of_mem_replicate h]; decide
  · exact natToDigits_all_digits n c h

theorem natToDigitsPad_length (k n : ℕ) (hk : 1 ≤ k) (h : n < 10 ^ k) :
    (natToDigitsPad k n).length = k := by
  have := natToDigits_length_le n k hk h
  unfold natToDigitsPad
  simp
  omega

theorem digitsVal_replicate_zero (m : ℕ) :
    digitsVal (List.replicate m '0') = 0 := by
  induction m with
  | zero => rfl
  | succ m ih => rw [List.replicate_succ, digitsVal_cons, ih]; simp

theorem digitsVal_natToDigitsPad (k n : ℕ) :
    digitsVal (natToDigitsPad k n) = n := by
  unfold natToDigitsPad
  rw [digitsVal_append, digitsVal_replicate_zero, digitsVal_natToDigits]
  simp

/-! ## Maximal-munch decompositions -/

theorem takeWhile_append_all {p : Char → Bool} (a b : List Char)
    (h : ∀ c ∈ a, p c = true) :
    (a ++ b).takeWhile p = a ++ b.takeWhile p := by
  induction a with
  | nil => simp
  | cons c cs ih =>
      rw [List.cons_append, List.takeWhile_cons, if_pos (h c (by simp))]
      rw [ih fun c hc => h c (by simp [hc])]
      rfl

theorem dropWhile_append_all {p : Char → Bool} (a b : List Char)
    (h : ∀ c ∈ a, p c = true) :
    (a ++ b).dropWhile p = b.dropWhile p := by
  induction a with
  | nil => simp
  | cons c cs ih =>
      rw [List.cons_append, List.dropWhile_cons, if_pos (h c (by simp))]
      exact ih fun c hc => h c (by simp [hc])

theorem takeWhile_head_false {p : Char → Bool} (b : List Char)
    (h : ∀ c, b.head? = some c → p c = false) :
    b.takeWhile p = [] := by
  cases b with
  | nil => simp
  | cons c cs => rw [List.takeWhile_cons, if_neg (by simp [h c rfl])]

theorem dropWhile_head_false {p : Char → Bool} (b : List Char)
    (h : ∀ c, b.head? = some c → p c = false) :
    b.dropWhile p = b := by
  cases b with
  | nil => simp
  | cons c cs => rw [List.dropWhile_cons, if_neg (by simp [h c rfl])]

theorem bdryCh_head_not_digit (rest : List Char) (h : bdryCh rest) :
    ∀ c, rest.head? = some c → c.isDigit = false := by
  intro c hc
  cases rest with
  | nil => simp at hc
  | cons d ds =>
      simp at hc
      subst hc
      rcases h with h | h | h <;> subst h <;> decide

theorem munchDigits_spec (d rest : List Char)
    (hd : ∀ c ∈ d, c.isDigit = true)
    (hr : ∀ c, rest.head? = some c → c.isDigit = false) :
    munchDigits (d ++ rest) = (d, rest) := by
  unfold munchDigits
  rw [takeWhile_append_all d rest hd, dropWhile_append_all d rest hd,
    takeWhile_head_false rest hr, dropWhile_head_false rest hr]
  simp

theorem munchExp_bdry (rest : List Char) (h : bdryCh rest) :
    munchExp rest = none := by
  cases rest with
  | nil => rfl
  | cons c cs =>
      unfold munchExp
      rcases h with h | h | h <;> subst h <;> simp

theorem munchNumBody_int (d rest : List Char)
    (hd : ∀ c ∈ d, c.isDigit = true) (hne : d ≠ []) (hb : bdryCh rest) :
    munchNumBody (d ++ rest) = some (⟨digitsVal d, 0, true, 0⟩, rest) := by
  unfold munchNumBody
  rw [munchDigits_spec d rest hd (bdryCh_head_not_digit rest hb)]
  have hexp := munchExp_bdry rest hb
  cases rest with
  | nil => simp [hne, munchExp]
  | cons c cs =>
      have hc : c = ' ' ∨ c = ')' ∨ c = ':' := hb
      rcases hc with h | h | h <;> subst h <;> simp [hne, hexp]

theorem munchNumBody_frac (d1 d2 rest : List Char)
    (hd1 : ∀ c ∈ d1, c.isDigit = true) (hne1 : d1 ≠ [])
    (hd2 : ∀ c ∈ d2, c.isDigit = true)
    (hb : bdryCh rest) :
    munchNumBody (d1 ++ '.' :: (d2 ++ rest)) =
      some (⟨digitsVal (d1 ++ d2), d2.length, false, 0⟩, rest) := by
  unfold munchNumBody
  rw [munchDigits_spec d1 ('.' :: (d2 ++ rest)) hd1 (by
    intro c hc
    simp at hc
    subst hc
    decide)]
  simp only
  rw [munchDigits_spec d2 rest hd2 (bdryCh_head_not_digit rest hb)]
  simp [hne1, munchExp_bdry rest hb]

/-! ## Lexer steps and fuel monotonicity -/

theorem lexRun_space (f : ℕ) (cs : List Char) :
    lexRun (f + 1) (' ' :: cs) = lexRun f cs := rfl

theorem lexRun_lparen (f : ℕ) (cs : List Char) :
    lexRun (f + 1) ('(' :: cs) = (lexRun f cs).map (.lparen :: ·) := rfl

theorem lexRun_rparen (f : ℕ) (cs : List Char) :
    lexRun (f + 1) (')' :: cs) = (lexRun f cs).map (.rparen :: ·) := rfl

theorem lexRun_colon (f : ℕ) (cs : List Char) :
    lexRun (f + 1) (':' :: cs) = (lexRun f cs).map (.colon :: ·) := rfl

theorem lexRun_eqch (f : ℕ) (cs : List Char) :
    lexRun (f + 1) ('=' :: cs) = (lexRun f cs).map (.eq :: ·) := rfl

theorem lexRun_star (f : ℕ) (cs : List Char) :
    lexRun (f + 1) ('*' :: cs) = (lexRun f cs).map (.star :: ·) := rfl

theorem lexRun_slash (f : ℕ) (cs : List Char) :
    lexRun (f + 1) ('/' :: cs) = (lexRun f cs).map (.slash :: ·) := rfl

theorem lexRun_plus (f : ℕ) (cs : List Char)
    (hm : munchNumBody cs = none) :
    lexRun (f + 1) ('+' :: cs) = (lexRun f cs).map (.plus :: ·) := by
  simp only [lexRun]
  rw [hm]
  simp only [if_neg (show ¬ (('+' : Char) = ' ') by decide),
    if_neg (show ¬ (('+' : Char).isDigit = true ∨ ('+' : Char) = '.') by decide), if_true]

theorem lexRun_minus (f : ℕ) (cs : List Char)
    (hm : munchNumBody cs = none) :
    lexRun (f + 1) ('-' :: cs) = (lexRun f cs).map (.minus :: ·) := by
  simp only [lexRun]
  rw [hm]
  simp only [if_neg (show ¬ (('-' : Char) = ' ') by decide),
    if_neg (show ¬ (('-' : Char).isDigit = true ∨ ('-' : Char) = '.') by decide),
    if_neg (show ¬ (('-' : Char) = '+') by decide), if_true]

theorem lexRun_minus_num (f : ℕ) (cs : List Char) (p : NumParts)
    (rest : List Char) (hm : munchNumBody cs = some (p, rest)) :
    lexRun (f + 1) ('-' :: cs) =
      (lexRun f rest).map (numTok true p :: ·) := by
  simp only [lexRun]
  rw [hm]
  simp only [if_neg (show ¬ (('-' : Char) = ' ') by decide),
    if_neg (show ¬ (('-' : Char).isDigit = true ∨ ('-' : Char) = '.') by decide),
    if_neg (show ¬ (('-' : Char) = '+') by decide), if_true]

theorem lexRun_digit (f : ℕ) (c : Char) (cs : List Char)
    (hc : c.isDigit = true) (p : NumParts) (rest : List Char)
    (hm : munchNumBody (c :: cs) = some (p, rest)) :
    lexRun (f + 1) (c :: cs) =
      (lexRun f rest).map (numTok false p :: ·) := by
  have hsp : ¬ (c = ' ') := by
    intro h
    subst h
    exact absurd hc (by decide)
  simp only [lexRun]
  rw [if_neg hsp, if_pos (Or.inl hc), hm]

theorem lexRun_upper_step (f : ℕ) (c : Char) (cs : List Char)
    (hsp : c ≠ ' ') (hdig : c.isDigit = false) (hdot : c ≠ '.')
    (hplus : c ≠ '+') (hminus : c ≠ '-') (hstar : c ≠ '*')
    (hslash : c ≠ '/') (hlp : c ≠ '(') (hrp : c ≠ ')')
    (hcolon : c ≠ ':') (heqc : c ≠ '=') (hup : c.isUpper = true)
    (hA : ("AVERAGE(".data.isPrefixOf (c :: cs)) = false)
    (hS : ("SUM(".data.isPrefixOf (c :: cs)) = false) :
    lexRun (f + 1) (c :: cs) = (lexRun f cs).map (.letter c :: ·) := by
  simp only [lexRun]
  rw [if_neg hsp,
    if_neg (show ¬ (c.isDigit = true ∨ c = '.') by
      rw [hdig]; simp [hdot]),
    if_neg hplus, if_neg hminus, if_neg hstar, if_neg hslash,
    if_neg hlp, if_neg hrp, if_neg hcolon, if_neg heqc,
    if_pos hup, hA,
    if_neg (show ¬ (false = true) by decide), hS,
    if_neg (show ¬ (false = true) by decide)]

theorem lexRun_dotdigit (f : ℕ) (c : Char) (cs : List Char)
    (hcd : c.isDigit = true ∨ c = '.') :
    lexRun (f + 1) (c :: cs) =
      match munchNumBody (c :: cs) with
      | some (p, rest) => (lexRun f rest).map (numTok false p :: ·)
      | none => none := by
  have hsp : ¬ c = ' ' := by
    rcases hcd with h | h
    · intro he
      subst he
      exact absurd h (by decide)
    · subst h
      decide
  simp only [lexRun]
  rw [if_neg hsp, if_pos hcd]

theorem lexRun_plusm (f : ℕ) (cs : List Char) :
    lexRun (f + 1) ('+' :: cs) =
      match munchNumBody cs with
      | some (p, rest) => (lexRun f rest).map (numTok false p :: ·)
      | none => (lexRun f cs).map (.plus :: ·) := by
  simp only [lexRun]
  rw [if_neg (show ¬ (('+' : Char) = ' ') by decide),
    if_neg (show ¬ (('+' : Char).isDigit = true ∨ ('+' : Char) = '.') by decide),
    if_pos trivial]

theorem lexRun_minusm (f : ℕ) (cs : List Char) :
    lexRun (f + 1) ('-' :: cs) =
      match munchNumBody cs with
      | some (p, rest) => (lexRun f rest).map (numTok true p :: ·)
      | none => (lexRun f cs).map (.minus :: ·) := by
  simp only [lexRun]
  rw [if_neg (show ¬ (('-' : Char) = ' ') by decide),
    if_neg (show ¬ (('-' : Char).isDigit = true ∨ ('-' : Char) = '.') by decide),
    if_neg (show ¬ (('-' : Char) = '+') by decide), if_pos trivial]

theorem lexRun_avg (f : ℕ) (c : Char) (cs : List Char)
    (hsp : c ≠ ' ') (h2 : ¬ (c.isDigit = true ∨ c = '.'))
    (hplus : c ≠ '+') (hminus : c ≠ '-') (hstar : c ≠ '*')
    (hslash : c ≠ '/') (hlp : c ≠ '(') (hrp : c ≠ ')')
    (hcolon : c ≠ ':') (heqc : c ≠ '=') (hup : c.isUpper = true)
    (hA : ("AVERAGE(".data.isPrefixOf (c :: cs)) = true) :
    lexRun (f + 1) (c :: cs) =
      (lexRun f ((c :: cs).drop 8)).map (.avgKw :: ·) := by
  simp only [lexRun]
  rw [if_neg hsp, if_neg h2, if_neg hplus, if_neg hminus, if_neg hstar,
    if_neg hslash, if_neg hlp, if_neg hrp, if_neg hcolon, if_neg heqc,
    if_pos hup, hA, if_pos rfl]

theorem lexRun_sum (f : ℕ) (c : Char) (cs : List Char)
    (hsp : c ≠ ' ') (h2 : ¬ (c.isDigit = true ∨ c = '.'))
    (hplus : c ≠ '+') (hminus : c ≠ '-') (hstar : c ≠ '*')
    (hslash : c ≠ '/') (hlp : c ≠ '(') (hrp : c ≠ ')')
    (hcolon : c ≠ ':') (heqc : c ≠ '=') (hup : c.isUpper = true)
    (hA : ("AVERAGE(".data.isPrefixOf (c :: cs)) = false)
    (hS : ("SUM(".data.isPrefixOf (c :: cs)) = true) :
    lexRun (f + 1) (c :: cs) =
      (lexRun f ((c :: cs).drop 4)).map (.sumKw :: ·) := by
  simp only [lexRun]
  rw [if_neg hsp, if_neg h2, if_neg hplus, if_neg hminus, if_neg hstar,
    if_neg hslash, if_neg hlp, if_neg hrp, if_neg hcolon, if_neg heqc,
    if_pos hup, hA, if_neg (show ¬ (false = true) by decide), hS,
    if_pos rfl]

theorem lexRun_letter (f : ℕ) (c : Char) (cs : List Char)
    (hsp : c ≠ ' ') (h2 : ¬ (c.isDigit = true ∨ c = '.'))
    (hplus : c ≠ '+') (hminus : c ≠ '-') (hstar : c ≠ '*')
    (hslash : c ≠ '/') (hlp : c ≠ '(') (hrp : c ≠ ')')
    (hcolon : c ≠ ':') (heqc : c ≠ '=') (hup : c.isUpper = true)
    (hA : ("AVERAGE(".data.isPrefixOf (c :: cs)) = false)
    (hS : ("SUM(".data.isPrefixOf (c :: cs)) = false) :
    lexRun (f + 1) (c :: cs) = (lexRun f cs).map (.letter c :: ·) := by
  simp only [lexRun]
  rw [if_neg hsp, if_neg h2, if_neg hplus, if_neg hminus, if_neg hstar,
    if_neg hslash, if_neg hlp, if_neg hrp, if_neg hcolon, if_neg heqc,
    if_pos hup, hA, if_neg (show ¬ (false = true) by decide), hS,
    if_neg (show ¬ (false = true) by decide)]

theorem lexRun_fail (f : ℕ) (c : Char) (cs : List Char)
    (hsp : c ≠ ' ') (h2 : ¬ (c.isDigit = true ∨ c = '.'))
    (hplus : c ≠ '+') (hminus : c ≠ '-') (hstar : c ≠ '*')
    (hslash : c ≠ '/') (hlp : c ≠ '(') (hrp : c ≠ ')')
    (hcolon : c ≠ ':') (heqc : c ≠ '=') (hup : c.isUpper = false) :
    lexRun (f + 1) (c :: cs) = none := by
  simp only [lexRun]
  rw [if_neg hsp, if_neg h2, if_neg hplus, if_neg hminus, if_neg hstar,
    if_neg hslash, if_neg hlp, if_neg hrp, if_neg hcolon, if_neg heqc,
    if_neg (by rw [hup]; decide)]
theorem lexRun_mono :
    ∀ f k cs ts, lexRun f cs = some ts → lexRun (f + k) cs = some ts := by
  intro f
  induction f with
  | zero =>
      intro k cs ts h
      rw [show lexRun 0 cs = none from rfl] at h
      cases h
  | succ f ih =>
      intro k cs ts h
      cases cs with
      | nil =>
          rw [show lexRun (f + 1) [] = some [] from rfl] at h
          rw [show f + 1 + k = (f + k) + 1 by omega]
          rw [show lexRun ((f + k) + 1) [] = some [] from rfl]
          exact h
      | cons c cs =>
          rw [show f + 1 + k = (f + k) + 1 by omega]
          by_cases h1 : c = ' '
          · subst h1
            rw [lexRun_space] at h
            rw [lexRun_space]
            exact ih _ _ _ h
          by_cases h2 : c.isDigit = true ∨ c = '.'
          · rw [lexRun_dotdigit f c cs h2] at h
            rw [lexRun_dotdigit (f + k) c cs h2]
            rcases hm : munchNumBody (c :: cs) with _ | ⟨p, rest⟩
            · rw [hm] at h
              exact Option.noConfusion h
            · rw [hm] at h
              obtain ⟨ts', ha, hb⟩ := Option.map_eq_some'.1 h
              exact Option.map_eq_some'.2 ⟨ts', ih _ _ _ ha, hb⟩
          by_cases h3 : c = '+'
          · subst h3
            rw [lexRun_plusm] at h
            rw [lexRun_plusm]
            rcases hm : munchNumBody cs with _ | ⟨p, rest⟩ <;>
              rw [hm] at h <;>
              · obtain ⟨ts', ha, hb⟩ := Option.map_eq_some'.1 h
                exact Option.map_eq_some'.2 ⟨ts', ih _ _ _ ha, hb⟩
          by_cases h4 : c = '-'
          · subst h4
            rw [lexRun_minusm] at h
            rw [lexRun_minusm]
            rcases hm : munchNumBody cs with _ | ⟨p, rest⟩ <;>
              rw [hm] at h <;>
              · obtain ⟨ts', ha, hb⟩ := Option.map_eq_some'.1 h
                exact Option.map_eq_some'.2 ⟨ts', ih _ _ _ ha, hb⟩
          by_cases h5 : c = '*'
          · subst h5
            rw [lexRun_star] at h
            rw [lexRun_star]
            obtain ⟨ts', ha, hb⟩ := Option.map_eq_some'.1 h
            exact Option.map_eq_some'.2 ⟨ts', ih _ _ _ ha, hb⟩
          by_cases h6 : c = '/'
          · subst h6
            rw [lexRun_slash] at h
            rw [lexRun_slash]
            obtain ⟨ts', ha, hb⟩ := Option.map_eq_some'.1 h
            exact Option.map_eq_some'.2 ⟨ts', ih _ _ _ ha, hb⟩
          by_cases h7 : c = '('
          · subst h7
            rw [lexRun_lparen] at h
            rw [lexRun_lparen]
            obtain ⟨ts', ha, hb⟩ := Option.map_eq_some'.1 h
            exact Option.map_eq_some'.2 ⟨ts', ih _ _ _ ha, hb⟩
          by_cases h8 : c = ')'
          · subst h8
            rw [lexRun_rparen] at h
            rw [lexRun_rparen]
            obtain ⟨ts', ha, hb⟩ := Option.map_eq_some'.1 h
            exact Option.map_eq_some'.2 ⟨ts', ih _ _ _ ha, hb⟩
          by_cases h9 : c = ':'
          · subst h9
            rw [lexRun_colon] at h
            rw [lexRun_colon]
            obtain ⟨ts', ha, hb⟩ := Option.map_eq_some'.1 h
            exact Option.map_eq_some'.2 ⟨ts', ih _ _ _ ha, hb⟩
          by_cases h10 : c = '='
          · subst h10
            rw [lexRun_eqch] at h
            rw [lexRun_eqch]
            obtain ⟨ts', ha, hb⟩ := Option.map_eq_some'.1 h
            exact Option.map_eq_some'.2 ⟨ts', ih _ _ _ ha, hb⟩
          by_cases h11 : c.isUpper = true
          · by_cases hA : ("AVERAGE(".data.isPrefixOf (c :: cs)) = true
            · rw [lexRun_avg f c cs h1 h2 h3 h4 h5 h6 h7 h8 h9 h10 h11 hA] at h
              rw [lexRun_avg (f + k) c cs h1 h2 h3 h4 h5 h6 h7 h8 h9 h10 h11 hA]
              obtain ⟨ts', ha, hb⟩ := Option.map_eq_some'.1 h
              exact Option.map_eq_some'.2 ⟨ts', ih _ _ _ ha, hb⟩
            · have hA' : ("AVERAGE(".data.isPrefixOf (c :: cs)) = false := by
                cases hx : ("AVERAGE(".data.isPrefixOf (c :: cs))
                · rfl
                · exact absurd hx hA
              by_cases hS : ("SUM(".data.isPrefixOf (c :: cs)) = true
              · rw [lexRun_sum f c cs h1 h2 h3 h4 h5 h6 h7 h8 h9 h10 h11 hA' hS] at h
                rw [lexRun_sum (f + k) c cs h1 h2 h3 h4 h5 h6 h7 h8 h9 h10 h11 hA' hS]
                obtain ⟨ts', ha, hb⟩ := Option.map_eq_some'.1 h
                exact Option.map_eq_some'.2 ⟨ts', ih _ _ _ ha, hb⟩
              · have hS' : ("SUM(".data.isPrefixOf (c :: cs)) = false := by
                  cases hx : ("SUM(".data.isPrefixOf (c :: cs))
                  · rfl
                  · exact absurd hx hS
                rw [lexRun_letter f c cs h1 h2 h3 h4 h5 h6 h7 h8 h9 h10 h11 hA' hS'] at h
                rw [lexRun_letter (f + k) c cs h1 h2 h3 h4 h5 h6 h7 h8 h9 h10 h11 hA' hS']
                obtain ⟨ts', ha, hb⟩ := Option.map_eq_some'.1 h
                exact Option.map_eq_some'.2 ⟨ts', ih _ _ _ ha, hb⟩
          · have h11' : c.isUpper = false := by
              cases hx : c.isUpper
              · rfl
              · exact absurd hx h11
            rw [lexRun_fail f c cs h1 h2 h3 h4 h5 h6 h7 h8 h9 h10 h11'] at h
            cases h


/-! ## Lexed pieces of rendered text -/

theorem lexP_nil : lexP [] [] := by
  intro fuel rest ts h
  simpa using h

theorem lexP_toB (cs : List Char) (toks : List Tok) (h : lexP cs toks) :
    lexPB cs toks :=
  fun fuel rest ts _ hr => h fuel rest ts hr

theorem lexP_append {a b : List Char} {ta tb : List Tok}
    (h1 : lexP a ta) (h2 : lexP b tb) : lexP (a ++ b) (ta ++ tb) := by
  intro fuel rest ts h
  have e2 := h2 fuel rest ts h
  have e1 := h1 (b.length + fuel) (b ++ rest) (tb ++ ts) e2
  rw [show (a ++ b).length + fuel = a.length + (b.length + fuel) by
    simp [List.length_append]; omega]
  simpa [List.append_assoc] using e1

theorem lexP_append_B {a b : List Char} {ta tb : List Tok}
    (h1 : lexP a ta) (h2 : lexPB b tb) : lexPB (a ++ b) (ta ++ tb) := by
  intro fuel rest ts hb h
  have e2 := h2 fuel rest ts hb h
  have e1 := h1 (b.length + fuel) (b ++ rest) (tb ++ ts) e2
  rw [show (a ++ b).length + fuel = a.length + (b.length + fuel) by
    simp [List.length_append]; omega]
  simpa [List.append_assoc] using e1

theorem lexPB_append_bdry {a b : List Char} {ta tb : List Tok}
    (h1 : lexPB a ta) (h2 : lexP b tb) (hbb : bdryCh b) (hne : b ≠ []) :
    lexP (a ++ b) (ta ++ tb) := by
  intro fuel rest ts h
  have e2 := h2 fuel rest ts h
  have hbdry : bdryCh (b ++ rest) := by
    cases b with
    | nil => exact absurd rfl hne
    | cons c cs => exact hbb
  have e1 := h1 (b.length + fuel) (b ++ rest) (tb ++ ts) hbdry e2
  rw [show (a ++ b).length + fuel = a.length + (b.length + fuel) by
    simp [List.length_append]; omega]
  simpa [List.append_assoc] using e1

theorem lexPB_append_bdry_B {a b : List Char} {ta tb : List Tok}
    (h1 : lexPB a ta) (h2 : lexPB b tb) (hbb : bdryCh b) (hne : b ≠ []) :
    lexPB (a ++ b) (ta ++ tb) := by
  intro fuel rest ts hb h
  have e2 := h2 fuel rest ts hb h
  have hbdry : bdryCh (b ++ rest) := by
    cases b with
    | nil => exact absurd rfl hne
    | cons c cs => exact hbb
  have e1 := h1 (b.length + fuel) (b ++ rest) (tb ++ ts) hbdry e2
  rw [show (a ++ b).length + fuel = a.length + (b.length + fuel) by
    simp [List.length_append]; omega]
  simpa [List.append_assoc] using e1

theorem munchNumBody_stop (c : Char) (cs : List Char)
    (hd : c.isDigit = false) (hdot : c ≠ '.') :
    munchNumBody (c :: cs) = none := by
  unfold munchNumBody
  rw [show munchDigits (c :: cs) = ([], c :: cs) by
    unfold munchDigits
    rw [takeWhile_head_false _ (by intro x hx; simp at hx; subst hx; exact hd),
      dropWhile_head_false _ (by intro x hx; simp at hx; subst hx; exact hd)]]
  simp only
  split
  · rename_i r2 heads
    injection heads with h1 h2
    exact absurd h1 hdot
  · simp

theorem lexP_spaceOp (c : Char) (tk : Tok)
    (hstep : ∀ f rest, lexRun (f + 1) (c :: ' ' :: rest) =
      (lexRun f (' ' :: rest)).map (tk :: ·)) :
    lexP [' ', c, ' '] [tk] := by
  intro fuel rest ts h
  show lexRun ((3 : ℕ) + fuel) (' ' :: c :: ' ' :: rest) = some (tk :: ts)
  rw [show (3 : ℕ) + fuel = ((fuel + 1) + 1) + 1 by omega]
  rw [lexRun_space, hstep (fuel + 1), lexRun_space, h]
  rfl

theorem lexP_plusOp : lexP [' ', '+', ' '] [.plus] := by
  refine lexP_spaceOp '+' .plus fun f rest => ?_
  exact lexRun_plus f (' ' :: rest) (munchNumBody_stop ' ' rest (by decide) (by decide))

theorem lexP_minusOp : lexP [' ', '-', ' '] [.minus] := by
  refine lexP_spaceOp '-' .minus fun f rest => ?_
  exact lexRun_minus f (' ' :: rest) (munchNumBody_stop ' ' rest (by decide) (by decide))

theorem lexP_starOp : lexP [' ', '*', ' '] [.star] :=
  lexP_spaceOp '*' .star fun f rest => lexRun_star f (' ' :: rest)

theorem lexP_slashOp : lexP [' ', '/', ' '] [.slash] :=
  lexP_spaceOp '/' .slash fun f rest => lexRun_slash f (' ' :: rest)

theorem lexP_lpar : lexP ['('] [.lparen] := by
  intro fuel rest ts h
  show lexRun ((1 : ℕ) + fuel) ('(' :: rest) = some (.lparen :: ts)
  rw [show (1 : ℕ) + fuel = fuel + 1 by omega, lexRun_lparen, h]
  rfl

theorem lexP_rpar : lexP [')'] [.rparen] := by
  intro fuel rest ts h
  show lexRun ((1 : ℕ) + fuel) (')' :: rest) = some (.rparen :: ts)
  rw [show (1 : ℕ) + fuel = fuel + 1 by omega, lexRun_rparen, h]
  rfl

theorem lexP_col : lexP [':'] [.colon] := by
  intro fuel rest ts h
  show lexRun ((1 : ℕ) + fuel) (':' :: rest) = some (.colon :: ts)
  rw [show (1 : ℕ) + fuel = fuel + 1 by omega, lexRun_colon, h]
  rfl

theorem lexP_sumKw : lexP "SUM(".data [.sumKw] := by
  intro fuel rest ts h
  show lexRun ((4 : ℕ) + fuel) ('S' :: 'U' :: 'M' :: '(' :: rest) =
    some (.sumKw :: ts)
  rw [show (4 : ℕ) + fuel = (fuel + 3) + 1 by omega]
  rw [lexRun_sum (fuel + 3) 'S' ('U' :: 'M' :: '(' :: rest)
    (by decide) (by decide) (by decide) (by decide) (by decide) (by decide)
    (by decide) (by decide) (by decide) (by decide) (by decide)
    (by simp [List.isPrefixOf])
    (by simp [List.isPrefixOf])]
  rw [show ('S' :: 'U' :: 'M' :: '(' :: rest).drop 4 = rest from rfl]
  rw [lexRun_mono fuel 3 rest ts h]
  rfl

theorem lexP_avgKw : lexP "AVERAGE(".data [.avgKw] := by
  intro fuel rest ts h
  show lexRun ((8 : ℕ) + fuel)
    ('A' :: 'V' :: 'E' :: 'R' :: 'A' :: 'G' :: 'E' :: '(' :: rest) =
    some (.avgKw :: ts)
  rw [show (8 : ℕ) + fuel = (fuel + 7) + 1 by omega]
  rw [lexRun_avg (fuel + 7) 'A'
    ('V' :: 'E' :: 'R' :: 'A' :: 'G' :: 'E' :: '(' :: rest)
    (by decide) (by decide) (by decide) (by decide) (by decide) (by decide)
    (by decide) (by decide) (by decide) (by decide) (by decide)
    (by simp [List.isPrefixOf])]
  rw [show ('A' :: 'V' :: 'E' :: 'R' :: 'A' :: 'G' :: 'E' :: '(' :: rest).drop 8 =
    rest from rfl]
  rw [lexRun_mono fuel 7 rest ts h]
  rfl

theorem NumParts_value_shape (M fl : ℕ) (b : Bool) :
    NumParts.value ⟨M, fl, b, 0⟩ = (M : ℚ) / 10 ^ fl := by
  simp [NumParts.value]

theorem munch_natToDigits (n : ℕ) (rest : List Char) (hb : bdryCh rest) :
    munchNumBody (natToDigits n ++ rest) = some (⟨n, 0, true, 0⟩, rest) := by
  have h := munchNumBody_int (natToDigits n) rest (natToDigits_all_digits n)
    (natToDigits_ne_nil n) hb
  rwa [digitsVal_natToDigits] at h

theorem munch_decBody (ip fp k : ℕ) (hk : 1 ≤ k) (hfp : fp < 10 ^ k)
    (rest : List Char) (hb : bdryCh rest) :
    munchNumBody ((natToDigits ip ++ '.' :: natToDigitsPad k fp) ++ rest) =
      some (⟨ip * 10 ^ k + fp, k, false, 0⟩, rest) := by
  rw [List.append_assoc, List.cons_append]
  have h := munchNumBody_frac (natToDigits ip) (natToDigitsPad k fp) rest
    (natToDigits_all_digits ip) (natToDigits_ne_nil ip)
    (natToDigitsPad_all_digits k fp) hb
  rw [h, digitsVal_append, digitsVal_natToDigits, digitsVal_natToDigitsPad,
    natToDigitsPad_length k fp hk hfp]

theorem lexPB_natToDigits (n : ℕ) :
    lexPB (natToDigits n) [.num (n : ℚ) (some (n : ℤ))] := by
  intro fuel rest ts hb h
  have hmb := munch_natToDigits n rest hb
  obtain ⟨c, tail, hct⟩ : ∃ c tail, natToDigits n = c :: tail := by
    cases hh : natToDigits n with
    | nil => exact absurd hh (natToDigits_ne_nil n)
    | cons c tail => exact ⟨c, tail, rfl⟩
  have hcd : c.isDigit = true := natToDigits_all_digits n c (by rw [hct]; simp)
  rw [hct] at hmb ⊢
  rw [show (c :: tail).length + fuel = (tail.length + fuel) + 1 by simp; omega,
    List.cons_append,
    lexRun_digit (tail.length + fuel) c (tail ++ rest) hcd _ rest
      (by rw [← List.cons_append]; exact hmb),
    Nat.add_comm tail.length fuel,
    lexRun_mono fuel tail.length rest ts h]
  show some (numTok false ⟨n, 0, true, 0⟩ :: ts) = _
  rw [show numTok false ⟨n, 0, true, 0⟩ = .num (n : ℚ) (some (n : ℤ)) by
    simp [numTok, NumParts_value_shape]]
  rfl

theorem lexPB_negDigits (n : ℕ) :
    lexPB ('-' :: natToDigits n) [.num (-(n : ℚ)) (some (-(n : ℤ)))] := by
  intro fuel rest ts hb h
  have hmb := munch_natToDigits n rest hb
  rw [show ('-' :: natToDigits n).length + fuel =
      ((natToDigits n).length + fuel) + 1 by simp; omega,
    List.cons_append,
    lexRun_minus_num ((natToDigits n).length + fuel) _ _ _ hmb,
    Nat.add_comm (natToDigits n).length fuel,
    lexRun_mono fuel (natToDigits n).length rest ts h]
  show some (numTok true ⟨n, 0, true, 0⟩ :: ts) = _
  rw [show numTok true ⟨n, 0, true, 0⟩ = .num (-(n : ℚ)) (some (-(n : ℤ))) by
    simp [numTok, NumParts_value_shape]]
  rfl

theorem lexPB_decCore (sgn : Bool) (ip fp k : ℕ) (hk : 1 ≤ k)
    (hfp : fp < 10 ^ k) :
    lexPB ((if sgn then ['-'] else []) ++
        (natToDigits ip ++ '.' :: natToDigitsPad k fp))
      [.num (if sgn then -(((ip * 10 ^ k + fp : ℕ) : ℚ) / 10 ^ k)
          else ((ip * 10 ^ k + fp : ℕ) : ℚ) / 10 ^ k) none] := by
  intro fuel rest ts hb h
  have hmb := munch_decBody ip fp k hk hfp rest hb
  cases sgn
  · simp only [if_neg (by simp : ¬ (false = true)), List.nil_append]
    obtain ⟨c, tail, hct⟩ : ∃ c tail,
        natToDigits ip ++ '.' :: natToDigitsPad k fp = c :: tail := by
      cases hh : natToDigits ip ++ '.' :: natToDigitsPad k fp with
      | nil => simp at hh
      | cons c tail => exact ⟨c, tail, rfl⟩
    have hcd : c.isDigit = true := by
      obtain ⟨d, dt, hdd⟩ : ∃ d dt, natToDigits ip = d :: dt := by
        cases hh : natToDigits ip with
        | nil => exact absurd hh (natToDigits_ne_nil ip)
        | cons d dt => exact ⟨d, dt, rfl⟩
      rw [hdd] at hct
      have : d = c := by
        have := hct
        simp at this
        exact this.1
      subst this
      exact natToDigits_all_digits ip d (by rw [hdd]; simp)
    rw [hct] at hmb ⊢
    rw [show (c :: tail).length + fuel = (tail.length + fuel) + 1 by simp; omega,
      List.cons_append,
      lexRun_digit (tail.length + fuel) c (tail ++ rest) hcd _ rest
        (by rw [← List.cons_append]; exact hmb),
      Nat.add_comm tail.length fuel,
      lexRun_mono fuel tail.length rest ts h]
    show some (numTok false ⟨ip * 10 ^ k + fp, k, false, 0⟩ :: ts) = _
    rw [show numTok false ⟨ip * 10 ^ k + fp, k, false, 0⟩ =
        .num (((ip * 10 ^ k + fp : ℕ) : ℚ) / 10 ^ k) none by
      simp [numTok, NumParts_value_shape]]
    rfl
  · show lexRun
        (('-' :: (natToDigits ip ++ '.' :: natToDigitsPad k fp)).length + fuel)
        (('-' :: (natToDigits ip ++ '.' :: natToDigitsPad k fp)) ++ rest) =
      some (.num (-(((ip * 10 ^ k + fp : ℕ) : ℚ) / 10 ^ k)) none :: ts)
    rw [show ('-' :: (natToDigits ip ++ '.' :: natToDigitsPad k fp)).length + fuel =
        ((natToDigits ip ++ '.' :: natToDigitsPad k fp).length + fuel) + 1 by
      simp; omega]
    rw [List.cons_append,
      lexRun_minus_num ((natToDigits ip ++ '.' :: natToDigitsPad k fp).length + fuel)
        _ _ _ hmb,
      Nat.add_comm (natToDigits ip ++ '.' :: natToDigitsPad k fp).length fuel,
      lexRun_mono fuel (natToDigits ip ++ '.' :: natToDigitsPad k fp).length rest ts h]
    show some (numTok true ⟨ip * 10 ^ k + fp, k, false, 0⟩ :: ts) = _
    rw [show numTok true ⟨ip * 10 ^ k + fp, k, false, 0⟩ =
        .num (-(((ip * 10 ^ k + fp : ℕ) : ℚ) / 10 ^ k)) none by
      simp [numTok, NumParts_value_shape]]

theorem decScale_mod (den k : ℕ) (h : decScale den = some k) :
    10 ^ k % den = 0 := by
  have hf := List.find?_some h
  simpa using hf

theorem decScale_one : decScale 1 = some 0 := by decide

theorem rat_num_eq (q : ℚ) : (q.num : ℚ) = q * q.den := by
  have h0 : ((q.den : ℚ)) ≠ 0 := Nat.cast_ne_zero.2 q.den_nz
  have h := Rat.num_div_den q
  rw [div_eq_iff h0] at h
  exact h

theorem lexPB_ratToStr (q : ℚ) (k : ℕ) (hk : decScale q.den = some k) :
    lexPB (ratToStr q).data [.num q (if q.den = 1 then some q.num else none)] := by
  by_cases hk0 : k = 0
  · subst hk0
    have hmod := decScale_mod q.den 0 hk
    simp only [pow_zero] at hmod
    have hden : q.den = 1 :=
      Nat.dvd_one.1 (Nat.dvd_of_mod_eq_zero hmod)
    have hq : ((q.num : ℚ)) = q := (Rat.den_eq_one_iff q).1 hden
    have hstr : ratToStr q = intStr q.num := by
      unfold ratToStr
      rw [hk]
      simp [hden]
    rw [hstr, if_pos hden]
    by_cases hqn : q.num < 0
    · have hdata : (intStr q.num).data = '-' :: natToDigits q.num.natAbs := by
        unfold intStr natToStr
        rw [if_pos hqn, String.data_append]
        rfl
      rw [hdata]
      have habs : ((q.num.natAbs : ℤ)) = -q.num := by omega
      have h1 : (-(q.num.natAbs : ℚ)) = q := by
        have hc : (((q.num.natAbs : ℤ)) : ℚ) = ((-q.num : ℤ) : ℚ) :=
          congrArg _ habs
        simp only [Int.cast_natCast, Int.cast_neg] at hc
        rw [hc, neg_neg, hq]
      have h2 : -(q.num.natAbs : ℤ) = q.num := by omega
      rw [show [Tok.num q (some q.num)] =
          [Tok.num (-(q.num.natAbs : ℚ)) (some (-(q.num.natAbs : ℤ)))] by
        rw [h1, h2]]
      exact lexPB_negDigits q.num.natAbs
    · have hdata : (intStr q.num).data = natToDigits q.num.natAbs := by
        unfold intStr natToStr
        rw [if_neg hqn]
        rw [show ("" ++ (⟨natToDigits q.num.natAbs⟩ : String)) =
          (⟨natToDigits q.num.natAbs⟩ : String) by simp]
      rw [hdata]
      have habs : ((q.num.natAbs : ℤ)) = q.num := Int.natAbs_of_nonneg (by omega)
      have h1 : ((q.num.natAbs : ℚ)) = q := by
        have hc : (((q.num.natAbs : ℤ)) : ℚ) = ((q.num : ℤ) : ℚ) :=
          congrArg _ habs
        simp only [Int.cast_natCast] at hc
        rw [hc, hq]
      rw [show [Tok.num q (some q.num)] =
          [Tok.num ((q.num.natAbs : ℚ)) (some ((q.num.natAbs : ℤ)))] by
        rw [h1, habs]]
      exact lexPB_natToDigits q.num.natAbs
  · have hk1 : 1 ≤ k := by omega
    have hmod := decScale_mod q.den k hk
    have hden1 : q.den ≠ 1 := by
      intro h1
      rw [h1, decScale_one] at hk
      exact hk0 (Option.some.inj hk).symm
    have hdata : (ratToStr q).data =
        (if q < 0 then ['-'] else []) ++
          (natToDigits ((q.num * 10 ^ k / q.den).natAbs / 10 ^ k) ++
            '.' :: natToDigitsPad k ((q.num * 10 ^ k / q.den).natAbs % 10 ^ k)) := by
      unfold ratToStr
      rw [hk]
      simp only [if_neg hk0]
      by_cases hneg : q < 0 <;>
        simp [hneg, natToStr, String.data_append]
    have hdvd : (q.den : ℤ) ∣ q.num * 10 ^ k := by
      have hd : (q.den : ℤ) ∣ (10 : ℤ) ^ k := by
        have hn := Nat.dvd_of_mod_eq_zero hmod
        have : ((q.den : ℤ)) ∣ ((10 ^ k : ℕ) : ℤ) := Int.natCast_dvd_natCast.2 hn
        push_cast at this
        exact this
      exact Dvd.dvd.mul_left hd q.num
    set m : ℤ := q.num * 10 ^ k / q.den with hm
    have hmden : m * q.den = q.num * 10 ^ k := Int.ediv_mul_cancel hdvd
    have hden0 : ((q.den : ℚ)) ≠ 0 := Nat.cast_ne_zero.2 q.den_nz
    have hm10 : (m : ℚ) = q * 10 ^ k := by
      have hc : ((m : ℚ)) * (q.den : ℚ) = (q.num : ℚ) * 10 ^ k := by
        exact_mod_cast hmden
      rw [rat_num_eq q,
        show (q * (q.den : ℚ)) * 10 ^ k = (q * 10 ^ k) * q.den by ring] at hc
      exact mul_right_cancel₀ hden0 hc
    have hfp : m.natAbs % 10 ^ k < 10 ^ k := Nat.mod_lt _ (by positivity)
    have hsplit : m.natAbs / 10 ^ k * 10 ^ k + m.natAbs % 10 ^ k = m.natAbs := by
      have h := Nat.div_add_mod m.natAbs (10 ^ k)
      rw [Nat.mul_comm] at h
      exact h
    have core := lexPB_decCore (decide (q < 0)) (m.natAbs / 10 ^ k)
      (m.natAbs % 10 ^ k) k hk1 hfp
    have hvq : (if decide (q < 0) = true
        then -(((m.natAbs / 10 ^ k * 10 ^ k + m.natAbs % 10 ^ k : ℕ) : ℚ) / 10 ^ k)
        else ((m.natAbs / 10 ^ k * 10 ^ k + m.natAbs % 10 ^ k : ℕ) : ℚ) / 10 ^ k) = q := by
      rw [hsplit]
      have hten : ((10 : ℚ)) ^ k ≠ 0 := by positivity
      by_cases hneg : q < 0
      · simp only [decide_eq_true_eq, if_pos hneg]
        have hmneg : m < 0 := by
          by_contra hcon
          push_neg at hcon
          have hge : (0 : ℚ) ≤ (m : ℚ) := by exact_mod_cast hcon
          rw [hm10] at hge
          have hlt : q * 10 ^ k < 0 :=
            mul_neg_of_neg_of_pos hneg (by positivity)
          linarith
        have hcast : ((m.natAbs : ℚ)) = -(m : ℚ) := by
          have hia : ((m.natAbs : ℤ)) = -m := by omega
          have hc : (((m.natAbs : ℤ)) : ℚ) = ((-m : ℤ) : ℚ) := congrArg _ hia
          simp only [Int.cast_natCast, Int.cast_neg] at hc
          exact hc
        rw [hcast, hm10]
        field_simp
      · simp only [decide_eq_true_eq, if_neg hneg]
        have hmpos : 0 ≤ m := by
          by_contra hcon
          push_neg at hcon
          have hlt : ((m : ℚ)) < 0 := by exact_mod_cast hcon
          rw [hm10] at hlt
          push_neg at hneg
          have hge : 0 ≤ q * 10 ^ k :=
            mul_nonneg hneg (by positivity)
          linarith
        have hcast : ((m.natAbs : ℚ)) = (m : ℚ) := by
          have hia : ((m.natAbs : ℤ)) = m := Int.natAbs_of_nonneg hmpos
          have hc : (((m.natAbs : ℤ)) : ℚ) = ((m : ℤ) : ℚ) := congrArg _ hia
          simp only [Int.cast_natCast] at hc
          exact hc
        rw [hcast, hm10]
        field_simp
    rw [hdata, if_neg hden1,
      show (if q < 0 then ['-'] else []) = (if decide (q < 0) = true then ['-'] else []) by
        by_cases hneg : q < 0 <;> simp [hneg]]
    rw [show [Tok.num q none] = [Tok.num (if decide (q < 0) = true
        then -(((m.natAbs / 10 ^ k * 10 ^ k + m.natAbs % 10 ^ k : ℕ) : ℚ) / 10 ^ k)
        else ((m.natAbs / 10 ^ k * 10 ^ k + m.natAbs % 10 ^ k : ℕ) : ℚ) / 10 ^ k) none] by
      rw [hvq]]
    exact core

theorem roundHalfEven_int (z : ℤ) : roundHalfEven ((z : ℤ) : ℚ) = z := by
  unfold roundHalfEven
  rw [Int.floor_intCast]
  norm_num

theorem groupThousandsRev_short (l : List Char) (h : l.length ≤ 3) :
    groupThousandsRev l = l := by
  rcases l with _ | ⟨a, _ | ⟨b, _ | ⟨c, _ | ⟨d, t⟩⟩⟩⟩ <;>
    first
    | rfl
    | (simp at h)

theorem lexPB_formatCommas (q : ℚ) (hdvd : q.den ∣ 100) (habs : |q| < 1000) :
    lexPB (formatCommas q).data [.num q none] := by
  have hdt : q.den * (100 / q.den) = 100 := Nat.mul_div_cancel' hdvd
  have hq100 : (q * 100 : ℚ) = ((q.num * ((100 / q.den : ℕ) : ℤ) : ℤ) : ℚ) := by
    have hc : ((q.den : ℚ)) * ((100 / q.den : ℕ) : ℚ) = 100 := by
      exact_mod_cast congrArg (fun n : ℕ => (n : ℚ)) hdt
    simp only [Int.cast_mul, Int.cast_natCast]
    rw [rat_num_eq q, mul_assoc, hc]
  set zc : ℤ := q.num * ((100 / q.den : ℕ) : ℤ) with hzc
  have hre : roundHalfEven (q * 100) = zc := by
    rw [hq100, roundHalfEven_int]
  have habs' : zc.natAbs < 100000 := by
    have h1 : |(zc : ℚ)| < 100000 := by
      rw [← hq100, abs_mul, show |(100 : ℚ)| = 100 by norm_num]
      calc |q| * 100 < 1000 * 100 :=
            mul_lt_mul_of_pos_right habs (by norm_num)
        _ = 100000 := by norm_num
    have h2 : |zc| < 100000 := by exact_mod_cast h1
    rw [Int.abs_eq_natAbs] at h2
    exact_mod_cast h2
  have hip : zc.natAbs / 100 < 1000 := by omega
  have hlen : (natToDigits (zc.natAbs / 100)).length ≤ 3 :=
    natToDigits_length_le _ 3 (by omega) (by norm_num; omega)
  have hdata : (formatCommas q).data =
      (if q < 0 then ['-'] else []) ++
        (natToDigits (zc.natAbs / 100) ++ '.' :: natToDigitsPad 2 (zc.natAbs % 100)) := by
    unfold formatCommas
    rw [hre]
    dsimp only
    rw [groupThousandsRev_short _ (by simpa using hlen),
      List.reverse_reverse]
    by_cases hneg : q < 0 <;>
      simp [hneg, String.data_append]
  rw [hdata]
  have hfp : zc.natAbs % 100 < 10 ^ 2 := by
    have := Nat.mod_lt zc.natAbs (show 0 < 100 by norm_num)
    norm_num
    omega
  have core := lexPB_decCore (decide (q < 0)) (zc.natAbs / 100)
    (zc.natAbs % 100) 2 (by norm_num) hfp
  have hsplit : zc.natAbs / 100 * 10 ^ 2 + zc.natAbs % 100 = zc.natAbs := by
    have h := Nat.div_add_mod zc.natAbs 100
    norm_num
    omega
  have hval : (if decide (q < 0) = true
      then -(((zc.natAbs / 100 * 10 ^ 2 + zc.natAbs % 100 : ℕ) : ℚ) / 10 ^ 2)
      else ((zc.natAbs / 100 * 10 ^ 2 + zc.natAbs % 100 : ℕ) : ℚ) / 10 ^ 2) = q := by
    rw [hsplit]
    by_cases hneg : q < 0
    · simp only [decide_eq_true_eq, if_pos hneg]
      have hzneg : zc < 0 := by
        have hlt : ((zc : ℚ)) < 0 := by
          rw [← hq100]
          exact mul_neg_of_neg_of_pos hneg (by norm_num)
        exact_mod_cast hlt
      have hcast : ((zc.natAbs : ℚ)) = -(zc : ℚ) := by
        have hia : ((zc.natAbs : ℤ)) = -zc := by omega
        have hc : (((zc.natAbs : ℤ)) : ℚ) = ((-zc : ℤ) : ℚ) := congrArg _ hia
        simp only [Int.cast_natCast, Int.cast_neg] at hc
        exact hc
      rw [hcast, ← hq100, show ((10 : ℚ) ^ 2) = 100 by norm_num,
        neg_div, neg_neg, mul_div_assoc,
        show ((100 : ℚ)) / 100 = 1 by norm_num, mul_one]
    · simp only [decide_eq_true_eq, if_neg hneg]
      have hzpos : 0 ≤ zc := by
        have hge : (0 : ℚ) ≤ ((zc : ℚ)) := by
          rw [← hq100]
          push_neg at hneg
          exact mul_nonneg hneg (by norm_num)
        exact_mod_cast hge
      have hcast : ((zc.natAbs : ℚ)) = (zc : ℚ) := by
        have hia : ((zc.natAbs : ℤ)) = zc := Int.natAbs_of_nonneg hzpos
        have hc : (((zc.natAbs : ℤ)) : ℚ) = ((zc : ℤ) : ℚ) := congrArg _ hia
        simp only [Int.cast_natCast] at hc
        exact hc
      rw [hcast, ← hq100, show ((10 : ℚ) ^ 2) = 100 by norm_num,
        mul_div_assoc, show ((100 : ℚ)) / 100 = 1 by norm_num, mul_one]
  rw [show (if q < 0 then ['-'] else []) =
      (if decide (q < 0) = true then ['-'] else []) by
    by_cases hneg : q < 0 <;> simp [hneg]]
  rw [show [Tok.num q none] = [Tok.num (if decide (q < 0) = true
      then -(((zc.natAbs / 100 * 10 ^ 2 + zc.natAbs % 100 : ℕ) : ℚ) / 10 ^ 2)
      else ((zc.natAbs / 100 * 10 ^ 2 + zc.natAbs % 100 : ℕ) : ℚ) / 10 ^ 2) none] by
    rw [hval]]
  exact core

theorem upper_char_facts (n : ℕ) (hn : n < 26) :
    (Char.ofNat (65 + n)) ≠ ' ' ∧ (Char.ofNat (65 + n)).isDigit = false ∧
    (Char.ofNat (65 + n)) ≠ '.' ∧ (Char.ofNat (65 + n)) ≠ '+' ∧
    (Char.ofNat (65 + n)) ≠ '-' ∧ (Char.ofNat (65 + n)) ≠ '*' ∧
    (Char.ofNat (65 + n)) ≠ '/' ∧ (Char.ofNat (65 + n)) ≠ '(' ∧
    (Char.ofNat (65 + n)) ≠ ')' ∧ (Char.ofNat (65 + n)) ≠ ':' ∧
    (Char.ofNat (65 + n)) ≠ '=' ∧ (Char.ofNat (65 + n)).isUpper = true ∧
    (Char.ofNat (65 + n)).toNat = 65 + n := by
  interval_cases n <;> exact (by decide)

theorem avg_prefix_false (c d : Char) (rest : List Char)
    (hd : d.isDigit = true) :
    ("AVERAGE(".data.isPrefixOf (c :: d :: rest)) = false := by
  have hVd : (('V' : Char) == d) = false :=
    beq_eq_false_iff_ne.2 fun h => by
      rw [← h] at hd
      exact absurd hd (by decide)
  show (['A', 'V', 'E', 'R', 'A', 'G', 'E', '('].isPrefixOf (c :: d :: rest)) = false
  simp only [List.isPrefixOf, hVd, Bool.and_false, Bool.false_and]

theorem sum_prefix_false (c d : Char) (rest : List Char)
    (hd : d.isDigit = true) :
    ("SUM(".data.isPrefixOf (c :: d :: rest)) = false := by
  have hUd : (('U' : Char) == d) = false :=
    beq_eq_false_iff_ne.2 fun h => by
      rw [← h] at hd
      exact absurd hd (by decide)
  show (['S', 'U', 'M', '('].isPrefixOf (c :: d :: rest)) = false
  simp only [List.isPrefixOf, hUd, Bool.and_false, Bool.false_and]

theorem lexPB_address (n row : ℕ) (hn : n < 26) :
    lexPB (Char.ofNat (65 + n) :: natToDigits row)
      [.letter (Char.ofNat (65 + n)), .num (row : ℚ) (some (row : ℤ))] := by
  obtain ⟨hsp, hdig, hdot, hplus, hminus, hstar, hslash, hlp, hrp, hcolon,
    heqc, hup, -⟩ := upper_char_facts n hn
  intro fuel rest ts hb h
  obtain ⟨d, tail, hdt⟩ : ∃ d tail, natToDigits row = d :: tail := by
    cases hh : natToDigits row with
    | nil => exact absurd hh (natToDigits_ne_nil row)
    | cons d tail => exact ⟨d, tail, rfl⟩
  have hd : d.isDigit = true := natToDigits_all_digits row d (by rw [hdt]; simp)
  have hA := avg_prefix_false (Char.ofNat (65 + n)) d (tail ++ rest) hd
  have hS := sum_prefix_false (Char.ofNat (65 + n)) d (tail ++ rest) hd
  rw [show (Char.ofNat (65 + n) :: natToDigits row).length + fuel =
      ((natToDigits row).length + fuel) + 1 by simp; omega]
  rw [List.cons_append,
    lexRun_letter ((natToDigits row).length + fuel) (Char.ofNat (65 + n))
      (natToDigits row ++ rest) hsp (by rw [hdig]; simp [hdot]) hplus hminus
      hstar hslash hlp hrp hcolon heqc hup
      (by rw [hdt, List.cons_append]; exact hA)
      (by rw [hdt, List.cons_append]; exact hS)]
  rw [lexPB_natToDigits row fuel rest ts hb h]
  rfl

/-! ## The rendered address of a written cell -/

theorem int_to_alpha_lt26 (n : ℕ) (h : n < 26) :
    int_to_alpha n = (⟨[Char.ofNat (65 + n)]⟩ : String) := by
  unfold int_to_alpha int_to_alpha_chars
  congr 1
  have hstep : int_to_alpha_aux (n + 1) n =
      (if n / 26 = 0 then [Char.ofNat (65 + n % 26)]
       else int_to_alpha_aux n (n / 26 - 1) ++ [Char.ofNat (65 + n % 26)]) := rfl
  rw [hstep, Nat.mod_eq_of_lt h, if_pos (Nat.div_eq_of_lt h)]

theorem writeMapping_layout (t : ExcelFrame) (sr sc : ℕ) :
    (writeMapping t sr sc).layout? t.id =
      some ⟨sr, sc, t.columns, .VERTICAL⟩ := by
  simp [writeMapping, CellMapping.ofFrames, CellMapping.layout?, List.find?]

theorem writeMapping_getItem (t : ExcelFrame) (sr sc : ℕ) (name : String)
    (r c : ℕ) (hfind : t.columns.findIdx? (· == name) = some c) :
    (writeMapping t sr sc).getItem ⟨t.id, name, r⟩ =
      some (int_to_alpha (c + sc) ++ natToStr (sr + r + 2)) := by
  unfold CellMapping.getItem
  rw [show (⟨t.id, name, r⟩ : Element).id = t.id from rfl]
  rw [writeMapping_layout]
  simp only [Option.bind_eq_bind, Option.some_bind]
  rw [show (TableLayout.mk sr sc t.columns .VERTICAL).colIdx?
      (⟨t.id, name, r⟩ : Element).col_name = some c from hfind]
  simp only [Option.some_bind]
  show some (int_to_alpha (c + sc) ++ natToStr (sr + r + 1 + 1)) = _
  rw [show sr + r + 1 + 1 = sr + r + 2 by omega]

theorem get_cell_mapping_write (t : ExcelFrame) (sr sc : ℕ) (name : String)
    (r c : ℕ) (hfind : t.columns.findIdx? (· == name) = some c) :
    get_cell_mapping ⟨t.id, name, r⟩ (writeMapping t sr sc) true =
      .ok (int_to_alpha (c + sc) ++ natToStr (sr + r + 2)) := by
  unfold get_cell_mapping
  rw [writeMapping_getItem t sr sc name r c hfind]
  rfl

theorem address_data (sr sc : ℕ) (r c : ℕ) (hlt : c + sc < 26) :
    (int_to_alpha (c + sc) ++ natToStr (sr + r + 2)).data =
      Char.ofNat (65 + (c + sc)) :: natToDigits (sr + r + 2) := by
  rw [int_to_alpha_lt26 (c + sc) hlt, String.data_append]
  rfl

theorem digit_ne_space (d : Char) (h : d.isDigit = true) : d ≠ ' ' := by
  intro he
  rw [he] at h
  exact absurd h (by decide)

theorem ratToStr_of_scale (q : ℚ) (k : ℕ) (hk : decScale q.den = some k) :
    ratToStr q =
      if k = 0 then intStr (q.num * 10 ^ k / q.den)
      else
        (if q < 0 then "-" else "") ++
          natToStr ((q.num * 10 ^ k / (q.den : ℤ)).natAbs / 10 ^ k) ++ "." ++
          (⟨natToDigitsPad k ((q.num * 10 ^ k / (q.den : ℤ)).natAbs % 10 ^ k)⟩ : String) := by
  unfold ratToStr
  rw [hk]

theorem ratToStr_head (q : ℚ) (k : ℕ) (hk : decScale q.den = some k) :
    ∃ h hs, (ratToStr q).data = h :: hs ∧ h ≠ ' ' := by
  rw [ratToStr_of_scale q k hk]
  by_cases hk0 : k = 0
  · rw [if_pos hk0]
    unfold intStr natToStr
    by_cases hm : (q.num * 10 ^ k / (q.den : ℤ)) < 0
    · rw [if_pos hm, String.data_append]
      exact ⟨'-', _, rfl, by decide⟩
    · rw [if_neg hm]
      obtain ⟨d, tail, hdt⟩ : ∃ d tail,
          natToDigits (q.num * 10 ^ k / (q.den : ℤ)).natAbs = d :: tail := by
        cases hh : natToDigits (q.num * 10 ^ k / (q.den : ℤ)).natAbs with
        | nil => exact absurd hh (natToDigits_ne_nil _)
        | cons d tail => exact ⟨d, tail, rfl⟩
      refine ⟨d, tail, ?_, digit_ne_space d
        (natToDigits_all_digits _ d (by rw [hdt]; simp))⟩
      rw [show ("" ++ (⟨natToDigits (q.num * 10 ^ k / (q.den : ℤ)).natAbs⟩ : String)) =
          (⟨natToDigits (q.num * 10 ^ k / (q.den : ℤ)).natAbs⟩ : String) by simp]
      exact hdt
  · rw [if_neg hk0]
    by_cases hneg : q < 0
    · rw [if_pos hneg, String.data_append, String.data_append,
        String.data_append]
      exact ⟨'-', _, rfl, by decide⟩
    · rw [if_neg hneg, String.data_append, String.data_append,
        String.data_append]
      obtain ⟨d, tail, hdt⟩ : ∃ d tail,
          natToDigits ((q.num * 10 ^ k / (q.den : ℤ)).natAbs / 10 ^ k) = d :: tail := by
        cases hh : natToDigits ((q.num * 10 ^ k / (q.den : ℤ)).natAbs / 10 ^ k) with
        | nil => exact absurd hh (natToDigits_ne_nil _)
        | cons d tail => exact ⟨d, tail, rfl⟩
      refine ⟨d, (tail ++ ['.']) ++
          natToDigitsPad k ((q.num * 10 ^ k / (q.den : ℤ)).natAbs % 10 ^ k), ?_,
        digit_ne_space d (natToDigits_all_digits _ d (by rw [hdt]; simp))⟩
      show ([] : List Char) ++
          natToDigits ((q.num * 10 ^ k / (q.den : ℤ)).natAbs / 10 ^ k) ++ ['.'] ++
          natToDigitsPad k ((q.num * 10 ^ k / (q.den : ℤ)).natAbs % 10 ^ k) = _
      rw [hdt]
      simp

theorem subset_wrap_left_add {t : ExcelFrame} {e : CellExpr}
    (hsub : SubsetOK t e) : e.needs_parentheses 2 false = false := by
  cases hsub <;> rfl

theorem subset_wrap_right_add {t : ExcelFrame} {e : CellExpr}
    (hsub : SubsetOK t e) : e.needs_parentheses 2 true = isAS e := by
  cases hsub <;> rfl

theorem subset_wrap_left_mul {t : ExcelFrame} {e : CellExpr}
    (hsub : SubsetOK t e) : e.needs_parentheses 3 false = isAS e := by
  cases hsub <;> rfl

theorem subset_wrap_right_mul {t : ExcelFrame} {e : CellExpr}
    (hsub : SubsetOK t e) : e.needs_parentheses 3 true = isASMD e := by
  cases hsub <;> rfl

theorem range_cells_head (r0 r1 : ℕ) (h01 : r0 ≤ r1) (f : ℕ → Element) :
    ((((List.range (r1 + 1 - r0)).map (r0 + ·)).map f).head?) = some (f r0) := by
  rw [List.head?_map, List.head?_map, List.head?_range,
    if_neg (by omega)]
  rfl

theorem range_cells_last (r0 r1 : ℕ) (h01 : r0 ≤ r1) (f : ℕ → Element) :
    ((((List.range (r1 + 1 - r0)).map (r0 + ·)).map f).getLast?) = some (f r1) := by
  rw [List.getLast?_map, List.getLast?_map]
  rw [show r1 + 1 - r0 = (r1 - r0) + 1 by omega, List.range_succ,
    List.getLast?_concat]
  show some (f (r0 + (r1 - r0))) = some (f r1)
  rw [show r0 + (r1 - r0) = r1 by omega]
theorem bdryCh_rpar (x : List Char) : bdryCh ([')'] ++ x) := by
  right
  left
  rfl

theorem bdryCh_colon (x : List Char) : bdryCh ([':'] ++ x) := by
  right
  right
  rfl

theorem bdryCh_space (c2 c3 : Char) (x : List Char) :
    bdryCh ([' ', c2, c3] ++ x) := by
  left
  rfl

theorem to_formula_sum (cells : List Element) (m : CellMapping) (ri : Bool)
    (a b : Element) (ha : cells.head? = some a) (hb : cells.getLast? = some b) :
    (CellExpr.SumCellsRef cells).to_formula m ri =
      (get_cell_mapping a m ri) >>= fun fromCell =>
      (get_cell_mapping b m ri) >>= fun toCell =>
      pure (.str ("SUM(" ++ fromCell ++ ":" ++ toCell ++ ")")) := by
  simp only [CellExpr.to_formula]
  rw [ha, hb]

theorem to_formula_avg (cells : List Element) (m : CellMapping) (ri : Bool)
    (a b : Element) (ha : cells.head? = some a) (hb : cells.getLast? = some b) :
    (CellExpr.AverageCellsRef cells).to_formula m ri =
      (get_cell_mapping a m ri) >>= fun fromCell =>
      (get_cell_mapping b m ri) >>= fun toCell =>
      pure (.str ("AVERAGE(" ++ fromCell ++ ":" ++ toCell ++ ")")) := by
  simp only [CellExpr.to_formula]
  rw [ha, hb]

theorem atomToks_sum (aC : Element → Char) (aR : Element → ℕ)
    (cells : List Element) (a b : Element)
    (ha : cells.head? = some a) (hb : cells.getLast? = some b) :
    atomToks aC aR (.SumCellsRef cells) =
      [Tok.sumKw, Tok.letter (aC a),
        Tok.num ((aR a : ℕ) : ℚ) (some ((aR a : ℕ) : ℤ)), Tok.colon,
        Tok.letter (aC b), Tok.num ((aR b : ℕ) : ℚ) (some ((aR b : ℕ) : ℤ)),
        Tok.rparen] := by
  simp only [atomToks]
  rw [ha, hb]

theorem atomToks_avg (aC : Element → Char) (aR : Element → ℕ)
    (cells : List Element) (a b : Element)
    (ha : cells.head? = some a) (hb : cells.getLast? = some b) :
    atomToks aC aR (.AverageCellsRef cells) =
      [Tok.avgKw, Tok.letter (aC a),
        Tok.num ((aR a : ℕ) : ℚ) (some ((aR a : ℕ) : ℤ)), Tok.colon,
        Tok.letter (aC b), Tok.num ((aR b : ℕ) : ℚ) (some ((aR b : ℕ) : ℤ)),
        Tok.rparen] := by
  simp only [atomToks]
  rw [ha, hb]
theorem renderLex (t : ExcelFrame) (sr sc : ℕ) (hcols : sc + t.width ≤ 26)
    {e : CellExpr} (hsub : SubsetOK t e) :
    ∃ s : String,
      e.to_formula (writeMapping t sr sc) true = .ok (riOf e s) ∧
      (riOf e s).toStr = s ∧
      (∃ h hs, s.data = h :: hs ∧ h ≠ ' ') ∧
      lexPB s.data (exprToks (colChar t sc) (rowNum sr) e) := by
  induction hsub with
  | const q hq =>
      obtain ⟨k, hk⟩ := Option.isSome_iff_exists.1 hq
      exact ⟨ratToStr q, rfl, rfl, ratToStr_head q k hk, lexPB_ratToStr q k hk⟩
  | ref c r name es hfind hcol hr =>
      obtain ⟨hclt', hcidx⟩ := List.findIdx?_eq_some_iff_findIdx_eq.1 hfind
      have hclt : c + sc < 26 := by
        have hw : t.columns.length = t.width := by
          simp [ExcelFrame.columns, ExcelFrame.width]
        omega
      have hcc : colChar t sc ⟨t.id, name, r⟩ = Char.ofNat (65 + (c + sc)) := by
        unfold colChar
        rw [show (⟨t.id, name, r⟩ : Element).col_name = name from rfl, hcidx]
      refine ⟨int_to_alpha (c + sc) ++ natToStr (sr + r + 2), ?_, rfl, ?_, ?_⟩
      · show (get_cell_mapping ⟨t.id, name, r⟩ (writeMapping t sr sc) true).map
          RawInput.str = _
        rw [get_cell_mapping_write t sr sc name r c hfind]
        rfl
      · rw [address_data sr sc r c hclt]
        obtain ⟨hne, -⟩ := upper_char_facts (c + sc) hclt
        exact ⟨_, _, rfl, hne⟩
      · rw [address_data sr sc r c hclt]
        have h0 : exprToks (colChar t sc) (rowNum sr) (.CellRef ⟨t.id, name, r⟩) =
            [Tok.letter (colChar t sc ⟨t.id, name, r⟩),
             Tok.num ((rowNum sr ⟨t.id, name, r⟩ : ℕ) : ℚ)
               (some ((rowNum sr ⟨t.id, name, r⟩ : ℕ) : ℤ))] := rfl
        rw [h0, hcc]
        exact lexPB_address (c + sc) (sr + r + 2) hclt
  | sum c name es hfind hcol r0 r1 h01 h1 =>
      obtain ⟨hclt', hcidx⟩ := List.findIdx?_eq_some_iff_findIdx_eq.1 hfind
      have hclt : c + sc < 26 := by
        have hw : t.columns.length = t.width := by
          simp [ExcelFrame.columns, ExcelFrame.width]
        omega
      have hcc : ∀ rr : ℕ, colChar t sc ⟨t.id, name, rr⟩ =
          Char.ofNat (65 + (c + sc)) := by
        intro rr
        unfold colChar
        rw [show (⟨t.id, name, rr⟩ : Element).col_name = name from rfl, hcidx]
      have hheadq := range_cells_head r0 r1 h01 (fun rr => ⟨t.id, name, rr⟩)
      have hlastq := range_cells_last r0 r1 h01 (fun rr => ⟨t.id, name, rr⟩)
      have hsdata : ("SUM(" ++ (int_to_alpha (c + sc) ++ natToStr (sr + r0 + 2)) ++
          ":" ++ (int_to_alpha (c + sc) ++ natToStr (sr + r1 + 2)) ++ ")").data =
          "SUM(".data ++
            ((Char.ofNat (65 + (c + sc)) :: natToDigits (sr + r0 + 2)) ++
              ([':'] ++ ((Char.ofNat (65 + (c + sc)) :: natToDigits (sr + r1 + 2)) ++
                [')']))) := by
        simp [String.data_append, address_data sr sc r0 c hclt,
          address_data sr sc r1 c hclt]
      refine ⟨"SUM(" ++ (int_to_alpha (c + sc) ++ natToStr (sr + r0 + 2)) ++ ":" ++
          (int_to_alpha (c + sc) ++ natToStr (sr + r1 + 2)) ++ ")", ?_, rfl, ?_, ?_⟩
      · rw [to_formula_sum _ _ _ _ _ hheadq hlastq,
          get_cell_mapping_write t sr sc name r0 c hfind, except_ok_bind,
          get_cell_mapping_write t sr sc name r1 c hfind, except_ok_bind]
        rfl
      · refine ⟨'S', 'U' :: 'M' :: '(' ::
            ((Char.ofNat (65 + (c + sc)) :: natToDigits (sr + r0 + 2)) ++
              ([':'] ++ ((Char.ofNat (65 + (c + sc)) :: natToDigits (sr + r1 + 2)) ++
                [')']))), ?_, by decide⟩
        rw [hsdata]
        rfl
      · have htoks : exprToks (colChar t sc) (rowNum sr)
            (.SumCellsRef (((List.range (r1 + 1 - r0)).map (r0 + ·)).map
              (fun rr => (⟨t.id, name, rr⟩ : Element)))) =
            [Tok.sumKw] ++ ([Tok.letter (Char.ofNat (65 + (c + sc))),
              Tok.num ((sr + r0 + 2 : ℕ) : ℚ) (some ((sr + r0 + 2 : ℕ) : ℤ))] ++
              ([Tok.colon] ++ ([Tok.letter (Char.ofNat (65 + (c + sc))),
                Tok.num ((sr + r1 + 2 : ℕ) : ℚ) (some ((sr + r1 + 2 : ℕ) : ℤ))] ++
                [Tok.rparen]))) := by
          rw [show exprToks (colChar t sc) (rowNum sr)
              (.SumCellsRef (((List.range (r1 + 1 - r0)).map (r0 + ·)).map
                (fun rr => (⟨t.id, name, rr⟩ : Element)))) =
              atomToks (colChar t sc) (rowNum sr)
              (.SumCellsRef (((List.range (r1 + 1 - r0)).map (r0 + ·)).map
                (fun rr => (⟨t.id, name, rr⟩ : Element)))) from rfl,
            atomToks_sum _ _ _ _ _ hheadq hlastq, hcc r0, hcc r1]
          rfl
        rw [htoks, hsdata]
        exact lexP_toB _ _ (lexP_append lexP_sumKw
          (lexPB_append_bdry (lexPB_address (c + sc) (sr + r0 + 2) hclt)
            (lexP_append lexP_col
              (lexPB_append_bdry (lexPB_address (c + sc) (sr + r1 + 2) hclt)
                lexP_rpar (bdryCh_rpar []) (by simp)))
            (bdryCh_colon _) (by simp)))
  | avg c name es hfind hcol r0 r1 h01 h1 =>
      obtain ⟨hclt', hcidx⟩ := List.findIdx?_eq_some_iff_findIdx_eq.1 hfind
      have hclt : c + sc < 26 := by
        have hw : t.columns.length = t.width := by
          simp [ExcelFrame.columns, ExcelFrame.width]
        omega
      have hcc : ∀ rr : ℕ, colChar t sc ⟨t.id, name, rr⟩ =
          Char.ofNat (65 + (c + sc)) := by
        intro rr
        unfold colChar
        rw [show (⟨t.id, name, rr⟩ : Element).col_name = name from rfl, hcidx]
      have hheadq := range_cells_head r0 r1 h01 (fun rr => ⟨t.id, name, rr⟩)
      have hlastq := range_cells_last r0 r1 h01 (fun rr => ⟨t.id, name, rr⟩)
      have hsdata : ("AVERAGE(" ++ (int_to_alpha (c + sc) ++ natToStr (sr + r0 + 2)) ++
          ":" ++ (int_to_alpha (c + sc) ++ natToStr (sr + r1 + 2)) ++ ")").data =
          "AVERAGE(".data ++
            ((Char.ofNat (65 + (c + sc)) :: natToDigits (sr + r0 + 2)) ++
              ([':'] ++ ((Char.ofNat (65 + (c + sc)) :: natToDigits (sr + r1 + 2)) ++
                [')']))) := by
        simp [String.data_append, address_data sr sc r0 c hclt,
          address_data sr sc r1 c hclt]
      refine ⟨"AVERAGE(" ++ (int_to_alpha (c + sc) ++ natToStr (sr + r0 + 2)) ++ ":" ++
          (int_to_alpha (c + sc) ++ natToStr (sr + r1 + 2)) ++ ")", ?_, rfl, ?_, ?_⟩
      · rw [to_formula_avg _ _ _ _ _ hheadq hlastq,
          get_cell_mapping_write t sr sc name r0 c hfind, except_ok_bind,
          get_cell_mapping_write t sr sc name r1 c hfind, except_ok_bind]
        rfl
      · refine ⟨'A', 'V' :: 'E' :: 'R' :: 'A' :: 'G' :: 'E' :: '(' ::
            ((Char.ofNat (65 + (c + sc)) :: natToDigits (sr + r0 + 2)) ++
              ([':'] ++ ((Char.ofNat (65 + (c + sc)) :: natToDigits (sr + r1 + 2)) ++
                [')']))), ?_, by decide⟩
        rw [hsdata]
        rfl
      · have htoks : exprToks (colChar t sc) (rowNum sr)
            (.AverageCellsRef (((List.range (r1 + 1 - r0)).map (r0 + ·)).map
              (fun rr => (⟨t.id, name, rr⟩ : Element)))) =
            [Tok.avgKw] ++ ([Tok.letter (Char.ofNat (65 + (c + sc))),
              Tok.num ((sr + r0 + 2 : ℕ) : ℚ) (some ((sr + r0 + 2 : ℕ) : ℤ))] ++
              ([Tok.colon] ++ ([Tok.letter (Char.ofNat (65 + (c + sc))),
                Tok.num ((sr + r1 + 2 : ℕ) : ℚ) (some ((sr + r1 + 2 : ℕ) : ℤ))] ++
                [Tok.rparen]))) := by
          rw [show exprToks (colChar t sc) (rowNum sr)
              (.AverageCellsRef (((List.range (r1 + 1 - r0)).map (r0 + ·)).map
                (fun rr => (⟨t.id, name, rr⟩ : Element)))) =
              atomToks (colChar t sc) (rowNum sr)
              (.AverageCellsRef (((List.range (r1 + 1 - r0)).map (r0 + ·)).map
                (fun rr => (⟨t.id, name, rr⟩ : Element)))) from rfl,
            atomToks_avg _ _ _ _ _ hheadq hlastq, hcc r0, hcc r1]
          rfl
        rw [htoks, hsdata]
        exact lexP_toB _ _ (lexP_append lexP_avgKw
          (lexPB_append_bdry (lexPB_address (c + sc) (sr + r0 + 2) hclt)
            (lexP_append lexP_col
              (lexPB_append_bdry (lexPB_address (c + sc) (sr + r1 + 2) hclt)
                lexP_rpar (bdryCh_rpar []) (by simp)))
            (bdryCh_colon _) (by simp)))
  | add hl hr ihl ihr =>
      obtain ⟨sl, hfl, htl, ⟨hh, hhs, hheq, hhne⟩, hlexl⟩ := ihl
      obtain ⟨sr', hfr, htr, -, hlexr⟩ := ihr
      rename_i l r
      refine ⟨sl ++ " + " ++ (if isAS r then "(" ++ sr' ++ ")" else sr'),
        ?_, rfl, ?_, ?_⟩
      · show catchInvalid ((l.to_formula (writeMapping t sr sc) true) >>= fun lf =>
            (r.to_formula (writeMapping t sr sc) true) >>= fun rf =>
            pure (.str (wrapOperand l 2 false lf.toStr ++ " + " ++
              wrapOperand r 2 true rf.toStr))) = _
        rw [hfl, except_ok_bind, hfr, except_ok_bind, htl, htr]
        rw [show wrapOperand l 2 false sl = sl by
          simp [wrapOperand, subset_wrap_left_add hl]]
        rw [show wrapOperand r 2 true sr' =
            (if isAS r then "(" ++ sr' ++ ")" else sr') by
          simp only [wrapOperand, subset_wrap_right_add hr]]
        rfl
      · exact ⟨hh, hhs ++ (" + " ++ (if isAS r then "(" ++ sr' ++ ")" else sr')).data,
          by simp [String.data_append, hheq], hhne⟩
      · have hwtoks : lexPB (if isAS r then "(" ++ sr' ++ ")" else sr').data
            (if isAS r then parenToks (exprToks (colChar t sc) (rowNum sr) r)
             else exprToks (colChar t sc) (rowNum sr) r) := by
          by_cases hAS : isAS r
          · simp only [if_pos hAS]
            have hp := lexP_append lexP_lpar
              (lexPB_append_bdry hlexr lexP_rpar (bdryCh_rpar []) (by simp))
            rw [show ("(" ++ sr' ++ ")").data = ['('] ++ (sr'.data ++ [')']) by
              simp [String.data_append]]
            exact lexP_toB _ _ hp
          · simp only [if_neg hAS]
            exact hlexr
        have hcomp := lexPB_append_bdry_B hlexl
          (lexP_append_B lexP_plusOp hwtoks)
          (bdryCh_space '+' ' ' _) (by simp)
        rw [show (sl ++ " + " ++ (if isAS r then "(" ++ sr' ++ ")" else sr')).data =
            sl.data ++ ([' ', '+', ' '] ++
              (if isAS r then "(" ++ sr' ++ ")" else sr').data) by
          simp [String.data_append]]
        show lexPB _ (exprToks (colChar t sc) (rowNum sr) l ++ [.plus] ++
          (if isAS r then parenToks (exprToks (colChar t sc) (rowNum sr) r)
           else exprToks (colChar t sc) (rowNum sr) r))
        rw [List.append_assoc]
        exact hcomp
  | sub hl hr ihl ihr =>
      obtain ⟨sl, hfl, htl, ⟨hh, hhs, hheq, hhne⟩, hlexl⟩ := ihl
      obtain ⟨sr', hfr, htr, -, hlexr⟩ := ihr
      rename_i l r
      refine ⟨sl ++ " - " ++ (if isAS r then "(" ++ sr' ++ ")" else sr'),
        ?_, rfl, ?_, ?_⟩
      · show catchInvalid ((l.to_formula (writeMapping t sr sc) true) >>= fun lf =>
            (r.to_formula (writeMapping t sr sc) true) >>= fun rf =>
            pure (.str (wrapOperand l 2 false lf.toStr ++ " - " ++
              wrapOperand r 2 true rf.toStr))) = _
        rw [hfl, except_ok_bind, hfr, except_ok_bind, htl, htr]
        rw [show wrapOperand l 2 false sl = sl by
          simp [wrapOperand, subset_wrap_left_add hl]]
        rw [show wrapOperand r 2 true sr' =
            (if isAS r then "(" ++ sr' ++ ")" else sr') by
          simp only [wrapOperand, subset_wrap_right_add hr]]
        rfl
      · exact ⟨hh, hhs ++ (" - " ++ (if isAS r then "(" ++ sr' ++ ")" else sr')).data,
          by simp [String.data_append, hheq], hhne⟩
      · have hwtoks : lexPB (if isAS r then "(" ++ sr' ++ ")" else sr').data
            (if isAS r then parenToks (exprToks (colChar t sc) (rowNum sr) r)
             else exprToks (colChar t sc) (rowNum sr) r) := by
          by_cases hAS : isAS r
          · simp only [if_pos hAS]
            have hp := lexP_append lexP_lpar
              (lexPB_append_bdry hlexr lexP_rpar (bdryCh_rpar []) (by simp))
            rw [show ("(" ++ sr' ++ ")").data = ['('] ++ (sr'.data ++ [')']) by
              simp [String.data_append]]
            exact lexP_toB _ _ hp
          · simp only [if_neg hAS]
            exact hlexr
        have hcomp := lexPB_append_bdry_B hlexl
          (lexP_append_B lexP_minusOp hwtoks)
          (bdryCh_space '-' ' ' _) (by simp)
        rw [show (sl ++ " - " ++ (if isAS r then "(" ++ sr' ++ ")" else sr')).data =
            sl.data ++ ([' ', '-', ' '] ++
              (if isAS r then "(" ++ sr' ++ ")" else sr').data) by
          simp [String.data_append]]
        show lexPB _ (exprToks (colChar t sc) (rowNum sr) l ++ [.minus] ++
          (if isAS r then parenToks (exprToks (colChar t sc) (rowNum sr) r)
           else exprToks (colChar t sc) (rowNum sr) r))
        rw [List.append_assoc]
        exact hcomp
  | mult hl hr ihl ihr =>
      obtain ⟨sl, hfl, htl, ⟨hh, hhs, hheq, hhne⟩, hlexl⟩ := ihl
      obtain ⟨sr', hfr, htr, -, hlexr⟩ := ihr
      rename_i l r
      refine ⟨(if isAS l then "(" ++ sl ++ ")" else sl) ++ " * " ++
          (if isASMD r then "(" ++ sr' ++ ")" else sr'), ?_, rfl, ?_, ?_⟩
      · show catchInvalid ((l.to_formula (writeMapping t sr sc) true) >>= fun lf =>
            (r.to_formula (writeMapping t sr sc) true) >>= fun rf =>
            pure (.str (wrapOperand l 3 false lf.toStr ++ " * " ++
              wrapOperand r 3 true rf.toStr))) = _
        rw [hfl, except_ok_bind, hfr, except_ok_bind, htl, htr]
        rw [show wrapOperand l 3 false sl =
            (if isAS l then "(" ++ sl ++ ")" else sl) by
          simp only [wrapOperand, subset_wrap_left_mul hl]]
        rw [show wrapOperand r 3 true sr' =
            (if isASMD r then "(" ++ sr' ++ ")" else sr') by
          simp only [wrapOperand, subset_wrap_right_mul hr]]
        rfl
      · by_cases hAS : isAS l
        · refine ⟨'(', (sl.data ++ [')']) ++ ([' ', '*', ' '] ++
              (if isASMD r then "(" ++ sr' ++ ")" else sr').data), ?_, by decide⟩
          rw [if_pos hAS]
          simp [String.data_append, List.append_assoc]
        · refine ⟨hh, hhs ++ (" * ".data ++
            (if isASMD r then "(" ++ sr' ++ ")" else sr').data), ?_, hhne⟩
          rw [if_neg hAS]
          simp [String.data_append, hheq]
      · have hwltoks : lexPB (if isAS l then "(" ++ sl ++ ")" else sl).data
            (if isAS l then parenToks (exprToks (colChar t sc) (rowNum sr) l)
             else exprToks (colChar t sc) (rowNum sr) l) := by
          by_cases hAS : isAS l
          · simp only [if_pos hAS]
            have hp := lexP_append lexP_lpar
              (lexPB_append_bdry hlexl lexP_rpar (bdryCh_rpar []) (by simp))
            rw [show ("(" ++ sl ++ ")").data = ['('] ++ (sl.data ++ [')']) by
              simp [String.data_append]]
            exact lexP_toB _ _ hp
          · simp only [if_neg hAS]
            exact hlexl
        have hwrtoks : lexPB (if isASMD r then "(" ++ sr' ++ ")" else sr').data
            (if isASMD r then parenToks (exprToks (colChar t sc) (rowNum sr) r)
             else exprToks (colChar t sc) (rowNum sr) r) := by
          by_cases hAS : isASMD r
          · simp only [if_pos hAS]
            have hp := lexP_append lexP_lpar
              (lexPB_append_bdry hlexr lexP_rpar (bdryCh_rpar []) (by simp))
            rw [show ("(" ++ sr' ++ ")").data = ['('] ++ (sr'.data ++ [')']) by
              simp [String.data_append]]
            exact lexP_toB _ _ hp
          · simp only [if_neg hAS]
            exact hlexr
        have hcomp := lexPB_append_bdry_B hwltoks
          (lexP_append_B lexP_starOp hwrtoks)
          (bdryCh_space '*' ' ' _) (by simp)
        rw [show ((if isAS l then "(" ++ sl ++ ")" else sl) ++ " * " ++
            (if isASMD r then "(" ++ sr' ++ ")" else sr')).data =
            (if isAS l then "(" ++ sl ++ ")" else sl).data ++ ([' ', '*', ' '] ++
              (if isASMD r then "(" ++ sr' ++ ")" else sr').data) by
          simp [String.data_append]]
        show lexPB _ ((if isAS l then parenToks (exprToks (colChar t sc) (rowNum sr) l)
            else exprToks (colChar t sc) (rowNum sr) l) ++ [.star] ++
          (if isASMD r then parenToks (exprToks (colChar t sc) (rowNum sr) r)
           else exprToks (colChar t sc) (rowNum sr) r))
        rw [List.append_assoc]
        exact hcomp
  | div hl hr ihl ihr =>
      obtain ⟨sl, hfl, htl, ⟨hh, hhs, hheq, hhne⟩, hlexl⟩ := ihl
      obtain ⟨sr', hfr, htr, -, hlexr⟩ := ihr
      rename_i l r
      refine ⟨(if isAS l then "(" ++ sl ++ ")" else sl) ++ " / " ++
          (if isASMD r then "(" ++ sr' ++ ")" else sr'), ?_, rfl, ?_, ?_⟩
      · show catchInvalid ((l.to_formula (writeMapping t sr sc) true) >>= fun lf =>
            (r.to_formula (writeMapping t sr sc) true) >>= fun rf =>
            pure (.str (wrapOperand l 3 false lf.toStr ++ " / " ++
              wrapOperand r 3 true rf.toStr))) = _
        rw [hfl, except_ok_bind, hfr, except_ok_bind, htl, htr]
        rw [show wrapOperand l 3 false sl =
            (if isAS l then "(" ++ sl ++ ")" else sl) by
          simp only [wrapOperand, subset_wrap_left_mul hl]]
        rw [show wrapOperand r 3 true sr' =
            (if isASMD r then "(" ++ sr' ++ ")" else sr') by
          simp only [wrapOperand, subset_wrap_right_mul hr]]
        rfl
      · by_cases hAS : isAS l
        · refine ⟨'(', (sl.data ++ [')']) ++ ([' ', '/', ' '] ++
              (if isASMD r then "(" ++ sr' ++ ")" else sr').data), ?_, by decide⟩
          rw [if_pos hAS]
          simp [String.data_append, List.append_assoc]
        · refine ⟨hh, hhs ++ (" / ".data ++
            (if isASMD r then "(" ++ sr' ++ ")" else sr').data), ?_, hhne⟩
          rw [if_neg hAS]
          simp [String.data_append, hheq]
      · have hwltoks : lexPB (if isAS l then "(" ++ sl ++ ")" else sl).data
            (if isAS l then parenToks (exprToks (colChar t sc) (rowNum sr) l)
             else exprToks (colChar t sc) (rowNum sr) l) := by
          by_cases hAS : isAS l
          · simp only [if_pos hAS]
            have hp := lexP_append lexP_lpar
              (lexPB_append_bdry hlexl lexP_rpar (bdryCh_rpar []) (by simp))
            rw [show ("(" ++ sl ++ ")").data = ['('] ++ (sl.data ++ [')']) by
              simp [String.data_append]]
            exact lexP_toB _ _ hp
          · simp only [if_neg hAS]
            exact hlexl
        have hwrtoks : lexPB (if isASMD r then "(" ++ sr' ++ ")" else sr').data
            (if isASMD r then parenToks (exprToks (colChar t sc) (rowNum sr) r)
             else exprToks (colChar t sc) (rowNum sr) r) := by
          by_cases hAS : isASMD r
          · simp only [if_pos hAS]
            have hp := lexP_append lexP_lpar
              (lexPB_append_bdry hlexr lexP_rpar (bdryCh_rpar []) (by simp))
            rw [show ("(" ++ sr' ++ ")").data = ['('] ++ (sr'.data ++ [')']) by
              simp [String.data_append]]
            exact lexP_toB _ _ hp
          · simp only [if_neg hAS]
            exact hlexr
        have hcomp := lexPB_append_bdry_B hwltoks
          (lexP_append_B lexP_slashOp hwrtoks)
          (bdryCh_space '/' ' ' _) (by simp)
        rw [show ((if isAS l then "(" ++ sl ++ ")" else sl) ++ " / " ++
            (if isASMD r then "(" ++ sr' ++ ")" else sr')).data =
            (if isAS l then "(" ++ sl ++ ")" else sl).data ++ ([' ', '/', ' '] ++
              (if isASMD r then "(" ++ sr' ++ ")" else sr').data) by
          simp [String.data_append]]
        show lexPB _ ((if isAS l then parenToks (exprToks (colChar t sc) (rowNum sr) l)
            else exprToks (colChar t sc) (rowNum sr) l) ++ [.slash] ++
          (if isASMD r then parenToks (exprToks (colChar t sc) (rowNum sr) r)
           else exprToks (colChar t sc) (rowNum sr) r))
        rw [List.append_assoc]
        exact hcomp

theorem readFrame_cols_get (t : ExcelFrame) (newId : ℕ) (c : ℕ)
    (name : String) (hname : t.columns[c]? = some name) :
    (readFrame t newId).cols[c]? =
      some (name, List.replicate t.height .Empty) := by
  unfold readFrame ExcelFrame.empty
  simp only [List.getElem?_map, hname, Option.map_some']

theorem readFrame_width (t : ExcelFrame) (newId : ℕ) :
    (readFrame t newId).width = t.columns.length := by
  unfold readFrame ExcelFrame.empty ExcelFrame.width
  simp

theorem readFrame_height (t : ExcelFrame) (newId : ℕ)
    (hne : t.columns ≠ []) : (readFrame t newId).height = t.height := by
  unfold readFrame ExcelFrame.empty ExcelFrame.height
  cases hc : t.columns with
  | nil => exact absurd hc hne
  | cons a l => simp

theorem alpha_single (n : ℕ) (hn : n < 26) :
    alpha_to_int (⟨[Char.ofNat (65 + n)]⟩ : String) = n := by
  obtain ⟨-, -, -, -, -, -, -, -, -, -, -, -, htn⟩ := upper_char_facts n hn
  unfold alpha_to_int
  show List.foldl _ 0 [Char.ofNat (65 + n)] - 1 = n
  simp only [List.foldl_cons, List.foldl_nil]
  rw [htn]
  omega

theorem cellpos_read (t : ExcelFrame) (newId sr sc : ℕ)
    (hrect : ∀ p ∈ t.cols, p.2.length = t.height)
    (c : ℕ) (name : String) (es : List CellExpr)
    (hcol : t.cols[c]? = some (name, es))
    (r : ℕ) (hr : r < es.length) (hclt : c + sc < 26) :
    cellpos_to_cellref (readCtx t newId sr sc)
      (⟨[Char.ofNat (65 + (c + sc))]⟩ : String) ((sr + r + 2 : ℕ) : ℤ) =
      some (readFrame t newId, c, r) := by
  have hname : t.columns[c]? = some name := by
    unfold ExcelFrame.columns
    simp [List.getElem?_map, hcol]
  have hclen : c < t.columns.length :=
    (List.getElem?_eq_some_iff.1 hname).1
  have hmem : (name, es) ∈ t.cols :=
    List.mem_iff_getElem?.2 ⟨c, hcol⟩
  have hht : es.length = t.height := hrect (name, es) hmem
  have hcne : t.columns ≠ [] := by
    intro hnil
    rw [hnil] at hclen
    simp at hclen
  unfold cellpos_to_cellref readCtx
  rw [alpha_single (c + sc) hclt]
  simp only [List.findSome?_cons]
  rw [if_pos ?_]
  · show some (readFrame t newId,
      (((c + sc : ℕ) : ℤ) - (sc : ℕ)).toNat,
      (((sr + r + 2 : ℕ) : ℤ) - 1 - (sr : ℕ) - 1).toNat) = _
    have h1 : (((c + sc : ℕ) : ℤ) - (sc : ℕ)).toNat = c := by
      push_cast
      omega
    have h2 : (((sr + r + 2 : ℕ) : ℤ) - 1 - (sr : ℕ) - 1).toNat = r := by
      push_cast
      omega
    rw [h1, h2]
  · refine ⟨by push_cast; omega, ?_, by push_cast; omega, ?_⟩
    · rw [readFrame_width]
      push_cast
      omega
    · rw [readFrame_height t newId hcne]
      push_cast
      omega

theorem parseCellref_ok (t : ExcelFrame) (newId sr sc : ℕ)
    (hrect : ∀ p ∈ t.cols, p.2.length = t.height)
    (c : ℕ) (name : String) (es : List CellExpr)
    (hcol : t.cols[c]? = some (name, es))
    (r : ℕ) (hr : r < es.length) (hclt : c + sc < 26) (ts : List Tok) :
    parseCellref (readCtx t newId sr sc)
      (.letter (Char.ofNat (65 + (c + sc))) ::
        .num ((sr + r + 2 : ℕ) : ℚ) (some ((sr + r + 2 : ℕ) : ℤ)) :: ts) =
      some ((readFrame t newId, c, r), ts) := by
  show (do
      let rf ← cellpos_to_cellref (readCtx t newId sr sc)
        (⟨[Char.ofNat (65 + (c + sc))]⟩ : String) ((sr + r + 2 : ℕ) : ℤ)
      pure (rf, ts)) = _
  rw [cellpos_read t newId sr sc hrect c name es hcol r hr hclt]
  rfl

theorem resolvedElement_read (t : ExcelFrame) (newId : ℕ) (c : ℕ)
    (name : String) (hname : t.columns[c]? = some name)
    (r : ℕ) (hr : r < t.height) :
    resolvedElement (readFrame t newId, c, r) = some ⟨newId, name, r⟩ := by
  unfold resolvedElement
  rw [show ((readFrame t newId, c, r) : ExcelFrame × ℕ × ℕ).1.cols[(
      (readFrame t newId, c, r) : ExcelFrame × ℕ × ℕ).2.1]? =
    (readFrame t newId).cols[c]? from rfl]
  rw [readFrame_cols_get t newId c name hname]
  simp only [Option.bind_eq_bind, Option.some_bind]
  rw [if_pos (by simpa using hr)]
  rfl

theorem aggRange_read (t : ExcelFrame) (newId : ℕ) (c : ℕ)
    (name : String) (hname : t.columns[c]? = some name)
    (r0 r1 : ℕ) (h01 : r0 ≤ r1) (h1 : r1 < t.height) :
    aggRangeCells (readFrame t newId, c, r0) (readFrame t newId, c, r1) =
      some (((List.range (r1 + 1 - r0)).map (r0 + ·)).map
        (fun rr => (⟨newId, name, rr⟩ : Element))) := by
  unfold aggRangeCells
  rw [if_pos ⟨rfl, rfl⟩]
  simp only [Option.bind_eq_bind]
  rw [show min r0 r1 = r0 by omega, show max r0 r1 = r1 by omega]
  rw [show ((readFrame t newId, c, r0) : ExcelFrame × ℕ × ℕ).1.cols[c]? =
    (readFrame t newId).cols[c]? from rfl]
  rw [readFrame_cols_get t newId c name hname]
  rw [Option.some_bind]
  rw [if_pos ?_]
  · rfl
  · rw [List.all_eq_true]
    intro x hx
    simp only [List.mem_map, List.mem_range] at hx
    obtain ⟨i, hi, rfl⟩ := hx
    simp only [List.length_replicate, decide_eq_true_eq]
    omega

theorem parser_mono_step (dfs : List (ExcelFrame × TableConfig)) :
    ∀ fuel,
      (∀ ts res, parsePrimary dfs fuel ts = some res →
        parsePrimary dfs (fuel + 1) ts = some res) ∧
      (∀ acc ts res, factorLoop dfs fuel acc ts = some res →
        factorLoop dfs (fuel + 1) acc ts = some res) ∧
      (∀ ts res, parseFactor dfs fuel ts = some res →
        parseFactor dfs (fuel + 1) ts = some res) ∧
      (∀ acc ts res, termLoop dfs fuel acc ts = some res →
        termLoop dfs (fuel + 1) acc ts = some res) ∧
      (∀ ts res, parseTerm dfs fuel ts = some res →
        parseTerm dfs (fuel + 1) ts = some res) := by
  intro fuel
  induction fuel with
  | zero =>
      refine ⟨fun ts res h => ?_, fun acc ts res h => ?_, fun ts res h => ?_,
        fun acc ts res h => ?_, fun ts res h => ?_⟩ <;>
        exact Option.noConfusion h
  | succ fuel ih =>
      obtain ⟨ihP, ihFL, ihF, ihTL, ihT⟩ := ih
      refine ⟨fun ts res h => ?_, fun acc ts res h => ?_, fun ts res h => ?_,
        fun acc ts res h => ?_, fun ts res h => ?_⟩
      · -- parsePrimary
        rcases ts with _ | ⟨tk, ts⟩
        · exact h
        · cases tk with
          | num q i => exact h
          | lparen =>
              simp only [parsePrimary] at h ⊢
              rcases hm : parseTerm dfs fuel ts with _ | ⟨e, ts'⟩
              · rw [hm] at h
                exact Option.noConfusion h
              · rw [hm] at h
                rw [ihT ts (e, ts') hm]
                exact h
          | sumKw => exact h
          | avgKw => exact h
          | letter c => exact h
          | plus => exact h
          | minus => exact h
          | star => exact h
          | slash => exact h
          | rparen => exact h
          | colon => exact h
          | eq => exact h
      · -- factorLoop
        rcases ts with _ | ⟨tk, ts⟩
        · exact h
        · cases tk with
          | star =>
              simp only [factorLoop] at h ⊢
              rcases hm : parsePrimary dfs fuel ts with _ | ⟨p, ts'⟩
              · rw [hm] at h
                exact Option.noConfusion h
              · rw [hm] at h
                rw [ihP ts (p, ts') hm]
                exact ihFL (.Mult acc p) ts' res h
          | slash =>
              simp only [factorLoop] at h ⊢
              rcases hm : parsePrimary dfs fuel ts with _ | ⟨p, ts'⟩
              · rw [hm] at h
                exact Option.noConfusion h
              · rw [hm] at h
                rw [ihP ts (p, ts') hm]
                exact ihFL (.Div acc p) ts' res h
          | num q i => exact h
          | lparen => exact h
          | sumKw => exact h
          | avgKw => exact h
          | letter c => exact h
          | plus => exact h
          | minus => exact h
          | rparen => exact h
          | colon => exact h
          | eq => exact h
      · -- parseFactor
        simp only [parseFactor] at h ⊢
        rcases hm : parsePrimary dfs fuel ts with _ | ⟨p, ts'⟩
        · rw [hm] at h
          exact Option.noConfusion h
        · rw [hm] at h
          rw [ihP ts (p, ts') hm]
          exact ihFL p ts' res h
      · -- termLoop
        rcases ts with _ | ⟨tk, ts⟩
        · exact h
        · cases tk with
          | plus =>
              simp only [termLoop] at h ⊢
              rcases hm : parseFactor dfs fuel ts with _ | ⟨f, ts'⟩
              · rw [hm] at h
                exact Option.noConfusion h
              · rw [hm] at h
                rw [ihF ts (f, ts') hm]
                exact ihTL (.Add acc f) ts' res h
          | minus =>
              simp only [termLoop] at h ⊢
              rcases hm : parseFactor dfs fuel ts with _ | ⟨f, ts'⟩
              · rw [hm] at h
                exact Option.noConfusion h
              · rw [hm] at h
                rw [ihF ts (f, ts') hm]
                exact ihTL (.Sub acc f) ts' res h
          | num q i => exact h
          | lparen => exact h
          | sumKw => exact h
          | avgKw => exact h
          | letter c => exact h
          | star => exact h
          | slash => exact h
          | rparen => exact h
          | colon => exact h
          | eq => exact h
      · -- parseTerm
        simp only [parseTerm] at h ⊢
        rcases hm : parseFactor dfs fuel ts with _ | ⟨f, ts'⟩
        · rw [hm] at h
          exact Option.noConfusion h
        · rw [hm] at h
          rw [ihF ts (f, ts') hm]
          exact ihTL f ts' res h

theorem parsePrimary_mono (dfs : List (ExcelFrame × TableConfig))
    {f f' : ℕ} (hle : f ≤ f') {ts : List Tok} {res : CellExpr × List Tok}
    (h : parsePrimary dfs f ts = some res) :
    parsePrimary dfs f' ts = some res := by
  induction f' with
  | zero =>
      rw [show f = 0 by omega] at h
      exact h
  | succ f' ih =>
      by_cases hf : f = f' + 1
      · rw [← hf]
        exact h
      · exact (parser_mono_step dfs f').1 ts res (ih (by omega))

theorem factorLoop_mono (dfs : List (ExcelFrame × TableConfig))
    {f f' : ℕ} (hle : f ≤ f') {acc : CellExpr} {ts : List Tok}
    {res : CellExpr × List Tok} (h : factorLoop dfs f acc ts = some res) :
    factorLoop dfs f' acc ts = some res := by
  induction f' with
  | zero =>
      rw [show f = 0 by omega] at h
      exact h
  | succ f' ih =>
      by_cases hf : f = f' + 1
      · rw [← hf]
        exact h
      · exact (parser_mono_step dfs f').2.1 acc ts res (ih (by omega))

theorem parseFactor_mono (dfs : List (ExcelFrame × TableConfig))
    {f f' : ℕ} (hle : f ≤ f') {ts : List Tok} {res : CellExpr × List Tok}
    (h : parseFactor dfs f ts = some res) :
    parseFactor dfs f' ts = some res := by
  induction f' with
  | zero =>
      rw [show f = 0 by omega] at h
      exact h
  | succ f' ih =>
      by_cases hf : f = f' + 1
      · rw [← hf]
        exact h
      · exact (parser_mono_step dfs f').2.2.1 ts res (ih (by omega))

theorem termLoop_mono (dfs : List (ExcelFrame × TableConfig))
    {f f' : ℕ} (hle : f ≤ f') {acc : CellExpr} {ts : List Tok}
    {res : CellExpr × List Tok} (h : termLoop dfs f acc ts = some res) :
    termLoop dfs f' acc ts = some res := by
  induction f' with
  | zero =>
      rw [show f = 0 by omega] at h
      exact h
  | succ f' ih =>
      by_cases hf : f = f' + 1
      · rw [← hf]
        exact h
      · exact (parser_mono_step dfs f').2.2.2.1 acc ts res (ih (by omega))

theorem parseTerm_mono (dfs : List (ExcelFrame × TableConfig))
    {f f' : ℕ} (hle : f ≤ f') {ts : List Tok} {res : CellExpr × List Tok}
    (h : parseTerm dfs f ts = some res) :
    parseTerm dfs f' ts = some res := by
  induction f' with
  | zero =>
      rw [show f = 0 by omega] at h
      exact h
  | succ f' ih =>
      by_cases hf : f = f' + 1
      · rw [← hf]
        exact h
      · exact (parser_mono_step dfs f').2.2.2.2 ts res (ih (by omega))

theorem factorLoop_stop (dfs : List (ExcelFrame × TableConfig))
    (acc : CellExpr) (ts : List Tok) (hb : tsBdry ts) :
    factorLoop dfs 1 acc ts = some (acc, ts) := by
  rcases ts with _ | ⟨tk, ts⟩
  · rfl
  · cases tk with
    | star => exact absurd hb (by simp [tsBdry])
    | slash => exact absurd hb (by simp [tsBdry])
    | num q i => rfl
    | lparen => rfl
    | sumKw => rfl
    | avgKw => rfl
    | letter c => rfl
    | plus => rfl
    | minus => rfl
    | rparen => rfl
    | colon => rfl
    | eq => rfl

theorem termLoop_stop (dfs : List (ExcelFrame × TableConfig))
    (acc : CellExpr) (ts : List Tok)
    (hb : match ts with
      | .plus :: _ => False
      | .minus :: _ => False
      | _ => True) :
    termLoop dfs 1 acc ts = some (acc, ts) := by
  rcases ts with _ | ⟨tk, ts⟩
  · rfl
  · cases tk with
    | plus => exact absurd hb (by simp)
    | minus => exact absurd hb (by simp)
    | num q i => rfl
    | lparen => rfl
    | sumKw => rfl
    | avgKw => rfl
    | letter c => rfl
    | star => rfl
    | slash => rfl
    | rparen => rfl
    | colon => rfl
    | eq => rfl

theorem rekey_self (oldId newId : ℕ) (nm : String) (i : ℕ) :
    rekey oldId newId ⟨oldId, nm, i⟩ = ⟨newId, nm, i⟩ := by
  unfold rekey
  rw [if_pos rfl]

theorem columns_get_of_cols (t : ExcelFrame) (c : ℕ) (name : String)
    (es : List CellExpr) (hcol : t.cols[c]? = some (name, es)) :
    t.columns[c]? = some name := by
  unfold ExcelFrame.columns
  simp [List.getElem?_map, hcol]

theorem columns_len_width (t : ExcelFrame) : t.columns.length = t.width := by
  unfold ExcelFrame.columns ExcelFrame.width
  simp

theorem atom_F_T (dfs : List (ExcelFrame × TableConfig)) (re : CellExpr)
    (tk : List Tok)
    (hP : ∀ f ts, 1 ≤ f → parsePrimary dfs f (tk ++ ts) = some (re, ts)) :
    (∀ fuelLoop fuel ts res, 2 + fuelLoop ≤ fuel →
        factorLoop dfs fuelLoop re ts = some res →
        parseFactor dfs fuel (tk ++ ts) = some res) ∧
    (∀ fuelLoop fuel ts res, 4 + fuelLoop ≤ fuel → tsBdry ts →
        termLoop dfs fuelLoop re ts = some res →
        parseTerm dfs fuel (tk ++ ts) = some res) := by
  have hF : ∀ fuelLoop fuel ts res, 2 + fuelLoop ≤ fuel →
      factorLoop dfs fuelLoop re ts = some res →
      parseFactor dfs fuel (tk ++ ts) = some res := by
    intro fuelLoop fuel ts res hle h
    obtain ⟨f, rfl⟩ : ∃ f, fuel = f + 1 := ⟨fuel - 1, by omega⟩
    have hp := hP f ts (by omega)
    simp only [parseFactor, hp]
    exact factorLoop_mono dfs (by omega) h
  refine ⟨hF, ?_⟩
  intro fuelLoop fuel ts res hle hb h
  obtain ⟨f, rfl⟩ : ∃ f, fuel = f + 1 := ⟨fuel - 1, by omega⟩
  have hf := hF 1 f ts (re, ts) (by omega) (factorLoop_stop dfs re ts hb)
  simp only [parseTerm, hf]
  exact termLoop_mono dfs (by omega) h

theorem parseSubset (t : ExcelFrame) (newId sr sc : ℕ)
    (hrect : ∀ p ∈ t.cols, p.2.length = t.height)
    (hcols : sc + t.width ≤ 26)
    {e : CellExpr} (hsub : SubsetOK t e) :
    (∀ fuel ts, cPrim e ≤ fuel →
        parsePrimary (readCtx t newId sr sc) fuel
          (primToksOf (colChar t sc) (rowNum sr) e ++ ts) =
          some (e.renameElems (rekey t.id newId), ts)) ∧
    (∀ fuelLoop fuel ts res, cFact e + fuelLoop ≤ fuel →
        factorLoop (readCtx t newId sr sc) fuelLoop
          (e.renameElems (rekey t.id newId)) ts = some res →
        parseFactor (readCtx t newId sr sc) fuel
          (factToksOf (colChar t sc) (rowNum sr) e ++ ts) = some res) ∧
    (∀ fuelLoop fuel ts res, cTerm e + fuelLoop ≤ fuel → tsBdry ts →
        termLoop (readCtx t newId sr sc) fuelLoop
          (e.renameElems (rekey t.id newId)) ts = some res →
        parseTerm (readCtx t newId sr sc) fuel
          (exprToks (colChar t sc) (rowNum sr) e ++ ts) = some res) := by
  induction hsub with
  | const q hq =>
      have hP : ∀ fuel ts, cPrim (CellExpr.Constant (some (.num q))) ≤ fuel →
          parsePrimary (readCtx t newId sr sc) fuel
            (primToksOf (colChar t sc) (rowNum sr)
              (CellExpr.Constant (some (.num q))) ++ ts) =
            some ((CellExpr.Constant (some (.num q))).renameElems
              (rekey t.id newId), ts) := by
        intro fuel ts hle
        rw [show cPrim (CellExpr.Constant (some (.num q))) = 1 from rfl] at hle
        obtain ⟨f, rfl⟩ : ∃ f, fuel = f + 1 := ⟨fuel - 1, by omega⟩
        show parsePrimary (readCtx t newId sr sc) (f + 1)
            (Tok.num q (if q.den = 1 then some q.num else none) :: ts) =
          some ((CellExpr.Constant (some (.num q))).renameElems
            (rekey t.id newId), ts)
        simp only [parsePrimary, CellExpr.renameElems]
      exact ⟨hP, atom_F_T (readCtx t newId sr sc)
        ((CellExpr.Constant (some (.num q))).renameElems (rekey t.id newId))
        (factToksOf (colChar t sc) (rowNum sr)
          (CellExpr.Constant (some (.num q)))) hP⟩
  | ref c r name es hfind hcol hr =>
      obtain ⟨hclt', hcidx⟩ := List.findIdx?_eq_some_iff_findIdx_eq.1 hfind
      have hclt : c + sc < 26 := by
        have := columns_len_width t
        omega
      have hname : t.columns[c]? = some name :=
        columns_get_of_cols t c name es hcol
      have hht : es.length = t.height :=
        hrect _ (List.mem_iff_getElem?.2 ⟨c, hcol⟩)
      have hrh : r < t.height := by omega
      have hcc : colChar t sc ⟨t.id, name, r⟩ = Char.ofNat (65 + (c + sc)) := by
        show Char.ofNat (65 + (t.columns.findIdx (· == name) + sc)) = _
        rw [hcidx]
      have hP : ∀ fuel ts, cPrim (CellExpr.CellRef ⟨t.id, name, r⟩) ≤ fuel →
          parsePrimary (readCtx t newId sr sc) fuel
            (primToksOf (colChar t sc) (rowNum sr)
              (CellExpr.CellRef ⟨t.id, name, r⟩) ++ ts) =
            some ((CellExpr.CellRef ⟨t.id, name, r⟩).renameElems
              (rekey t.id newId), ts) := by
        intro fuel ts hle
        rw [show cPrim (CellExpr.CellRef (⟨t.id, name, r⟩ : Element)) = 1
          from rfl] at hle
        obtain ⟨f, rfl⟩ : ∃ f, fuel = f + 1 := ⟨fuel - 1, by omega⟩
        have hPC := parseCellref_ok t newId sr sc hrect c name es hcol r hr hclt ts
        have hRes := resolvedElement_read t newId c name hname r hrh
        show parsePrimary (readCtx t newId sr sc) (f + 1)
            (Tok.letter (colChar t sc ⟨t.id, name, r⟩) ::
              Tok.num ((sr + r + 2 : ℕ) : ℚ) (some ((sr + r + 2 : ℕ) : ℤ)) :: ts) =
          some ((CellExpr.CellRef ⟨t.id, name, r⟩).renameElems
            (rekey t.id newId), ts)
        rw [hcc]
        simp only [parsePrimary, hPC, hRes, Option.map_some',
          CellExpr.renameElems, rekey_self]
      exact ⟨hP, atom_F_T (readCtx t newId sr sc)
        ((CellExpr.CellRef ⟨t.id, name, r⟩).renameElems (rekey t.id newId))
        (factToksOf (colChar t sc) (rowNum sr)
          (CellExpr.CellRef ⟨t.id, name, r⟩)) hP⟩
  | sum c name es hfind hcol r0 r1 h01 h1 =>
      obtain ⟨hclt', hcidx⟩ := List.findIdx?_eq_some_iff_findIdx_eq.1 hfind
      have hclt : c + sc < 26 := by
        have := columns_len_width t
        omega
      have hname : t.columns[c]? = some name :=
        columns_get_of_cols t c name es hcol
      have hht : es.length = t.height :=
        hrect _ (List.mem_iff_getElem?.2 ⟨c, hcol⟩)
      have h1h : r1 < t.height := by omega
      have hhd : (((List.range (r1 + 1 - r0)).map (r0 + ·)).map
          fun rr => (⟨t.id, name, rr⟩ : Element)).head? =
            some ⟨t.id, name, r0⟩ :=
        range_cells_head r0 r1 h01 _
      have hlst : (((List.range (r1 + 1 - r0)).map (r0 + ·)).map
          fun rr => (⟨t.id, name, rr⟩ : Element)).getLast? =
            some ⟨t.id, name, r1⟩ :=
        range_cells_last r0 r1 h01 _
      have hcc0 : colChar t sc ⟨t.id, name, r0⟩ = Char.ofNat (65 + (c + sc)) := by
        show Char.ofNat (65 + (t.columns.findIdx (· == name) + sc)) = _
        rw [hcidx]
      have hcc1 : colChar t sc ⟨t.id, name, r1⟩ = Char.ofNat (65 + (c + sc)) := by
        show Char.ofNat (65 + (t.columns.findIdx (· == name) + sc)) = _
        rw [hcidx]
      have htoks : primToksOf (colChar t sc) (rowNum sr)
          (CellExpr.SumCellsRef (((List.range (r1 + 1 - r0)).map (r0 + ·)).map
            fun rr => (⟨t.id, name, rr⟩ : Element))) =
          [Tok.sumKw, Tok.letter (Char.ofNat (65 + (c + sc))),
            Tok.num ((sr + r0 + 2 : ℕ) : ℚ) (some ((sr + r0 + 2 : ℕ) : ℤ)),
            Tok.colon, Tok.letter (Char.ofNat (65 + (c + sc))),
            Tok.num ((sr + r1 + 2 : ℕ) : ℚ) (some ((sr + r1 + 2 : ℕ) : ℤ)),
            Tok.rparen] := by
        show atomToks (colChar t sc) (rowNum sr)
            (CellExpr.SumCellsRef (((List.range (r1 + 1 - r0)).map (r0 + ·)).map
              fun rr => (⟨t.id, name, rr⟩ : Element))) = _
        rw [atomToks_sum _ _ _ _ _ hhd hlst, hcc0, hcc1]
        rfl
      have hP : ∀ fuel ts,
          cPrim (CellExpr.SumCellsRef (((List.range (r1 + 1 - r0)).map
            (r0 + ·)).map fun rr => (⟨t.id, name, rr⟩ : Element))) ≤ fuel →
          parsePrimary (readCtx t newId sr sc) fuel
            (primToksOf (colChar t sc) (rowNum sr)
              (CellExpr.SumCellsRef (((List.range (r1 + 1 - r0)).map
                (r0 + ·)).map fun rr => (⟨t.id, name, rr⟩ : Element))) ++ ts) =
            some ((CellExpr.SumCellsRef (((List.range (r1 + 1 - r0)).map
              (r0 + ·)).map fun rr => (⟨t.id, name, rr⟩ : Element))).renameElems
                (rekey t.id newId), ts) := by
        intro fuel ts hle
        rw [show cPrim (CellExpr.SumCellsRef (((List.range (r1 + 1 - r0)).map
          (r0 + ·)).map fun rr => (⟨t.id, name, rr⟩ : Element))) = 1
            from rfl] at hle
        obtain ⟨f, rfl⟩ : ∃ f, fuel = f + 1 := ⟨fuel - 1, by omega⟩
        have hPC0 := parseCellref_ok t newId sr sc hrect c name es hcol r0
          (by omega) hclt
          (Tok.colon :: Tok.letter (Char.ofNat (65 + (c + sc))) ::
            Tok.num ((sr + r1 + 2 : ℕ) : ℚ) (some ((sr + r1 + 2 : ℕ) : ℤ)) ::
            Tok.rparen :: ts)
        have hPC1 := parseCellref_ok t newId sr sc hrect c name es hcol r1
          (by omega) hclt (Tok.rparen :: ts)
        have hAgg := aggRange_read t newId c name hname r0 r1 h01 h1h
        rw [htoks]
        simp only [List.cons_append, List.nil_append, parsePrimary, hPC0, hPC1,
          hAgg, Option.map_some', CellExpr.renameElems, List.map_map]
        simp only [Function.comp_def, rekey_self]
      exact ⟨hP, atom_F_T (readCtx t newId sr sc)
        ((CellExpr.SumCellsRef (((List.range (r1 + 1 - r0)).map (r0 + ·)).map
          fun rr => (⟨t.id, name, rr⟩ : Element))).renameElems (rekey t.id newId))
        (factToksOf (colChar t sc) (rowNum sr)
          (CellExpr.SumCellsRef (((List.range (r1 + 1 - r0)).map (r0 + ·)).map
            fun rr => (⟨t.id, name, rr⟩ : Element)))) hP⟩
  | avg c name es hfind hcol r0 r1 h01 h1 =>
      obtain ⟨hclt', hcidx⟩ := List.findIdx?_eq_some_iff_findIdx_eq.1 hfind
      have hclt : c + sc < 26 := by
        have := columns_len_width t
        omega
      have hname : t.columns[c]? = some name :=
        columns_get_of_cols t c name es hcol
      have hht : es.length = t.height :=
        hrect _ (List.mem_iff_getElem?.2 ⟨c, hcol⟩)
      have h1h : r1 < t.height := by omega
      have hhd : (((List.range (r1 + 1 - r0)).map (r0 + ·)).map
          fun rr => (⟨t.id, name, rr⟩ : Element)).head? =
            some ⟨t.id, name, r0⟩ :=
        range_cells_head r0 r1 h01 _
      have hlst : (((List.range (r1 + 1 - r0)).map (r0 + ·)).map
          fun rr => (⟨t.id, name, rr⟩ : Element)).getLast? =
            some ⟨t.id, name, r1⟩ :=
        range_cells_last r0 r1 h01 _
      have hcc0 : colChar t sc ⟨t.id, name, r0⟩ = Char.ofNat (65 + (c + sc)) := by
        show Char.ofNat (65 + (t.columns.findIdx (· == name) + sc)) = _
        rw [hcidx]
      have hcc1 : colChar t sc ⟨t.id, name, r1⟩ = Char.ofNat (65 + (c + sc)) := by
        show Char.ofNat (65 + (t.columns.findIdx (· == name) + sc)) = _
        rw [hcidx]
      have htoks : primToksOf (colChar t sc) (rowNum sr)
          (CellExpr.AverageCellsRef (((List.range (r1 + 1 - r0)).map
            (r0 + ·)).map fun rr => (⟨t.id, name, rr⟩ : Element))) =
          [Tok.avgKw, Tok.letter (Char.ofNat (65 + (c + sc))),
            Tok.num ((sr + r0 + 2 : ℕ) : ℚ) (some ((sr + r0 + 2 : ℕ) : ℤ)),
            Tok.colon, Tok.letter (Char.ofNat (65 + (c + sc))),
            Tok.num ((sr + r1 + 2 : ℕ) : ℚ) (some ((sr + r1 + 2 : ℕ) : ℤ)),
            Tok.rparen] := by
        show atomToks (colChar t sc) (rowNum sr)
            (CellExpr.AverageCellsRef (((List.range (r1 + 1 - r0)).map
              (r0 + ·)).map fun rr => (⟨t.id, name, rr⟩ : Element))) = _
        rw [atomToks_avg _ _ _ _ _ hhd hlst, hcc0, hcc1]
        rfl
      have hP : ∀ fuel ts,
          cPrim (CellExpr.AverageCellsRef (((List.range (r1 + 1 - r0)).map
            (r0 + ·)).map fun rr => (⟨t.id, name, rr⟩ : Element))) ≤ fuel →
          parsePrimary (readCtx t newId sr sc) fuel
            (primToksOf (colChar t sc) (rowNum sr)
              (CellExpr.AverageCellsRef (((List.range (r1 + 1 - r0)).map
                (r0 + ·)).map fun rr => (⟨t.id, name, rr⟩ : Element))) ++ ts) =
            some ((CellExpr.AverageCellsRef (((List.range (r1 + 1 - r0)).map
              (r0 + ·)).map fun rr =>
                (⟨t.id, name, rr⟩ : Element))).renameElems
                (rekey t.id newId), ts) := by
        intro fuel ts hle
        rw [show cPrim (CellExpr.AverageCellsRef (((List.range (r1 + 1 - r0)).map
          (r0 + ·)).map fun rr => (⟨t.id, name, rr⟩ : Element))) = 1
            from rfl] at hle
        obtain ⟨f, rfl⟩ : ∃ f, fuel = f + 1 := ⟨fuel - 1, by omega⟩
        have hPC0 := parseCellref_ok t newId sr sc hrect c name es hcol r0
          (by omega) hclt
          (Tok.colon :: Tok.letter (Char.ofNat (65 + (c + sc))) ::
            Tok.num ((sr + r1 + 2 : ℕ) : ℚ) (some ((sr + r1 + 2 : ℕ) : ℤ)) ::
            Tok.rparen :: ts)
        have hPC1 := parseCellref_ok t newId sr sc hrect c name es hcol r1
          (by omega) hclt (Tok.rparen :: ts)
        have hAgg := aggRange_read t newId c name hname r0 r1 h01 h1h
        rw [htoks]
        simp only [List.cons_append, List.nil_append, parsePrimary, hPC0, hPC1,
          hAgg, Option.map_some', CellExpr.renameElems, List.map_map]
        simp only [Function.comp_def, rekey_self]
      exact ⟨hP, atom_F_T (readCtx t newId sr sc)
        ((CellExpr.AverageCellsRef (((List.range (r1 + 1 - r0)).map
          (r0 + ·)).map fun rr =>
            (⟨t.id, name, rr⟩ : Element))).renameElems (rekey t.id newId))
        (factToksOf (colChar t sc) (rowNum sr)
          (CellExpr.AverageCellsRef (((List.range (r1 + 1 - r0)).map
            (r0 + ·)).map fun rr => (⟨t.id, name, rr⟩ : Element)))) hP⟩
  | @mult l r hl hrr ihl ihr =>
      have hF : ∀ fuelLoop fuel ts res, cFact (CellExpr.Mult l r) + fuelLoop ≤ fuel →
          factorLoop (readCtx t newId sr sc) fuelLoop
            ((CellExpr.Mult l r).renameElems (rekey t.id newId)) ts = some res →
          parseFactor (readCtx t newId sr sc) fuel
            (factToksOf (colChar t sc) (rowNum sr) (CellExpr.Mult l r) ++ ts) =
            some res := by
        intro fuelLoop fuel ts res hle h
        rw [show cFact (CellExpr.Mult l r) = cFact l + cPrim r + 1 from rfl] at hle
        have htk : factToksOf (colChar t sc) (rowNum sr) (CellExpr.Mult l r) ++ ts
            = factToksOf (colChar t sc) (rowNum sr) l ++
              (Tok.star :: (primToksOf (colChar t sc) (rowNum sr) r ++ ts)) := by
          show (factToksOf (colChar t sc) (rowNum sr) l ++ [Tok.star] ++
            primToksOf (colChar t sc) (rowNum sr) r) ++ ts = _
          simp
        rw [htk]
        refine ihl.2.1 (cPrim r + fuelLoop + 1) fuel _ res (by omega) ?_
        have hPr : parsePrimary (readCtx t newId sr sc) (cPrim r + fuelLoop)
            (primToksOf (colChar t sc) (rowNum sr) r ++ ts) =
            some (r.renameElems (rekey t.id newId), ts) :=
          ihr.1 _ ts (by omega)
        simp only [factorLoop, hPr]
        rw [show (CellExpr.Mult l r).renameElems (rekey t.id newId) =
          CellExpr.Mult (l.renameElems (rekey t.id newId))
            (r.renameElems (rekey t.id newId)) from rfl] at h
        exact factorLoop_mono (readCtx t newId sr sc) (by omega) h
      have hT : ∀ fuelLoop fuel ts res, cTerm (CellExpr.Mult l r) + fuelLoop ≤ fuel →
          tsBdry ts →
          termLoop (readCtx t newId sr sc) fuelLoop
            ((CellExpr.Mult l r).renameElems (rekey t.id newId)) ts = some res →
          parseTerm (readCtx t newId sr sc) fuel
            (exprToks (colChar t sc) (rowNum sr) (CellExpr.Mult l r) ++ ts) =
            some res := by
        intro fuelLoop fuel ts res hle hb h
        rw [show cTerm (CellExpr.Mult l r) = cFact l + cPrim r + 1 + 2
          from rfl] at hle
        obtain ⟨g, rfl⟩ : ∃ g, fuel = g + 1 := ⟨fuel - 1, by omega⟩
        have hstep : parseFactor (readCtx t newId sr sc) g
            (factToksOf (colChar t sc) (rowNum sr) (CellExpr.Mult l r) ++ ts) =
            some ((CellExpr.Mult l r).renameElems (rekey t.id newId), ts) :=
          hF 1 g ts _
            (by rw [show cFact (CellExpr.Mult l r) = cFact l + cPrim r + 1
              from rfl]; omega)
            (factorLoop_stop (readCtx t newId sr sc) _ ts hb)
        show parseTerm (readCtx t newId sr sc) (g + 1)
            (factToksOf (colChar t sc) (rowNum sr) (CellExpr.Mult l r) ++ ts) =
          some res
        simp only [parseTerm, hstep]
        exact termLoop_mono (readCtx t newId sr sc) (by omega) h
      have hP : ∀ fuel ts, cPrim (CellExpr.Mult l r) ≤ fuel →
          parsePrimary (readCtx t newId sr sc) fuel
            (primToksOf (colChar t sc) (rowNum sr) (CellExpr.Mult l r) ++ ts) =
            some ((CellExpr.Mult l r).renameElems (rekey t.id newId), ts) := by
        intro fuel ts hle
        rw [show cPrim (CellExpr.Mult l r) = cFact l + cPrim r + 1 + 4
          from rfl] at hle
        obtain ⟨g, rfl⟩ : ∃ g, fuel = g + 1 := ⟨fuel - 1, by omega⟩
        have hstep : parseTerm (readCtx t newId sr sc) g
            (exprToks (colChar t sc) (rowNum sr) (CellExpr.Mult l r) ++
              (Tok.rparen :: ts)) =
            some ((CellExpr.Mult l r).renameElems (rekey t.id newId),
              Tok.rparen :: ts) :=
          hT 1 g (Tok.rparen :: ts) _
            (by rw [show cTerm (CellExpr.Mult l r) = cFact l + cPrim r + 1 + 2
              from rfl]; omega)
            trivial (termLoop_stop (readCtx t newId sr sc) _ _ trivial)
        have htk : primToksOf (colChar t sc) (rowNum sr) (CellExpr.Mult l r) ++ ts
            = Tok.lparen :: (exprToks (colChar t sc) (rowNum sr)
              (CellExpr.Mult l r) ++ (Tok.rparen :: ts)) := by
          show (Tok.lparen :: (exprToks (colChar t sc) (rowNum sr)
            (CellExpr.Mult l r) ++ [Tok.rparen])) ++ ts = _
          simp
        rw [htk]
        simp only [parsePrimary, hstep]
      exact ⟨hP, hF, hT⟩
  | @div l r hl hrr ihl ihr =>
      have hF : ∀ fuelLoop fuel ts res, cFact (CellExpr.Div l r) + fuelLoop ≤ fuel →
          factorLoop (readCtx t newId sr sc) fuelLoop
            ((CellExpr.Div l r).renameElems (rekey t.id newId)) ts = some res →
          parseFactor (readCtx t newId sr sc) fuel
            (factToksOf (colChar t sc) (rowNum sr) (CellExpr.Div l r) ++ ts) =
            some res := by
        intro fuelLoop fuel ts res hle h
        rw [show cFact (CellExpr.Div l r) = cFact l + cPrim r + 1 from rfl] at hle
        have htk : factToksOf (colChar t sc) (rowNum sr) (CellExpr.Div l r) ++ ts
            = factToksOf (colChar t sc) (rowNum sr) l ++
              (Tok.slash :: (primToksOf (colChar t sc) (rowNum sr) r ++ ts)) := by
          show (factToksOf (colChar t sc) (rowNum sr) l ++ [Tok.slash] ++
            primToksOf (colChar t sc) (rowNum sr) r) ++ ts = _
          simp
        rw [htk]
        refine ihl.2.1 (cPrim r + fuelLoop + 1) fuel _ res (by omega) ?_
        have hPr : parsePrimary (readCtx t newId sr sc) (cPrim r + fuelLoop)
            (primToksOf (colChar t sc) (rowNum sr) r ++ ts) =
            some (r.renameElems (rekey t.id newId), ts) :=
          ihr.1 _ ts (by omega)
        simp only [factorLoop, hPr]
        rw [show (CellExpr.Div l r).renameElems (rekey t.id newId) =
          CellExpr.Div (l.renameElems (rekey t.id newId))
            (r.renameElems (rekey t.id newId)) from rfl] at h
        exact factorLoop_mono (readCtx t newId sr sc) (by omega) h
      have hT : ∀ fuelLoop fuel ts res, cTerm (CellExpr.Div l r) + fuelLoop ≤ fuel →
          tsBdry ts →
          termLoop (readCtx t newId sr sc) fuelLoop
            ((CellExpr.Div l r).renameElems (rekey t.id newId)) ts = some res →
          parseTerm (readCtx t newId sr sc) fuel
            (exprToks (colChar t sc) (rowNum sr) (CellExpr.Div l r) ++ ts) =
            some res := by
        intro fuelLoop fuel ts res hle hb h
        rw [show cTerm (CellExpr.Div l r) = cFact l + cPrim r + 1 + 2
          from rfl] at hle
        obtain ⟨g, rfl⟩ : ∃ g, fuel = g + 1 := ⟨fuel - 1, by omega⟩
        have hstep : parseFactor (readCtx t newId sr sc) g
            (factToksOf (colChar t sc) (rowNum sr) (CellExpr.Div l r) ++ ts) =
            some ((CellExpr.Div l r).renameElems (rekey t.id newId), ts) :=
          hF 1 g ts _
            (by rw [show cFact (CellExpr.Div l r) = cFact l + cPrim r + 1
              from rfl]; omega)
            (factorLoop_stop (readCtx t newId sr sc) _ ts hb)
        show parseTerm (readCtx t newId sr sc) (g + 1)
            (factToksOf (colChar t sc) (rowNum sr) (CellExpr.Div l r) ++ ts) =
          some res
        simp only [parseTerm, hstep]
        exact termLoop_mono (readCtx t newId sr sc) (by omega) h
      have hP : ∀ fuel ts, cPrim (CellExpr.Div l r) ≤ fuel →
          parsePrimary (readCtx t newId sr sc) fuel
            (primToksOf (colChar t sc) (rowNum sr) (CellExpr.Div l r) ++ ts) =
            some ((CellExpr.Div l r).renameElems (rekey t.id newId), ts) := by
        intro fuel ts hle
        rw [show cPrim (CellExpr.Div l r) = cFact l + cPrim r + 1 + 4
          from rfl] at hle
        obtain ⟨g, rfl⟩ : ∃ g, fuel = g + 1 := ⟨fuel - 1, by omega⟩
        have hstep : parseTerm (readCtx t newId sr sc) g
            (exprToks (colChar t sc) (rowNum sr) (CellExpr.Div l r) ++
              (Tok.rparen :: ts)) =
            some ((CellExpr.Div l r).renameElems (rekey t.id newId),
              Tok.rparen :: ts) :=
          hT 1 g (Tok.rparen :: ts) _
            (by rw [show cTerm (CellExpr.Div l r) = cFact l + cPrim r + 1 + 2
              from rfl]; omega)
            trivial (termLoop_stop (readCtx t newId sr sc) _ _ trivial)
        have htk : primToksOf (colChar t sc) (rowNum sr) (CellExpr.Div l r) ++ ts
            = Tok.lparen :: (exprToks (colChar t sc) (rowNum sr)
              (CellExpr.Div l r) ++ (Tok.rparen :: ts)) := by
          show (Tok.lparen :: (exprToks (colChar t sc) (rowNum sr)
            (CellExpr.Div l r) ++ [Tok.rparen])) ++ ts = _
          simp
        rw [htk]
        simp only [parsePrimary, hstep]
      exact ⟨hP, hF, hT⟩
  | @add l r hl hrr ihl ihr =>
      have hT : ∀ fuelLoop fuel ts res, cTerm (CellExpr.Add l r) + fuelLoop ≤ fuel →
          tsBdry ts →
          termLoop (readCtx t newId sr sc) fuelLoop
            ((CellExpr.Add l r).renameElems (rekey t.id newId)) ts = some res →
          parseTerm (readCtx t newId sr sc) fuel
            (exprToks (colChar t sc) (rowNum sr) (CellExpr.Add l r) ++ ts) =
            some res := by
        intro fuelLoop fuel ts res hle hb h
        rw [show cTerm (CellExpr.Add l r) = cTerm l + cFact r + 2 from rfl] at hle
        have htk : exprToks (colChar t sc) (rowNum sr) (CellExpr.Add l r) ++ ts
            = exprToks (colChar t sc) (rowNum sr) l ++
              (Tok.plus :: (factToksOf (colChar t sc) (rowNum sr) r ++ ts)) := by
          show (exprToks (colChar t sc) (rowNum sr) l ++ [Tok.plus] ++
            factToksOf (colChar t sc) (rowNum sr) r) ++ ts = _
          simp
        rw [htk]
        refine ihl.2.2 (cFact r + fuelLoop + 1 + 1) fuel _ res (by omega)
          trivial ?_
        have hFr : parseFactor (readCtx t newId sr sc) (cFact r + fuelLoop + 1)
            (factToksOf (colChar t sc) (rowNum sr) r ++ ts) =
            some (r.renameElems (rekey t.id newId), ts) :=
          ihr.2.1 1 _ ts _ (by omega)
            (factorLoop_stop (readCtx t newId sr sc) _ ts hb)
        simp only [termLoop, hFr]
        rw [show (CellExpr.Add l r).renameElems (rekey t.id newId) =
          CellExpr.Add (l.renameElems (rekey t.id newId))
            (r.renameElems (rekey t.id newId)) from rfl] at h
        exact termLoop_mono (readCtx t newId sr sc) (by omega) h
      have hP : ∀ fuel ts, cPrim (CellExpr.Add l r) ≤ fuel →
          parsePrimary (readCtx t newId sr sc) fuel
            (primToksOf (colChar t sc) (rowNum sr) (CellExpr.Add l r) ++ ts) =
            some ((CellExpr.Add l r).renameElems (rekey t.id newId), ts) := by
        intro fuel ts hle
        rw [show cPrim (CellExpr.Add l r) = cTerm l + cFact r + 2 + 2
          from rfl] at hle
        obtain ⟨g, rfl⟩ : ∃ g, fuel = g + 1 := ⟨fuel - 1, by omega⟩
        have hstep : parseTerm (readCtx t newId sr sc) g
            (exprToks (colChar t sc) (rowNum sr) (CellExpr.Add l r) ++
              (Tok.rparen :: ts)) =
            some ((CellExpr.Add l r).renameElems (rekey t.id newId),
              Tok.rparen :: ts) :=
          hT 1 g (Tok.rparen :: ts) _
            (by rw [show cTerm (CellExpr.Add l r) = cTerm l + cFact r + 2
              from rfl]; omega)
            trivial (termLoop_stop (readCtx t newId sr sc) _ _ trivial)
        have htk : primToksOf (colChar t sc) (rowNum sr) (CellExpr.Add l r) ++ ts
            = Tok.lparen :: (exprToks (colChar t sc) (rowNum sr)
              (CellExpr.Add l r) ++ (Tok.rparen :: ts)) := by
          show (Tok.lparen :: (exprToks (colChar t sc) (rowNum sr)
            (CellExpr.Add l r) ++ [Tok.rparen])) ++ ts = _
          simp
        rw [htk]
        simp only [parsePrimary, hstep]
      have hF : ∀ fuelLoop fuel ts res, cFact (CellExpr.Add l r) + fuelLoop ≤ fuel →
          factorLoop (readCtx t newId sr sc) fuelLoop
            ((CellExpr.Add l r).renameElems (rekey t.id newId)) ts = some res →
          parseFactor (readCtx t newId sr sc) fuel
            (factToksOf (colChar t sc) (rowNum sr) (CellExpr.Add l r) ++ ts) =
            some res := by
        intro fuelLoop fuel ts res hle h
        rw [show cFact (CellExpr.Add l r) = cTerm l + cFact r + 2 + 3
          from rfl] at hle
        obtain ⟨g, rfl⟩ : ∃ g, fuel = g + 1 := ⟨fuel - 1, by omega⟩
        have hPs : parsePrimary (readCtx t newId sr sc) g
            (primToksOf (colChar t sc) (rowNum sr) (CellExpr.Add l r) ++ ts) =
            some ((CellExpr.Add l r).renameElems (rekey t.id newId), ts) :=
          hP g ts (by rw [show cPrim (CellExpr.Add l r) = cTerm l + cFact r + 2 + 2
            from rfl]; omega)
        show parseFactor (readCtx t newId sr sc) (g + 1)
            (primToksOf (colChar t sc) (rowNum sr) (CellExpr.Add l r) ++ ts) =
          some res
        simp only [parseFactor, hPs]
        exact factorLoop_mono (readCtx t newId sr sc) (by omega) h
      exact ⟨hP, hF, hT⟩
  | @sub l r hl hrr ihl ihr =>
      have hT : ∀ fuelLoop fuel ts res, cTerm (CellExpr.Sub l r) + fuelLoop ≤ fuel →
          tsBdry ts →
          termLoop (readCtx t newId sr sc) fuelLoop
            ((CellExpr.Sub l r).renameElems (rekey t.id newId)) ts = some res →
          parseTerm (readCtx t newId sr sc) fuel
            (exprToks (colChar t sc) (rowNum sr) (CellExpr.Sub l r) ++ ts) =
            some res := by
        intro fuelLoop fuel ts res hle hb h
        rw [show cTerm (CellExpr.Sub l r) = cTerm l + cFact r + 2 from rfl] at hle
        have htk : exprToks (colChar t sc) (rowNum sr) (CellExpr.Sub l r) ++ ts
            = exprToks (colChar t sc) (rowNum sr) l ++
              (Tok.minus :: (factToksOf (colChar t sc) (rowNum sr) r ++ ts)) := by
          show (exprToks (colChar t sc) (rowNum sr) l ++ [Tok.minus] ++
            factToksOf (colChar t sc) (rowNum sr) r) ++ ts = _
          simp
        rw [htk]
        refine ihl.2.2 (cFact r + fuelLoop + 1 + 1) fuel _ res (by omega)
          trivial ?_
        have hFr : parseFactor (readCtx t newId sr sc) (cFact r + fuelLoop + 1)
            (factToksOf (colChar t sc) (rowNum sr) r ++ ts) =
            some (r.renameElems (rekey t.id newId), ts) :=
          ihr.2.1 1 _ ts _ (by omega)
            (factorLoop_stop (readCtx t newId sr sc) _ ts hb)
        simp only [termLoop, hFr]
        rw [show (CellExpr.Sub l r).renameElems (rekey t.id newId) =
          CellExpr.Sub (l.renameElems (rekey t.id newId))
            (r.renameElems (rekey t.id newId)) from rfl] at h
        exact termLoop_mono (readCtx t newId sr sc) (by omega) h
      have hP : ∀ fuel ts, cPrim (CellExpr.Sub l r) ≤ fuel →
          parsePrimary (readCtx t newId sr sc) fuel
            (primToksOf (colChar t sc) (rowNum sr) (CellExpr.Sub l r) ++ ts) =
            some ((CellExpr.Sub l r).renameElems (rekey t.id newId), ts) := by
        intro fuel ts hle
        rw [show cPrim (CellExpr.Sub l r) = cTerm l + cFact r + 2 + 2
          from rfl] at hle
        obtain ⟨g, rfl⟩ : ∃ g, fuel = g + 1 := ⟨fuel - 1, by omega⟩
        have hstep : parseTerm (readCtx t newId sr sc) g
            (exprToks (colChar t sc) (rowNum sr) (CellExpr.Sub l r) ++
              (Tok.rparen :: ts)) =
            some ((CellExpr.Sub l r).renameElems (rekey t.id newId),
              Tok.rparen :: ts) :=
          hT 1 g (Tok.rparen :: ts) _
            (by rw [show cTerm (CellExpr.Sub l r) = cTerm l + cFact r + 2
              from rfl]; omega)
            trivial (termLoop_stop (readCtx t newId sr sc) _ _ trivial)
        have htk : primToksOf (colChar t sc) (rowNum sr) (CellExpr.Sub l r) ++ ts
            = Tok.lparen :: (exprToks (colChar t sc) (rowNum sr)
              (CellExpr.Sub l r) ++ (Tok.rparen :: ts)) := by
          show (Tok.lparen :: (exprToks (colChar t sc) (rowNum sr)
            (CellExpr.Sub l r) ++ [Tok.rparen])) ++ ts = _
          simp
        rw [htk]
        simp only [parsePrimary, hstep]
      have hF : ∀ fuelLoop fuel ts res, cFact (CellExpr.Sub l r) + fuelLoop ≤ fuel →
          factorLoop (readCtx t newId sr sc) fuelLoop
            ((CellExpr.Sub l r).renameElems (rekey t.id newId)) ts = some res →
          parseFactor (readCtx t newId sr sc) fuel
            (factToksOf (colChar t sc) (rowNum sr) (CellExpr.Sub l r) ++ ts) =
            some res := by
        intro fuelLoop fuel ts res hle h
        rw [show cFact (CellExpr.Sub l r) = cTerm l + cFact r + 2 + 3
          from rfl] at hle
        obtain ⟨g, rfl⟩ : ∃ g, fuel = g + 1 := ⟨fuel - 1, by omega⟩
        have hPs : parsePrimary (readCtx t newId sr sc) g
            (primToksOf (colChar t sc) (rowNum sr) (CellExpr.Sub l r) ++ ts) =
            some ((CellExpr.Sub l r).renameElems (rekey t.id newId), ts) :=
          hP g ts (by rw [show cPrim (CellExpr.Sub l r) = cTerm l + cFact r + 2 + 2
            from rfl]; omega)
        show parseFactor (readCtx t newId sr sc) (g + 1)
            (primToksOf (colChar t sc) (rowNum sr) (CellExpr.Sub l r) ++ ts) =
          some res
        simp only [parseFactor, hPs]
        exact factorLoop_mono (readCtx t newId sr sc) (by omega) h
      exact ⟨hP, hF, hT⟩

theorem renameCompute (t : ExcelFrame) (newId : ℕ) (stW stR : Store)
    (hst : ∀ nm i, stR ⟨newId, nm, i⟩ = stW ⟨t.id, nm, i⟩)
    {e : CellExpr} (hsub : SubsetOK t e) :
    (e.renameElems (rekey t.id newId)).compute stR = e.compute stW := by
  induction hsub with
  | const q hq => rfl
  | ref c r name es hfind hcol hr =>
      show stR (rekey t.id newId ⟨t.id, name, r⟩) = stW ⟨t.id, name, r⟩
      rw [rekey_self]
      exact hst name r
  | sum c name es hfind hcol r0 r1 h01 h1 =>
      simp only [CellExpr.renameElems, CellExpr.compute, List.map_map]
      simp only [Function.comp_def, rekey_self, hst]
  | avg c name es hfind hcol r0 r1 h01 h1 =>
      simp only [CellExpr.renameElems, CellExpr.compute, List.map_map,
        List.length_map]
      simp only [Function.comp_def, rekey_self, hst]
  | @add l r hl hrr ihl ihr =>
      simp only [CellExpr.renameElems, CellExpr.compute, ihl, ihr]
  | @sub l r hl hrr ihl ihr =>
      simp only [CellExpr.renameElems, CellExpr.compute, ihl, ihr]
  | @mult l r hl hrr ihl ihr =>
      simp only [CellExpr.renameElems, CellExpr.compute, ihl, ihr]
  | @div l r hl hrr ihl ihr =>
      simp only [CellExpr.renameElems, CellExpr.compute, ihl, ihr]

theorem mem_takeWhile_pred (p : Char → Bool) (cs : List Char) (x : Char)
    (h : x ∈ cs.takeWhile p) : p x = true := by
  induction cs with
  | nil => exact absurd h (by simp)
  | cons c cs ih =>
      rw [List.takeWhile_cons] at h
      by_cases hp : p c
      · rw [if_pos hp] at h
        rcases List.mem_cons.1 h with rfl | h
        · exact hp
        · exact ih h
      · rw [if_neg hp] at h
        exact absurd h (by simp)

theorem drop_takeWhile_len (p : Char → Bool) (cs : List Char) :
    cs.drop (cs.takeWhile p).length = cs.dropWhile p := by
  induction cs with
  | nil => rfl
  | cons c cs ih =>
      by_cases h : p c
      · simp [List.takeWhile_cons, List.dropWhile_cons, h, ih]
      · simp [List.takeWhile_cons, List.dropWhile_cons, h]

theorem space_mem_dropWhile_digit (cs : List Char) (hm : ' ' ∈ cs) :
    ' ' ∈ cs.dropWhile Char.isDigit := by
  have h2 : ' ' ∈ cs.takeWhile Char.isDigit ++ cs.dropWhile Char.isDigit := by
    rw [List.takeWhile_append_dropWhile]
    exact hm
  rcases List.mem_append.1 h2 with h | h
  · exact absurd (mem_takeWhile_pred _ _ _ h) (by decide)
  · exact h

theorem parseExpPart_space (cs : List Char) (hm : ' ' ∈ cs) :
    parseExpPart cs = none := by
  match cs with
  | [] => exact absurd hm (by simp)
  | c :: rest =>
      show parseExpPart (c :: rest) = none
      unfold parseExpPart
      show (if c = 'e' ∨ c = 'E' then
          match rest with
          | '+' :: ds =>
              if ds ≠ [] ∧ ds.all Char.isDigit = true then
                some ((10 : ℚ) ^ digitsVal ds) else none
          | '-' :: ds =>
              if ds ≠ [] ∧ ds.all Char.isDigit = true then
                some (1 / (10 : ℚ) ^ digitsVal ds) else none
          | ds =>
              if ds ≠ [] ∧ ds.all Char.isDigit = true then
                some ((10 : ℚ) ^ digitsVal ds) else none
        else none) = none
      by_cases hc : c = 'e' ∨ c = 'E'
      · rw [if_pos hc]
        have hcsp : c ≠ ' ' := by
          rcases hc with h | h <;> (rw [h]; decide)
        have hrest : ' ' ∈ rest := by
          rcases List.mem_cons.1 hm with h | h
          · exact absurd h.symm hcsp
          · exact h
        split
        · rename_i ds
          rw [if_neg]
          rintro ⟨-, hall⟩
          have hds : ' ' ∈ ds := by
            rcases List.mem_cons.1 hrest with h | h
            · exact absurd h (by decide)
            · exact h
          exact absurd (List.all_eq_true.1 hall ' ' hds) (by decide)
        · rename_i ds
          rw [if_neg]
          rintro ⟨-, hall⟩
          have hds : ' ' ∈ ds := by
            rcases List.mem_cons.1 hrest with h | h
            · exact absurd h (by decide)
            · exact h
          exact absurd (List.all_eq_true.1 hall ' ' hds) (by decide)
        · rw [if_neg]
          rintro ⟨-, hall⟩
          have := List.all_eq_true.1 hall ' ' hrest
          exact absurd this (by decide)
      · rw [if_neg hc]

theorem parseFloatBody_space (cs : List Char) (hm : ' ' ∈ cs) :
    parseFloatBody cs = none := by
  have hsp : ' ' ∈ cs.dropWhile Char.isDigit := space_mem_dropWhile_digit cs hm
  simp only [parseFloatBody]
  rw [drop_takeWhile_len]
  split
  · rename_i r2 heq
    rw [drop_takeWhile_len]
    have hr2 : ' ' ∈ r2 := by
      rw [heq] at hsp
      rcases List.mem_cons.1 hsp with h | h
      · exact absurd h (by decide)
      · exact h
    rw [parseExpPart_space _ (space_mem_dropWhile_digit r2 hr2)]
    simp
  · rw [parseExpPart_space _ hsp]
    simp

theorem pyFloatUnsigned_space (cs : List Char) (neg : Bool) (hm : ' ' ∈ cs) :
    pyFloatUnsigned cs neg = none := by
  have hlow : ' ' ∈ cs.map Char.toLower := List.mem_map.2 ⟨' ', hm, by decide⟩
  have hA : ¬(cs.map Char.toLower = "inf".data ∨
      cs.map Char.toLower = "infinity".data) := by
    rintro (h | h) <;> (rw [h] at hlow; exact absurd hlow (by decide))
  have hB : ¬(cs.map Char.toLower = "nan".data) := by
    intro h
    rw [h] at hlow
    exact absurd hlow (by decide)
  unfold pyFloatUnsigned
  rw [if_neg hA, if_neg hB, parseFloatBody_space cs hm]
  rfl

theorem pyFloatCore_space (cs : List Char) (hm : ' ' ∈ cs) :
    pyFloatCore cs = none := by
  unfold pyFloatCore
  split
  · rename_i rest
    apply pyFloatUnsigned_space
    rcases List.mem_cons.1 hm with h | h
    · exact absurd h (by decide)
    · exact h
  · rename_i rest
    apply pyFloatUnsigned_space
    rcases List.mem_cons.1 hm with h | h
    · exact absurd h (by decide)
    · exact h
  · exact pyFloatUnsigned_space _ _ hm

theorem strip_keeps_space (l1 l2 : List Char) (d : Char) (hd : d ∈ l2)
    (hds : d ≠ ' ') :
    ' ' ∈ ((l1 ++ ' ' :: l2).reverse.dropWhile (· = ' ')).reverse := by
  have hrev : (l1 ++ ' ' :: l2).reverse = l2.reverse ++ ' ' :: l1.reverse := by
    simp
  rw [hrev]
  have hne : l2.reverse.dropWhile (fun c => decide (c = ' ')) ≠ [] := by
    intro h
    have hall := List.dropWhile_eq_nil_iff.1 h d (List.mem_reverse.2 hd)
    exact hds (of_decide_eq_true hall)
  rw [List.dropWhile_append]
  rw [if_neg (by
    intro h
    exact hne (List.isEmpty_iff.1 h))]
  simp

theorem pyFloat_op_none (s : String) (l1 l2 : List Char) (h c : Char)
    (hs : s.data = h :: l1 ++ ' ' :: l2) (hh : h ≠ ' ') (hcm : c ∈ l2)
    (hc : c ≠ ' ') :
    pyFloat? s = none := by
  unfold pyFloat?
  rw [hs]
  rw [show (h :: l1 ++ ' ' :: l2).dropWhile (· = ' ') = h :: l1 ++ ' ' :: l2 by
    rw [List.cons_append, List.dropWhile_cons, if_neg (by simpa using hh)]]
  apply pyFloatCore_space
  exact strip_keeps_space (h :: l1) l2 c hcm hc

theorem dropWhile_space_id (cs : List Char) (h : ' ' ∉ cs) :
    cs.dropWhile (· = ' ') = cs := by
  rcases cs with _ | ⟨c, rest⟩
  · rfl
  · rw [List.dropWhile_cons, if_neg]
    simp only [decide_eq_true_eq]
    intro he
    exact h (he ▸ List.mem_cons_self c rest)

theorem strip_no_space (cs : List Char) (h : ' ' ∉ cs) :
    ((cs.dropWhile (· = ' ')).reverse.dropWhile (· = ' ')).reverse = cs := by
  rw [dropWhile_space_id cs h,
    dropWhile_space_id cs.reverse (by simpa using h), List.reverse_reverse]

theorem digit_toLower (c : Char) (h : c.isDigit = true) : c.toLower = c := by
  have hle : c.toNat ≤ 57 := by
    simp only [Char.isDigit, Bool.and_eq_true, decide_eq_true_eq] at h
    exact h.2
  unfold Char.toLower
  rw [if_neg]
  intro hand
  omega

theorem parseFloatBody_nondigit (c : Char) (cs : List Char)
    (hd : c.isDigit = false) (hdot : c ≠ '.') :
    parseFloatBody (c :: cs) = none := by
  simp only [parseFloatBody]
  rw [List.takeWhile_cons, if_neg (by simp [hd])]
  simp only [List.length_nil, List.drop_zero]
  split
  · rename_i r2 heq
    injection heq with h1 h2
    exact absurd h1 hdot
  · rw [if_pos trivial]

theorem pyFloatUnsigned_two (c1 c2 : Char) (rest : List Char)
    (h1d : c1.isDigit = false) (h1dot : c1 ≠ '.')
    (h2n : c2.toLower ≠ 'n') (h2a : c2.toLower ≠ 'a') :
    pyFloatUnsigned (c1 :: c2 :: rest) false = none := by
  have hA : ¬((c1 :: c2 :: rest).map Char.toLower = "inf".data ∨
      (c1 :: c2 :: rest).map Char.toLower = "infinity".data) := by
    rintro (h | h) <;>
    · simp only [List.map_cons] at h
      injection h with ha hb
      injection hb with hb1 hb2
      exact h2n hb1
  have hB : ¬((c1 :: c2 :: rest).map Char.toLower = "nan".data) := by
    intro h
    simp only [List.map_cons] at h
    injection h with ha hb
    injection hb with hb1 hb2
    exact h2a hb1
  unfold pyFloatUnsigned
  rw [if_neg hA, if_neg hB, parseFloatBody_nondigit c1 _ h1d h1dot]
  rfl

theorem pyFloat_letterhead_none (s : String) (c1 c2 : Char) (rest : List Char)
    (hdata : s.data = c1 :: c2 :: rest) (hns : ' ' ∉ s.data)
    (h1p : c1 ≠ '+') (h1m : c1 ≠ '-') (h1d : c1.isDigit = false)
    (h1dot : c1 ≠ '.') (h2n : c2.toLower ≠ 'n') (h2a : c2.toLower ≠ 'a') :
    pyFloat? s = none := by
  unfold pyFloat?
  rw [hdata] at hns ⊢
  rw [strip_no_space _ hns]
  unfold pyFloatCore
  split
  · rename_i rs heq
    injection heq with ha hb
    exact absurd ha h1p
  · rename_i rs heq
    injection heq with ha hb
    exact absurd ha h1m
  · exact pyFloatUnsigned_two c1 c2 rest h1d h1dot h2n h2a

theorem space_not_in_addr (n k : ℕ) (hn : n < 26) :
    ' ' ∉ Char.ofNat (65 + n) :: natToDigits k := by
  intro hmem
  obtain ⟨hsp, -⟩ := upper_char_facts n hn
  rcases List.mem_cons.1 hmem with h | h
  · exact hsp h.symm
  · exact absurd (natToDigits_all_digits _ ' ' h) (by decide)

theorem renderFloatNone (t : ExcelFrame) (sr sc : ℕ) (hcols : sc + t.width ≤ 26)
    {e : CellExpr} (hsub : SubsetOK t e) (s : String)
    (hf : e.to_formula (writeMapping t sr sc) true = .ok (.str s)) :
    pyFloat? s = none := by
  cases hsub with
  | const q hq =>
      rw [show (CellExpr.Constant (some (.num q))).to_formula
        (writeMapping t sr sc) true = .ok (.val (some (.num q))) from rfl] at hf
      injection hf with h1
      exact RawInput.noConfusion h1
  | ref c r name es hfind hcol hr =>
      obtain ⟨hclt', hcidx⟩ := List.findIdx?_eq_some_iff_findIdx_eq.1 hfind
      have hclt : c + sc < 26 := by
        have := columns_len_width t
        omega
      have hform : (CellExpr.CellRef ⟨t.id, name, r⟩).to_formula
          (writeMapping t sr sc) true =
          .ok (.str (int_to_alpha (c + sc) ++ natToStr (sr + r + 2))) := by
        show (get_cell_mapping ⟨t.id, name, r⟩ (writeMapping t sr sc) true).map
          RawInput.str = _
        rw [get_cell_mapping_write t sr sc name r c hfind]
        rfl
      rw [hform] at hf
      injection hf with h1
      injection h1 with h2
      subst h2
      have hdata := address_data sr sc r c hclt
      obtain ⟨hsp, hdig, hdot, hplus, hminus, -, -, -, -, -, -, -, -⟩ :=
        upper_char_facts (c + sc) hclt
      rcases hnd : natToDigits (sr + r + 2) with _ | ⟨d, ds⟩
      · exact absurd hnd (natToDigits_ne_nil _)
      · have hdd : d.isDigit = true := natToDigits_all_digits _ d
          (by rw [hnd]; exact List.mem_cons_self _ _)
        refine pyFloat_letterhead_none _ (Char.ofNat (65 + (c + sc))) d ds
          (by rw [hdata, hnd]) ?_ hplus hminus hdig hdot ?_ ?_
        · rw [hdata]
          exact space_not_in_addr (c + sc) (sr + r + 2) hclt
        · rw [digit_toLower d hdd]
          intro hh
          rw [hh] at hdd
          exact absurd hdd (by decide)
        · rw [digit_toLower d hdd]
          intro hh
          rw [hh] at hdd
          exact absurd hdd (by decide)
  | sum c name es hfind hcol r0 r1 h01 h1 =>
      obtain ⟨hclt', hcidx⟩ := List.findIdx?_eq_some_iff_findIdx_eq.1 hfind
      have hclt : c + sc < 26 := by
        have := columns_len_width t
        omega
      have hheadq := range_cells_head r0 r1 h01 (fun rr => ⟨t.id, name, rr⟩)
      have hlastq := range_cells_last r0 r1 h01 (fun rr => ⟨t.id, name, rr⟩)
      have hform : (CellExpr.SumCellsRef (((List.range (r1 + 1 - r0)).map
          (r0 + ·)).map (fun rr => (⟨t.id, name, rr⟩ : Element)))).to_formula
          (writeMapping t sr sc) true =
          .ok (.str ("SUM(" ++ (int_to_alpha (c + sc) ++ natToStr (sr + r0 + 2)) ++
            ":" ++ (int_to_alpha (c + sc) ++ natToStr (sr + r1 + 2)) ++ ")")) := by
        rw [to_formula_sum _ _ _ _ _ hheadq hlastq,
          get_cell_mapping_write t sr sc name r0 c hfind, except_ok_bind,
          get_cell_mapping_write t sr sc name r1 c hfind, except_ok_bind]
        rfl
      rw [hform] at hf
      injection hf with h1
      injection h1 with h2
      subst h2
      have hsdata : ("SUM(" ++ (int_to_alpha (c + sc) ++ natToStr (sr + r0 + 2)) ++
          ":" ++ (int_to_alpha (c + sc) ++ natToStr (sr + r1 + 2)) ++ ")").data =
          "SUM(".data ++
            ((Char.ofNat (65 + (c + sc)) :: natToDigits (sr + r0 + 2)) ++
              ([':'] ++ ((Char.ofNat (65 + (c + sc)) :: natToDigits (sr + r1 + 2)) ++
                [')']))) := by
        simp [String.data_append, address_data sr sc r0 c hclt,
          address_data sr sc r1 c hclt]
      refine pyFloat_letterhead_none _ 'S' 'U' ('M' :: '(' ::
          ((Char.ofNat (65 + (c + sc)) :: natToDigits (sr + r0 + 2)) ++
            ([':'] ++ ((Char.ofNat (65 + (c + sc)) :: natToDigits (sr + r1 + 2)) ++
              [')']))))
        (by rw [hsdata]; rfl) ?_ (by decide) (by decide) (by decide) (by decide)
        (by decide) (by decide)
      rw [hsdata]
      intro hmem
      rcases List.mem_append.1 hmem with h | h
      · exact absurd h (by decide)
      · rcases List.mem_append.1 h with h | h
        · exact space_not_in_addr (c + sc) (sr + r0 + 2) hclt h
        · rcases List.mem_append.1 h with h | h
          · exact absurd h (by decide)
          · rcases List.mem_append.1 h with h | h
            · exact space_not_in_addr (c + sc) (sr + r1 + 2) hclt h
            · exact absurd h (by decide)
  | avg c name es hfind hcol r0 r1 h01 h1 =>
      obtain ⟨hclt', hcidx⟩ := List.findIdx?_eq_some_iff_findIdx_eq.1 hfind
      have hclt : c + sc < 26 := by
        have := columns_len_width t
        omega
      have hheadq := range_cells_head r0 r1 h01 (fun rr => ⟨t.id, name, rr⟩)
      have hlastq := range_cells_last r0 r1 h01 (fun rr => ⟨t.id, name, rr⟩)
      have hform : (CellExpr.AverageCellsRef (((List.range (r1 + 1 - r0)).map
          (r0 + ·)).map (fun rr => (⟨t.id, name, rr⟩ : Element)))).to_formula
          (writeMapping t sr sc) true =
          .ok (.str ("AVERAGE(" ++ (int_to_alpha (c + sc) ++
            natToStr (sr + r0 + 2)) ++ ":" ++ (int_to_alpha (c + sc) ++
            natToStr (sr + r1 + 2)) ++ ")")) := by
        rw [to_formula_avg _ _ _ _ _ hheadq hlastq,
          get_cell_mapping_write t sr sc name r0 c hfind, except_ok_bind,
          get_cell_mapping_write t sr sc name r1 c hfind, except_ok_bind]
        rfl
      rw [hform] at hf
      injection hf with h1
      injection h1 with h2
      subst h2
      have hsdata : ("AVERAGE(" ++ (int_to_alpha (c + sc) ++
          natToStr (sr + r0 + 2)) ++ ":" ++ (int_to_alpha (c + sc) ++
          natToStr (sr + r1 + 2)) ++ ")").data =
          "AVERAGE(".data ++
            ((Char.ofNat (65 + (c + sc)) :: natToDigits (sr + r0 + 2)) ++
              ([':'] ++ ((Char.ofNat (65 + (c + sc)) :: natToDigits (sr + r1 + 2)) ++
                [')']))) := by
        simp [String.data_append, address_data sr sc r0 c hclt,
          address_data sr sc r1 c hclt]
      refine pyFloat_letterhead_none _ 'A' 'V' ('E' :: 'R' :: 'A' :: 'G' :: 'E' ::
          '(' :: ((Char.ofNat (65 + (c + sc)) :: natToDigits (sr + r0 + 2)) ++
            ([':'] ++ ((Char.ofNat (65 + (c + sc)) :: natToDigits (sr + r1 + 2)) ++
              [')']))))
        (by rw [hsdata]; rfl) ?_ (by decide) (by decide) (by decide) (by decide)
        (by decide) (by decide)
      rw [hsdata]
      intro hmem
      rcases List.mem_append.1 hmem with h | h
      · exact absurd h (by decide)
      · rcases List.mem_append.1 h with h | h
        · exact space_not_in_addr (c + sc) (sr + r0 + 2) hclt h
        · rcases List.mem_append.1 h with h | h
          · exact absurd h (by decide)
          · rcases List.mem_append.1 h with h | h
            · exact space_not_in_addr (c + sc) (sr + r1 + 2) hclt h
            · exact absurd h (by decide)
  | @add l r hl hrr =>
      obtain ⟨sl, hfl, htl, ⟨hh, hhs, hheq, hhne⟩, -⟩ := renderLex t sr sc hcols hl
      obtain ⟨sr', hfr, htr, -, -⟩ := renderLex t sr sc hcols hrr
      have hform : (CellExpr.Add l r).to_formula (writeMapping t sr sc) true =
          .ok (.str (sl ++ " + " ++
            (if isAS r then "(" ++ sr' ++ ")" else sr'))) := by
        show catchInvalid ((l.to_formula (writeMapping t sr sc) true) >>= fun lf =>
            (r.to_formula (writeMapping t sr sc) true) >>= fun rf =>
            pure (.str (wrapOperand l 2 false lf.toStr ++ " + " ++
              wrapOperand r 2 true rf.toStr))) = _
        rw [hfl, except_ok_bind, hfr, except_ok_bind, htl, htr]
        rw [show wrapOperand l 2 false sl = sl by
          simp [wrapOperand, subset_wrap_left_add hl]]
        rw [show wrapOperand r 2 true sr' =
            (if isAS r then "(" ++ sr' ++ ")" else sr') by
          simp only [wrapOperand, subset_wrap_right_add hrr]]
        rfl
      rw [hform] at hf
      injection hf with h1
      injection h1 with h2
      subst h2
      refine pyFloat_op_none _ hhs
        ('+' :: ' ' :: (if isAS r then "(" ++ sr' ++ ")" else sr').data) hh '+'
        ?_ hhne (List.mem_cons_self _ _) (by decide)
      simp [String.data_append, hheq]
  | @sub l r hl hrr =>
      obtain ⟨sl, hfl, htl, ⟨hh, hhs, hheq, hhne⟩, -⟩ := renderLex t sr sc hcols hl
      obtain ⟨sr', hfr, htr, -, -⟩ := renderLex t sr sc hcols hrr
      have hform : (CellExpr.Sub l r).to_formula (writeMapping t sr sc) true =
          .ok (.str (sl ++ " - " ++
            (if isAS r then "(" ++ sr' ++ ")" else sr'))) := by
        show catchInvalid ((l.to_formula (writeMapping t sr sc) true) >>= fun lf =>
            (r.to_formula (writeMapping t sr sc) true) >>= fun rf =>
            pure (.str (wrapOperand l 2 false lf.toStr ++ " - " ++
              wrapOperand r 2 true rf.toStr))) = _
        rw [hfl, except_ok_bind, hfr, except_ok_bind, htl, htr]
        rw [show wrapOperand l 2 false sl = sl by
          simp [wrapOperand, subset_wrap_left_add hl]]
        rw [show wrapOperand r 2 true sr' =
            (if isAS r then "(" ++ sr' ++ ")" else sr') by
          simp only [wrapOperand, subset_wrap_right_add hrr]]
        rfl
      rw [hform] at hf
      injection hf with h1
      injection h1 with h2
      subst h2
      refine pyFloat_op_none _ hhs
        ('-' :: ' ' :: (if isAS r then "(" ++ sr' ++ ")" else sr').data) hh '-'
        ?_ hhne (List.mem_cons_self _ _) (by decide)
      simp [String.data_append, hheq]
  | @mult l r hl hrr =>
      obtain ⟨sl, hfl, htl, ⟨hh, hhs, hheq, hhne⟩, -⟩ := renderLex t sr sc hcols hl
      obtain ⟨sr', hfr, htr, -, -⟩ := renderLex t sr sc hcols hrr
      have hform : (CellExpr.Mult l r).to_formula (writeMapping t sr sc) true =
          .ok (.str ((if isAS l then "(" ++ sl ++ ")" else sl) ++ " * " ++
            (if isASMD r then "(" ++ sr' ++ ")" else sr'))) := by
        show catchInvalid ((l.to_formula (writeMapping t sr sc) true) >>= fun lf =>
            (r.to_formula (writeMapping t sr sc) true) >>= fun rf =>
            pure (.str (wrapOperand l 3 false lf.toStr ++ " * " ++
              wrapOperand r 3 true rf.toStr))) = _
        rw [hfl, except_ok_bind, hfr, except_ok_bind, htl, htr]
        rw [show wrapOperand l 3 false sl =
            (if isAS l then "(" ++ sl ++ ")" else sl) by
          simp only [wrapOperand, subset_wrap_left_mul hl]]
        rw [show wrapOperand r 3 true sr' =
            (if isASMD r then "(" ++ sr' ++ ")" else sr') by
          simp only [wrapOperand, subset_wrap_right_mul hrr]]
        rfl
      rw [hform] at hf
      injection hf with h1
      injection h1 with h2
      subst h2
      by_cases hAS : isAS l
      · rw [if_pos hAS]
        refine pyFloat_op_none _ (sl.data ++ [')'])
          ('*' :: ' ' :: (if isASMD r then "(" ++ sr' ++ ")" else sr').data)
          '(' '*' ?_ (by decide) (List.mem_cons_self _ _) (by decide)
        simp [String.data_append]
      · rw [if_neg hAS]
        refine pyFloat_op_none _ hhs
          ('*' :: ' ' :: (if isASMD r then "(" ++ sr' ++ ")" else sr').data)
          hh '*' ?_ hhne (List.mem_cons_self _ _) (by decide)
        simp [String.data_append, hheq]
  | @div l r hl hrr =>
      obtain ⟨sl, hfl, htl, ⟨hh, hhs, hheq, hhne⟩, -⟩ := renderLex t sr sc hcols hl
      obtain ⟨sr', hfr, htr, -, -⟩ := renderLex t sr sc hcols hrr
      have hform : (CellExpr.Div l r).to_formula (writeMapping t sr sc) true =
          .ok (.str ((if isAS l then "(" ++ sl ++ ")" else sl) ++ " / " ++
            (if isASMD r then "(" ++ sr' ++ ")" else sr'))) := by
        show catchInvalid ((l.to_formula (writeMapping t sr sc) true) >>= fun lf =>
            (r.to_formula (writeMapping t sr sc) true) >>= fun rf =>
            pure (.str (wrapOperand l 3 false lf.toStr ++ " / " ++
              wrapOperand r 3 true rf.toStr))) = _
        rw [hfl, except_ok_bind, hfr, except_ok_bind, htl, htr]
        rw [show wrapOperand l 3 false sl =
            (if isAS l then "(" ++ sl ++ ")" else sl) by
          simp only [wrapOperand, subset_wrap_left_mul hl]]
        rw [show wrapOperand r 3 true sr' =
            (if isASMD r then "(" ++ sr' ++ ")" else sr') by
          simp only [wrapOperand, subset_wrap_right_mul hrr]]
        rfl
      rw [hform] at hf
      injection hf with h1
      injection h1 with h2
      subst h2
      by_cases hAS : isAS l
      · rw [if_pos hAS]
        refine pyFloat_op_none _ (sl.data ++ [')'])
          ('/' :: ' ' :: (if isASMD r then "(" ++ sr' ++ ")" else sr').data)
          '(' '/' ?_ (by decide) (List.mem_cons_self _ _) (by decide)
        simp [String.data_append]
      · rw [if_neg hAS]
        refine pyFloat_op_none _ hhs
          ('/' :: ' ' :: (if isASMD r then "(" ++ sr' ++ ")" else sr').data)
          hh '/' ?_ hhne (List.mem_cons_self _ _) (by decide)
        simp [String.data_append, hheq]

/-- C1 (amended): on the supported subset — in-bounds references of a
single-block table whose columns fit in single letters, ascending
aggregate ranges, and top-level constants with an exact two-decimal
rendering below 1000 in magnitude — the write/read codec reparses the
rendered formula to the same expression transplanted onto the re-read
table, and its `compute` under the corresponding store equals the
original `compute`. -/
theorem claim_C1_roundtrip (t : ExcelFrame) (newId start_row start_col fuel : ℕ)
    {e : CellExpr} (hsub : SubsetOK t e)
    (hrect : ∀ p ∈ t.cols, p.2.length = t.height)
    (hcols : start_col + t.width ≤ 26)
    (htop : ∀ q, e = CellExpr.Constant (some (.num q)) → q.den ∣ 100 ∧ |q| < 1000)
    (hfuel : cTerm e + 1 ≤ fuel)
    (stW stR : Store)
    (hst : ∀ nm i, stR ⟨newId, nm, i⟩ = stW ⟨t.id, nm, i⟩) :
    codecRoundTrip t newId start_row start_col fuel e =
      some (e.renameElems (rekey t.id newId)) ∧
    (e.renameElems (rekey t.id newId)).compute stR = e.compute stW := by
  refine ⟨?_, renameCompute t newId stW stR hst hsub⟩
  by_cases hconst : ∃ q, e = CellExpr.Constant (some (.num q))
  · obtain ⟨q, rfl⟩ := hconst
    obtain ⟨hdvd, habs⟩ := htop q rfl
    have hwctC : write_cell_text (writeMapping t start_row start_col)
        (CellExpr.Constant (some (.num q))) = .ok (formatCommas q) := rfl
    have hlxC : lex (formatCommas q) = some [Tok.num q none] := by
      have h := lexPB_formatCommas q hdvd habs 1 [] [] trivial rfl
      rw [List.append_nil, List.append_nil] at h
      exact h
    unfold codecRoundTrip
    rw [hwctC]
    show parseFormula (readCtx t newId start_row start_col) fuel
      (formatCommas q) = _
    unfold parseFormula
    rw [hlxC]
    rfl
  · obtain ⟨s, hfm, hts, ⟨hh, hhs, hheq, hhne⟩, hlex⟩ :=
      renderLex t start_row start_col hcols hsub
    have hri : riOf e s = .str s := by
      cases hsub <;> first | rfl | exact absurd ⟨_, rfl⟩ hconst
    rw [hri] at hfm
    have hprim : e.is_primitive = false := by
      cases hsub <;> first | rfl | exact absurd ⟨_, rfl⟩ hconst
    have hpf : pyFloat? s = none :=
      renderFloatNone t start_row start_col hcols hsub s hfm
    have hwct : write_cell_text (writeMapping t start_row start_col) e =
        .ok ("=" ++ s) := by
      simp only [write_cell_text, cell_to_formula, hfm, except_ok_bind, hpf,
        hprim]
      rfl
    have hbase : lexRun (s.data.length + 1) s.data =
        some (exprToks (colChar t start_col) (rowNum start_row) e) := by
      have h := hlex 1 [] [] trivial rfl
      rw [List.append_nil, List.append_nil] at h
      exact h
    have hlx : lex ("=" ++ s) =
        some (Tok.eq :: exprToks (colChar t start_col) (rowNum start_row) e) := by
      show lexRun (("=" ++ s).length + 1) ("=" ++ s).data = _
      rw [show ("=" ++ s).data = '=' :: s.data by simp [String.data_append]]
      rw [show ("=" ++ s).length + 1 = s.data.length + 1 + 1 by
        rw [String.length_append]
        show 1 + s.data.length + 1 = s.data.length + 1 + 1
        omega]
      rw [lexRun_eqch, hbase]
      rfl
    have hpt : parseTerm (readCtx t newId start_row start_col) fuel
        (exprToks (colChar t start_col) (rowNum start_row) e) =
        some (e.renameElems (rekey t.id newId), []) := by
      have h := (parseSubset t newId start_row start_col hrect hcols hsub).2.2
        1 fuel [] (e.renameElems (rekey t.id newId), []) hfuel trivial
        (termLoop_stop _ _ [] trivial)
      rw [List.append_nil] at h
      exact h
    unfold codecRoundTrip
    rw [hwct]
    show parseFormula (readCtx t newId start_row start_col) fuel ("=" ++ s) = _
    unfold parseFormula
    rw [hlx]
    show parseExcelToks (readCtx t newId start_row start_col) fuel
      (Tok.eq :: exprToks (colChar t start_col) (rowNum start_row) e) = _
    simp only [parseExcelToks, hpt]

theorem fc1234 : formatCommas (1234 : ℚ) = "1,234.00" := by
  have h1 : (1234 : ℚ) * 100 = 123400 := by norm_num
  have h2 : roundHalfEven (123400 : ℚ) = 123400 := by
    unfold roundHalfEven
    rw [show ⌊(123400 : ℚ)⌋ = 123400 from by norm_num]
    rw [if_pos (by norm_num)]
  unfold formatCommas
  rw [h1, h2, if_neg (by norm_num)]
  decide

/-- C1, refuted as stated: the codec reformats top-level constants with
comma-thousands two-decimal text, which the reading parser cannot lex;
`Constant 1234` computes to `1234` but round-trips to a hard parse
failure. -/
theorem claim_C1_counterexample :
    SubsetOK ⟨0, [("x", [CellExpr.Empty])]⟩
      (CellExpr.Constant (some (.num 1234))) ∧
    (CellExpr.Constant (some (.num 1234))).compute (fun _ => none) =
      some (.num 1234) ∧
    codecRoundTrip ⟨0, [("x", [CellExpr.Empty])]⟩ 1 0 0 50
      (CellExpr.Constant (some (.num 1234))) = none := by
  refine ⟨SubsetOK.const 1234 ?_, rfl, ?_⟩
  · rw [show ((1234 : ℚ)).den = 1 from by norm_num]
    decide
  · unfold codecRoundTrip
    rw [show write_cell_text (writeMapping ⟨0, [("x", [CellExpr.Empty])]⟩ 0 0)
        (CellExpr.Constant (some (.num 1234))) = .ok (formatCommas 1234)
      from rfl]
    show parseFormula (readCtx ⟨0, [("x", [CellExpr.Empty])]⟩ 1 0 0) 50
      (formatCommas 1234) = none
    rw [fc1234]
    unfold parseFormula
    rw [show lex "1,234.00" = none from by decide]
    rfl

theorem claim_C1_witness :
    codecRoundTrip ⟨0, [("x", [CellExpr.Empty, CellExpr.Empty])]⟩ 1 0 0 20
        (CellExpr.Add (CellExpr.CellRef ⟨0, "x", 0⟩)
          (CellExpr.Constant (some (.num 2)))) =
      some (CellExpr.Add (CellExpr.CellRef ⟨1, "x", 0⟩)
        (CellExpr.Constant (some (.num 2)))) ∧
    (CellExpr.Add (CellExpr.CellRef ⟨1, "x", 0⟩)
        (CellExpr.Constant (some (.num 2)))).compute
      (fun el => if el.col_name = "x" ∧ el.idx = 0
        then some (Val.num 5) else none) =
    (CellExpr.Add (CellExpr.CellRef ⟨0, "x", 0⟩)
        (CellExpr.Constant (some (.num 2)))).compute
      (fun el => if el.col_name = "x" ∧ el.idx = 0
        then some (Val.num 5) else none) :=
  claim_C1_roundtrip ⟨0, [("x", [CellExpr.Empty, CellExpr.Empty])]⟩ 1 0 0 20
    (SubsetOK.add
      (SubsetOK.ref 0 0 "x" [CellExpr.Empty, CellExpr.Empty] (by decide)
        (by decide) (by decide))
      (SubsetOK.const 2 (by rw [show ((2 : ℚ)).den = 1 from by norm_num]; decide)))
    (by decide) (by decide)
    (fun q h => CellExpr.noConfusion h)
    (by decide)
    (fun el => if el.col_name = "x" ∧ el.idx = 0 then some (Val.num 5) else none)
    (fun el => if el.col_name = "x" ∧ el.idx = 0 then some (Val.num 5) else none)
    (fun nm i => rfl)
